import Mathlib

/-!
# macpwr: settings extraction and application

A shallow embedding of the Go packages `settings`, `profiles`, `presets`,
`battery` and of the `set` command of `cmd/macpwr`, with the properties the
specification states about them.

Conventions of the embedding.

* A Go `string` is modelled as `List Char` (`Str`): texts are sequences of
  Unicode characters, i.e. valid UTF-8.  All patterns and separators of the
  program are ASCII, so byte offsets and character offsets delimit the same
  pieces of text.
* A Go `int` is a 64-bit integer; values are modelled in `Int`, and the
  library function that produces an `int` from text (`strconv.Atoi`)
  saturates explicitly.
* Calls that leave the process (`os/exec`, the file system, the clock) go
  through a `World`, a record of oracles over an abstract state; every
  operation also returns the list of `Event`s it issued, in order.
-/

namespace Macpwr

/-- A Go string. -/
abbrev Str := List Char

/-! ## Library layer: `regexp` (the RE2 fragment used by the program) -/

namespace Regexp

/-- The Perl class `\s` of RE2: `[\t\n\f\r ]`. -/
def isSpace (c : Char) : Bool :=
  c == '\t' || c == '\n' || c == Char.ofNat 12 || c == '\r' || c == ' '

/-- The Perl class `\d` of RE2: `[0-9]`. -/
def isDigit (c : Char) : Bool :=
  decide ('0'.toNat ≤ c.toNat ∧ c.toNat ≤ '9'.toNat)

/-- The Perl class `\w` of RE2: `[0-9A-Za-z_]`. -/
def isWord (c : Char) : Bool :=
  decide ('0'.toNat ≤ c.toNat ∧ c.toNat ≤ '9'.toNat) ||
  decide ('A'.toNat ≤ c.toNat ∧ c.toNat ≤ 'Z'.toNat) ||
  decide ('a'.toNat ≤ c.toNat ∧ c.toNat ≤ 'z'.toNat) || c == '_'

/-- The bracket class `[a-zA-Z0-9_-]`. -/
def isNameChar (c : Char) : Bool :=
  decide ('a'.toNat ≤ c.toNat ∧ c.toNat ≤ 'z'.toNat) ||
  decide ('A'.toNat ≤ c.toNat ∧ c.toNat ≤ 'Z'.toNat) ||
  decide ('0'.toNat ≤ c.toNat ∧ c.toNat ≤ '9'.toNat) || c == '_' || c == '-'

/-- Pattern items.  A pattern is a list of items, matched left to right. -/
inductive Atom where
  /-- `(?m)^`: at the start of the text or right after a newline. -/
  | bol : Atom
  /-- `^` without the `m` flag: at the start of the text. -/
  | bot : Atom
  /-- `$` without the `m` flag: at the end of the text. -/
  | eot : Atom
  /-- A literal character. -/
  | lit : Char → Atom
  /-- Greedy `x*` over a character class. -/
  | star : (Char → Bool) → Atom
  /-- Greedy `x+` over a character class. -/
  | plus : (Char → Bool) → Atom
  /-- Opening parenthesis of capture group 1. -/
  | capOpen : Atom
  /-- Closing parenthesis of capture group 1. -/
  | capClose : Atom

/-- Greedy repetition of a class in front of the continuation `k`: one more
character is tried first, the shorter repetition only when that fails
(leftmost-first preference, as a backtracking matcher finds it). -/
def rep {R : Type} (cls : Char → Bool) (k : Option Char → Str → Option R) :
    Option Char → Str → Option R
  | prev, [] => k prev []
  | prev, c :: cs =>
    if cls c then
      match rep cls k (some c) cs with
      | some r => some r
      | none => k prev (c :: cs)
    else k prev (c :: cs)

/-- Match a pattern at the current position.  `prev` is the character before
the position (`none` at the start of the text), `cap` the text from the
opening of group 1 on (then the group's text, once closed).  The result is
the text of group 1. -/
def matchHere : List Atom → Str → Option Char → Str → Option Str
  | [], cap, _, _ => some cap
  | Atom.bol :: r, cap, prev, s =>
    if prev = none ∨ prev = some '\n' then matchHere r cap prev s else none
  | Atom.bot :: r, cap, prev, s =>
    if prev = none then matchHere r cap prev s else none
  | Atom.eot :: r, cap, prev, s =>
    if s = [] then matchHere r cap prev s else none
  | Atom.lit c :: r, cap, _, s =>
    match s with
    | [] => none
    | x :: xs => if x = c then matchHere r cap (some x) xs else none
  | Atom.star cls :: r, cap, prev, s =>
    rep cls (fun p t => matchHere r cap p t) prev s
  | Atom.plus cls :: r, cap, _, s =>
    match s with
    | [] => none
    | x :: xs =>
      if cls x then rep cls (fun p t => matchHere r cap p t) (some x) xs else none
  | Atom.capOpen :: r, _, prev, s => matchHere r s prev s
  | Atom.capClose :: r, cap, prev, s =>
    matchHere r (cap.take (cap.length - s.length)) prev s

/-- Leftmost match: the start positions are tried from left to right. -/
def find (pat : List Atom) : Option Char → Str → Option Str
  | prev, [] => matchHere pat [] prev []
  | prev, c :: cs =>
    match matchHere pat [] prev (c :: cs) with
    | some r => some r
    | none => find pat (some c) cs

/-- `(*Regexp).FindStringSubmatch`, reduced to what the callers read: `none`
when there is no match (`len(matches) < 2`), else `matches[1]`. -/
def findStringSubmatch (pat : List Atom) (s : Str) : Option Str :=
  find pat none s

/-- `(*Regexp).MatchString`. -/
def matchString (pat : List Atom) (s : Str) : Bool :=
  (find pat none s).isSome

end Regexp

/-! ## Library layer: `strconv` -/

namespace Strconv

/-- The error kinds of `strconv.NumError`. -/
inductive NumError where
  | errSyntax : NumError
  | errRange : NumError
  deriving DecidableEq, Repr

/-- Largest `uint64`. -/
def maxUint64 : Nat := 2 ^ 64 - 1

/-- The digit loop of `strconv.ParseUint(s, 10, 64)` from the running value
`n`: a character that is no decimal digit is a syntax error (value 0), a
value past `maxUint64` a range error (value `maxUint64`), reported at the
character where it happens. -/
def parseUintLoop : Nat → Str → Nat × Option NumError
  | n, [] => (n, none)
  | n, c :: cs =>
    if Regexp.isDigit c then
      if n ≥ maxUint64 / 10 + 1 then (maxUint64, some NumError.errRange)
      else if n * 10 + (c.toNat - '0'.toNat) > maxUint64 then
        (maxUint64, some NumError.errRange)
      else parseUintLoop (n * 10 + (c.toNat - '0'.toNat)) cs
    else (0, some NumError.errSyntax)

/-- `strconv.ParseUint(s, 10, 64)`. -/
def parseUint (s : Str) : Nat × Option NumError :=
  match s with
  | [] => (0, some NumError.errSyntax)
  | _ => parseUintLoop 0 s

/-- `strconv.ParseInt(s, 10, 0)` on a 64-bit platform. -/
def parseInt (s : Str) : Int × Option NumError :=
  match s with
  | [] => (0, some NumError.errSyntax)
  | c :: cs =>
    let neg := c == '-'
    let body := if c == '+' || c == '-' then cs else c :: cs
    match parseUint body with
    | (_, some NumError.errSyntax) => (0, some NumError.errSyntax)
    | (un, _) =>
      if !neg && un ≥ 2 ^ 63 then ((2 : Int) ^ 63 - 1, some NumError.errRange)
      else if neg && un > 2 ^ 63 then (-(2 : Int) ^ 63, some NumError.errRange)
      else (if neg then -(un : Int) else (un : Int), none)

/-- `strconv.Atoi`: the value and the error.  (The fast path Atoi takes for
short inputs computes the same pair as `ParseInt`.) -/
def atoi (s : Str) : Int × Option NumError :=
  parseInt s

/-- `strconv.Itoa`, also what the verb `%d` prints for an `int`. -/
def itoa (v : Int) : Str :=
  if v < 0 then '-' :: Nat.toDigits 10 (-v).toNat else Nat.toDigits 10 v.toNat

end Strconv

/-! ## Library layer: arithmetic of the type `int` (64 bits) -/

namespace GoInt

/-- The value an `int` holds after an operation whose exact result is `x`:
`x` modulo 2^64, read as a signed number. -/
def wrap (x : Int) : Int :=
  (x + 2 ^ 63) % 2 ^ 64 - 2 ^ 63

/-- The operator `*` on `int`. -/
def mul (a b : Int) : Int :=
  wrap (a * b)

/-- The operator `/` on `int` for a divisor other than 0: the quotient
truncated toward zero. -/
def quo (a b : Int) : Int :=
  wrap (Int.tdiv a b)

end GoInt

/-! ## Library layer: `strings`, `unicode`, `bufio` -/

namespace Strings

/-- `strings.HasPrefix`. -/
def hasPrefix (s pre : Str) : Bool :=
  pre.isPrefixOf s

/-- `strings.TrimPrefix`. -/
def trimPrefix (s pre : Str) : Str :=
  if hasPrefix s pre then s.drop pre.length else s

/-- Cut `s` around the first occurrence of `sep` (`strings.Index` and the two
slices around the hit); `none` when `sep` does not occur. -/
def cut (sep : Str) : Str → Option (Str × Str)
  | [] => if sep.isPrefixOf [] then some ([], []) else none
  | c :: cs =>
    if sep.isPrefixOf (c :: cs) then some ([], (c :: cs).drop sep.length)
    else
      match cut sep cs with
      | some (a, b) => some (c :: a, b)
      | none => none

/-- The piece `pre` is the text of `s` before the first occurrence of `sep`,
or all of `s` when `sep` does not occur in it. -/
def IsFirstPiece (sep s pre : Str) : Prop :=
  (¬ sep <:+: s ∧ pre = s) ∨
  (pre ++ sep <+: s ∧ ¬ sep <:+: pre ++ sep.dropLast)

instance (sep s pre : Str) : Decidable (IsFirstPiece sep s pre) := by
  unfold IsFirstPiece
  infer_instance

/-- `strings.Contains`. -/
def contains (s sub : Str) : Bool :=
  (cut sub s).isSome

/-- The loop of `strings.genSplit` for a non-empty separator, allowed to cut
at most `n` times. -/
def genSplit (sep : Str) : Nat → Str → List Str
  | 0, s => [s]
  | n + 1, s =>
    match cut sep s with
    | none => [s]
    | some (a, rest) => a :: genSplit sep n rest

/-- `strings.Split(s, sep)` for a non-empty `sep`: the cut count
`Count(s, sep)` never stops the loop early, and is at most the length. -/
def split (s sep : Str) : List Str :=
  genSplit sep s.length s

/-- `strings.SplitN(s, sep, 2)` for a non-empty `sep`: at most one cut. -/
def splitN2 (s sep : Str) : List Str :=
  genSplit sep 1 s

/-- `unicode.IsSpace`. -/
def isUnicodeSpace (c : Char) : Bool :=
  c == '\t' || c == '\n' || c == Char.ofNat 11 || c == Char.ofNat 12 || c == '\r' ||
  c == ' ' || c == Char.ofNat 0x85 || c == Char.ofNat 0xA0 || c == Char.ofNat 0x1680 ||
  decide (0x2000 ≤ c.toNat ∧ c.toNat ≤ 0x200A) || c == Char.ofNat 0x2028 ||
  c == Char.ofNat 0x2029 || c == Char.ofNat 0x202F || c == Char.ofNat 0x205F ||
  c == Char.ofNat 0x3000

/-- Trailing white space removed. -/
def trimRight (s : Str) : Str :=
  (s.reverse.dropWhile isUnicodeSpace).reverse

/-- `strings.TrimSpace`. -/
def trimSpace (s : Str) : Str :=
  trimRight (s.dropWhile isUnicodeSpace)

end Strings

namespace Bufio

/-- `bufio.MaxScanTokenSize`. -/
def maxScanTokenSize : Nat := 64 * 1024

/-- Length of a text in bytes (UTF-8). -/
def byteLen (s : Str) : Nat :=
  (s.map Char.utf8Size).sum

/-- `dropCR` of `bufio.ScanLines`: one trailing carriage return is dropped. -/
def dropCR (s : Str) : Str :=
  if s.getLast? = some '\r' then s.dropLast else s

/-- The text split at every newline; the piece after the last newline is
listed also when it is empty. -/
def pieces : Str → List Str
  | [] => [[]]
  | c :: cs =>
    if c = '\n' then [] :: pieces cs
    else
      match pieces cs with
      | [] => [[c]]
      | l :: ls => (c :: l) :: ls

/-- The tokens `Scan` delivers for the pieces of a text, and whether the scan
ended with `ErrTooLong`: a piece that does not fit the buffer
(`maxScanTokenSize` bytes or more before its newline) stops the scan with
the error; an empty last piece is the end of the input, not a token. -/
def scanPieces : List Str → List Str × Bool
  | [] => ([], false)
  | [l] =>
    if byteLen l ≥ maxScanTokenSize then ([], true)
    else if l = [] then ([], false) else ([dropCR l], false)
  | l :: ls =>
    if byteLen l ≥ maxScanTokenSize then ([], true)
    else ((dropCR l) :: (scanPieces ls).1, (scanPieces ls).2)

/-- A `bufio.Scanner` with the default split function `ScanLines` and the
default buffer, run to the end over `data`. -/
def scanLines (data : Str) : List Str × Bool :=
  scanPieces (pieces data)

end Bufio

/-! ## The outside world -/

/-- An error value made outside the program (by `os/exec`, `bufio` or the
file system), with its message. -/
structure OsError where
  msg : Str
  deriving DecidableEq, Repr

/-- A Go `error` value, by the place that made it. -/
inductive GoError where
  /-- An error handed on from a library call. -/
  | external : OsError → GoError
  /-- The value of `fmt.Errorf(msg)` for a message without verbs. -/
  | errorf : Str → GoError
  /-- The value of `fmt.Errorf(msg + ": %w", cause)`. -/
  | wrapf : Str → GoError → GoError
  deriving DecidableEq, Repr

/-- The method `Error()`. -/
def GoError.Error : GoError → Str
  | GoError.external e => e.msg
  | GoError.errorf m => m
  | GoError.wrapf m cause => m ++ ": ".toList ++ cause.Error

/-- What an operation does outside the process, in the order it does it. -/
inductive Event where
  /-- A command line started through `os/exec` (`Run` or `Output`). -/
  | exec : List Str → Event
  /-- `os.MkdirAll(path, 0755)`. -/
  | mkdirAll : Str → Event
  /-- `os.Create(path)`. -/
  | create : Str → Event
  /-- `os.Open(path)` and the reads of the scanner. -/
  | read : Str → Event
  /-- One `fmt.Fprintf` or `fmt.Fprintln` to the file at `path`. -/
  | write : Str → Str → Event
  /-- One print to standard output. -/
  | stdout : Str → Event
  /-- `display.Error(msg)`. -/
  | error : Str → Event
  /-- `cmd.Help()`. -/
  | help : Event
  deriving DecidableEq, Repr

/-- The text a list of events writes to the file at `path`: the chunks of its
writes to that file, in order, one after the other. -/
def written (path : Str) : List Event → Str
  | [] => []
  | Event.write p chunk :: es => if p = path then chunk ++ written path es else written path es
  | _ :: es => written path es

/-- The oracles of the outside world over a state `σ`. -/
structure World (σ : Type) where
  /-- `exec.Command(argv...).Run()`. -/
  run : List Str → σ → Option OsError × σ
  /-- `exec.Command(argv...).Output()`. -/
  output : List Str → σ → Except OsError Str × σ
  /-- `os.MkdirAll(path, 0755)`. -/
  mkdirAll : Str → σ → Option OsError × σ
  /-- `os.Create(path)`. -/
  create : Str → σ → Option OsError × σ
  /-- `os.Open(path)` followed by reading the file to its end. -/
  readFile : Str → σ → Except OsError Str × σ
  /-- A write to the open file at `path` (its error is never read). -/
  write : Str → Str → σ → σ
  /-- `time.Now().Format(time.RFC1123)`. -/
  now : σ → Str
  /-- `ProfilesDir()`. -/
  profilesDir : Str
  /-- `filepath.Join(ProfilesDir(), name + ".profile")`. -/
  profilePath : Str → Str

/-- What an operation leaves: its result, the events it issued, the state. -/
structure Outcome (σ α : Type) where
  result : α
  events : List Event
  state : σ

/-- A world without state in which every call succeeds; the status tool
prints `status`, every file holds `file`, the clock reads `clock`. -/
def calmWorld (status file clock : Str) : World Unit where
  run := fun _ _ => (none, ())
  output := fun _ _ => (Except.ok status, ())
  mkdirAll := fun _ _ => (none, ())
  create := fun _ _ => (none, ())
  readFile := fun _ _ => (Except.ok file, ())
  write := fun _ _ _ => ()
  now := fun _ => clock
  profilesDir := "/Users/me/.config/macpwr/profiles".toList
  profilePath := fun name => "/Users/me/.config/macpwr/profiles/".toList ++ name ++ ".profile".toList

/-! ## Package `settings` -/

namespace Settings

open Regexp Strconv

/-- Power settings of one power source. -/
structure PowerSettings where
  DisplaySleep : Int
  SystemSleep : Int
  DiskSleep : Int
  PowerNap : Bool
  WakeOnLAN : Bool
  LowPowerMode : Bool
  TCPKeepAlive : Bool
  deriving DecidableEq, Repr

/-- Settings of both power sources.  `Get` fills both pointers or returns no
value at all, so the fields hold the structures themselves. -/
structure AllSettings where
  Battery : PowerSettings
  AC : PowerSettings
  deriving DecidableEq, Repr

/-- The compiled pattern `(?m)^\s*` + key + `\s+(\d+)`, for a key without
pattern metacharacters (every key of the program is a word of letters). -/
def settingPattern (key : Str) : List Atom :=
  [Atom.bol, Atom.star isSpace] ++ key.map Atom.lit ++
    [Atom.plus isSpace, Atom.capOpen, Atom.plus isDigit, Atom.capClose]

/-- A label of the status output: a non-empty word of `\w` characters, which
in a pattern stands for itself. -/
def IsLabel (key : Str) : Prop :=
  key ≠ [] ∧ ∀ c ∈ key, isWord c = true

instance (key : Str) : Decidable (IsLabel key) := by
  unfold IsLabel
  infer_instance

/-- The digits a text carries for a label at its start: optional white
space, the label, white space, and then digits, as many as follow. -/
def labelValue (key s : Str) : Option Str :=
  if key.isPrefixOf (s.dropWhile isSpace) then
    if (((s.dropWhile isSpace).drop key.length).takeWhile isSpace ≠ [] ∧
        ((((s.dropWhile isSpace).drop key.length).dropWhile isSpace).takeWhile isDigit ≠ []))
    then some ((((s.dropWhile isSpace).drop key.length).dropWhile isSpace).takeWhile isDigit)
    else none
  else none

/-- A line begins (after optional white space) with the label and holds
nothing but white space after it. -/
def danglingLabel (key line : Str) : Bool :=
  key.isPrefixOf (line.dropWhile isSpace) &&
    ((line.dropWhile isSpace).drop key.length).all isSpace

/-- The number a string of decimal digits denotes. -/
def decimalValue (ds : Str) : Nat :=
  ds.foldl (fun n c => n * 10 + (c.toNat - '0'.toNat)) 0

/-- `parseIntSetting`. -/
def parseIntSetting (sec key : Str) : Int :=
  match findStringSubmatch (settingPattern key) sec with
  | some m => (atoi m).1
  | none => 0

/-- `parseBoolSetting`. -/
def parseBoolSetting (sec key : Str) : Bool :=
  match findStringSubmatch (settingPattern key) sec with
  | some m => decide (m = "1".toList)
  | none => false

/-- `parseSection`. -/
def parseSection (sec : Str) : PowerSettings :=
  { DisplaySleep := parseIntSetting sec "displaysleep".toList
    SystemSleep := parseIntSetting sec "sleep".toList
    DiskSleep := parseIntSetting sec "disksleep".toList
    PowerNap := parseBoolSetting sec "powernap".toList
    WakeOnLAN := parseBoolSetting sec "womp".toList
    LowPowerMode := parseBoolSetting sec "lowpowermode".toList
    TCPKeepAlive := parseBoolSetting sec "tcpkeepalive".toList }

/-- The anchor `Get` splits the output at. -/
def anchor : Str := "AC Power:".toList

/-- The error `Get` makes when the output has no second part. -/
def formatError : GoError :=
  GoError.errorf "unexpected pmset output format".toList

/-- The part of `Get` after the status tool has answered: from the output
text to the settings or the format error. -/
def parseOutput (data : Str) : Except GoError AllSettings :=
  match Strings.split data anchor with
  | batterySection :: acSection :: _ =>
    Except.ok { Battery := parseSection batterySection, AC := parseSection acSection }
  | _ => Except.error formatError

/-- The command line of the status query. -/
def getArgv : List Str := ["pmset".toList, "-g".toList, "custom".toList]

/-- `Get`. -/
def Get {σ : Type} (W : World σ) (s : σ) : Outcome σ (Except GoError AllSettings) :=
  match W.output getArgv s with
  | (Except.error err, s1) => ⟨Except.error (GoError.external err), [Event.exec getArgv], s1⟩
  | (Except.ok output, s1) => ⟨parseOutput output, [Event.exec getArgv], s1⟩

/-- Options of `Set`; a nil pointer is `none`. -/
structure SetOptions where
  PowerSource : Str
  DisplaySleep : Option Int
  SystemSleep : Option Int
  DiskSleep : Option Int
  deriving DecidableEq, Repr

/-- The slice `args` that `Set` builds. -/
def setArgs (opts : SetOptions) : List Str :=
  let args := [opts.PowerSource]
  let args := match opts.DisplaySleep with
    | some v => args ++ ["displaysleep".toList, itoa v]
    | none => args
  let args := match opts.SystemSleep with
    | some v => args ++ ["sleep".toList, itoa v]
    | none => args
  let args := match opts.DiskSleep with
    | some v => args ++ ["disksleep".toList, itoa v]
    | none => args
  args

/-- The command line `Set` runs. -/
def setArgv (opts : SetOptions) : List Str :=
  "sudo".toList :: ("pmset".toList :: setArgs opts)

/-- `Set`. -/
def Set {σ : Type} (W : World σ) (opts : SetOptions) (s : σ) : Outcome σ (Option GoError) :=
  ⟨(W.run (setArgv opts) s).1.map GoError.external, [Event.exec (setArgv opts)],
    (W.run (setArgv opts) s).2⟩

end Settings

/-! ## Package `battery` -/

namespace Battery

open Regexp

/-- `strings.ToLower` on ASCII text (all a `\w+` group can hold): the
letters `A` to `Z` become `a` to `z`. -/
def toLower (s : Str) : Str :=
  s.map Char.toLower

/-- The compiled pattern `(?m)^\s+"` + key + `"\s*=\s*(\w+)`, for a key without
pattern metacharacters. -/
def boolPattern (key : Str) : List Atom :=
  [Atom.bol, Atom.plus isSpace, Atom.lit '"'] ++ key.map Atom.lit ++
    [Atom.lit '"', Atom.star isSpace, Atom.lit '=', Atom.star isSpace,
      Atom.capOpen, Atom.plus isWord, Atom.capClose]

/-- The label between double quotes, as the registry dump prints it. -/
def quoted (key : Str) : Str :=
  '"' :: key ++ ['"']

/-- The word a text carries for a label at its start: white space (at least
one character), the quoted label, optional white space, an equals sign,
optional white space, and then word characters, as many as follow. -/
def quotedValue (key s : Str) : Option Str :=
  if s.takeWhile isSpace ≠ [] ∧ (quoted key).isPrefixOf (s.dropWhile isSpace) then
    match ((s.dropWhile isSpace).drop (quoted key).length).dropWhile isSpace with
    | [] => none
    | c :: rest =>
      if c = '=' ∧ (rest.dropWhile isSpace).takeWhile isWord ≠ [] then
        some ((rest.dropWhile isSpace).takeWhile isWord)
      else none
  else none

/-- The rest of a text after each of its newlines, in order. -/
def afterNewlines : Str → List Str
  | [] => []
  | c :: cs => if c = '\n' then cs :: afterNewlines cs else afterNewlines cs

/-- The places where a line of a text begins, each as the text from there
on: the text itself, and what follows each newline. -/
def lineStarts (s : Str) : List Str :=
  s :: afterNewlines s

/-- `parseBoolValue`. -/
def parseBoolValue (data key : Str) : Bool :=
  match findStringSubmatch (boolPattern key) data with
  | some m => decide (toLower m = "yes".toList)
  | none => false

/-- The compiled pattern `(?m)^\s+"` + key + `"\s*=\s*(\d+)`, for a key without
pattern metacharacters. -/
def intPattern (key : Str) : List Atom :=
  [Atom.bol, Atom.plus isSpace, Atom.lit '"'] ++ key.map Atom.lit ++
    [Atom.lit '"', Atom.star isSpace, Atom.lit '=', Atom.star isSpace,
      Atom.capOpen, Atom.plus isDigit, Atom.capClose]

/-- `parseIntValue`: the error of `Atoi` is dropped, its value kept. -/
def parseIntValue (data key : Str) : Int :=
  match findStringSubmatch (intPattern key) data with
  | some m => (Strconv.atoi m).1
  | none => 0

/-- Battery information; the numeric fields are of type `int`. -/
structure Info where
  CurrentCapacity : Int
  MaxCapacity : Int
  DesignCapacity : Int
  CycleCount : Int
  IsCharging : Bool
  ExternalConnected : Bool
  FullyCharged : Bool
  Temperature : Int
  TimeRemaining : Int
  RawCurrentCapacity : Int
  RawMaxCapacity : Int
  deriving DecidableEq, Repr

/-- `ActualCurrentCapacity`. -/
def ActualCurrentCapacity (i : Info) : Int :=
  if i.RawCurrentCapacity > 0 then i.RawCurrentCapacity else i.CurrentCapacity

/-- `ActualMaxCapacity`. -/
def ActualMaxCapacity (i : Info) : Int :=
  if i.RawMaxCapacity > 0 then i.RawMaxCapacity else i.MaxCapacity

/-- `ChargePercent`. -/
def ChargePercent (i : Info) : Int :=
  if ActualMaxCapacity i ≤ 0 then 0
  else GoInt.quo (GoInt.mul (ActualCurrentCapacity i) 100) (ActualMaxCapacity i)

/-- `HealthPercent`. -/
def HealthPercent (i : Info) : Int :=
  if i.DesignCapacity ≤ 0 then 0
  else
    let health := GoInt.quo (GoInt.mul (ActualMaxCapacity i) 100) i.DesignCapacity
    if health > 100 then 100 else health

end Battery

/-! ## Package `caffeinate` -/

namespace Caffeinate

/-- Options for caffeinate. -/
structure Options where
  Duration : Int
  DisplayOnly : Bool
  IdleOnly : Bool
  SystemOnly : Bool
  Command : List Str
  deriving DecidableEq, Repr

/-- `buildArgs`; `fmt.Sprintf("%d", v)` prints what `strconv.Itoa(v)` gives,
and the product is one of type `int`. -/
def buildArgs (opts : Options) : List Str :=
  let args : List Str := []
  let args := if opts.DisplayOnly then args ++ ["-d".toList] else args
  let args := if opts.IdleOnly then args ++ ["-i".toList] else args
  let args := if opts.SystemOnly then args ++ ["-s".toList] else args
  let args := if args.length = 0 then ["-dims".toList] else args
  if opts.Duration > 0 then
    args ++ ["-t".toList, Strconv.itoa (GoInt.mul opts.Duration 60)]
  else args

/-- The runner `Run` hands the work to, with what it passes on. -/
inductive Call where
  /-- `exec.Command("caffeinate", args...).Run()` with the three standard
  streams of the process. -/
  | command : List Str → Call
  /-- `runWithCountdown(args, minutes)`. -/
  | countdown : List Str → Int → Call
  /-- `runIndefinitely(args)`. -/
  | indefinitely : List Str → Call
  deriving DecidableEq, Repr

/-- `Run`, up to the call it ends in. -/
def Run (opts : Options) : Call :=
  let args := buildArgs opts
  if opts.Command.length > 0 then Call.command (args ++ opts.Command)
  else if opts.Duration > 0 then Call.countdown args opts.Duration
  else Call.indefinitely args

/-- What the runner does with the child process and prints, in order. -/
inductive Action where
  /-- `cmd.Start()` of `caffeinate` with these arguments. -/
  | start : List Str → Action
  /-- One print to standard output. -/
  | print : Str → Action
  /-- `cmd.Process.Kill()`. -/
  | kill : Action
  /-- `cmd.Wait()`. -/
  | wait : Action
  deriving DecidableEq, Repr

/-- What one `select` of the countdown loop returns: the case `ctx.Done()`,
or the case of the ticker; with a tick, whether the context was cancelled
already (both cases were ready and `select` took the tick). -/
inductive Selected where
  | done : Selected
  | tick : Bool → Selected
  deriving DecidableEq, Repr

/-- The child process as `os/exec` presents it: the error of `cmd.Start()`,
and the error of `cmd.Wait()` given whether the context was cancelled while
the loop ran (the library then kills the child, and `Wait` reports how it
died). -/
structure Child where
  start : Option OsError
  wait : Bool → Option OsError

/-- The line of the countdown. -/
def remainingLine (remaining : Int) : Str :=
  "\r  Time remaining: ".toList ++ Strconv.itoa remaining ++ " min  ".toList

/-- The loop `for remaining > 0` of `runWithCountdown` and what follows it,
from the value of `remaining`, the number of the next `select` and whether
a cancellation was passed over so far: the actions and the error
returned. -/
def countdownLoop (child : Child) (sel : Nat → Selected) :
    Nat → Nat → Bool → List Action × Option OsError
  | 0, _, cancelled => ([Action.print "\n\n".toList, Action.wait], child.wait cancelled)
  | remaining + 1, turn, cancelled =>
    match sel turn with
    | Selected.done =>
      ([Action.print "\n\nCaffeinate cancelled.\n".toList, Action.kill], none)
    | Selected.tick ready =>
      (Action.print (remainingLine remaining) ::
          (countdownLoop child sel remaining (turn + 1) (cancelled || ready)).1,
        (countdownLoop child sel remaining (turn + 1) (cancelled || ready)).2)

/-- `runWithCountdown`: the actions and the error returned.  `sel` gives
what the successive `select` statements return. -/
def runWithCountdown (child : Child) (sel : Nat → Selected) (args : List Str)
    (minutes : Int) : List Action × Option OsError :=
  match child.start with
  | some err => ([Action.start args], some err)
  | none =>
    (Action.start args :: Action.print (remainingLine minutes) ::
        (countdownLoop child sel minutes.toNat 0 false).1,
      (countdownLoop child sel minutes.toNat 0 false).2)

end Caffeinate

/-! ## Package `presets` -/

namespace Presets

open Strconv

/-- Settings for a power source. -/
structure Settings where
  DisplaySleep : Int
  SystemSleep : Int
  DiskSleep : Int
  deriving DecidableEq, Repr

/-- A power preset. -/
structure Preset where
  Name : Str
  Description : Str
  AC : Settings
  Battery : Settings
  deriving DecidableEq, Repr

/-- `All`: the available presets. -/
def All : List Preset :=
  [ { Name := "default".toList
      Description := "Restore macOS default power settings".toList
      AC := { DisplaySleep := 10, SystemSleep := 0, DiskSleep := 10 }
      Battery := { DisplaySleep := 2, SystemSleep := 10, DiskSleep := 10 } },
    { Name := "presentation".toList
      Description := "Keep screen on, prevent sleep (ideal for presentations)".toList
      AC := { DisplaySleep := 0, SystemSleep := 0, DiskSleep := 0 }
      Battery := { DisplaySleep := 0, SystemSleep := 0, DiskSleep := 0 } },
    { Name := "battery-saver".toList
      Description := "Aggressive power saving to extend battery life".toList
      AC := { DisplaySleep := 5, SystemSleep := 10, DiskSleep := 5 }
      Battery := { DisplaySleep := 1, SystemSleep := 2, DiskSleep := 2 } },
    { Name := "performance".toList
      Description := "Maximum performance, no sleep restrictions".toList
      AC := { DisplaySleep := 0, SystemSleep := 0, DiskSleep := 0 }
      Battery := { DisplaySleep := 10, SystemSleep := 0, DiskSleep := 0 } },
    { Name := "movie".toList
      Description := "Screen stays on, system can sleep normally".toList
      AC := { DisplaySleep := 0, SystemSleep := 0, DiskSleep := 10 }
      Battery := { DisplaySleep := 0, SystemSleep := 30, DiskSleep := 10 } } ]

/-- The loop of `Get` over a slice of presets: the first one with the
name. -/
def lookup (name : Str) : List Preset → Option Preset
  | [] => none
  | p :: rest => if p.Name = name then some p else lookup name rest

/-- `Get`; nil is `none`. -/
def Get (name : Str) : Option Preset :=
  lookup (if name = "batterysaver".toList then "battery-saver".toList else name) All

/-- The command line of `applySettings`. -/
def applyArgv (powerSource : Str) (s : Settings) : List Str :=
  ["sudo".toList, "pmset".toList, powerSource,
    "displaysleep".toList, itoa s.DisplaySleep,
    "sleep".toList, itoa s.SystemSleep,
    "disksleep".toList, itoa s.DiskSleep]

/-- `applySettings`. -/
def applySettings {σ : Type} (W : World σ) (powerSource : Str) (s : Settings) (st : σ) :
    Outcome σ (Option GoError) :=
  ⟨(W.run (applyArgv powerSource s) st).1.map GoError.external,
    [Event.exec (applyArgv powerSource s)],
    (W.run (applyArgv powerSource s) st).2⟩

/-- `Apply`. -/
def Apply {σ : Type} (W : World σ) (p : Preset) (st : σ) : Outcome σ (Option GoError) :=
  let ac := applySettings W "-c".toList p.AC st
  match ac.result with
  | some err => ⟨some (GoError.wrapf "failed to apply AC settings".toList err), ac.events, ac.state⟩
  | none =>
    let bat := applySettings W "-b".toList p.Battery ac.state
    match bat.result with
    | some err =>
      ⟨some (GoError.wrapf "failed to apply battery settings".toList err),
        ac.events ++ bat.events, bat.state⟩
    | none => ⟨none, ac.events ++ bat.events, bat.state⟩

end Presets

/-! ## Package `profiles` -/

namespace Profiles

open Regexp Strconv

/-- Settings for a power source. -/
structure Settings where
  DisplaySleep : Int
  SystemSleep : Int
  DiskSleep : Int
  deriving DecidableEq, Repr

/-- A saved power profile; `τ` stands for `time.Time`. -/
structure Profile (τ : Type) where
  Name : Str
  Created : τ
  Battery : Settings
  AC : Settings

/-- The compiled pattern `^[a-zA-Z0-9_-]+$`. -/
def namePattern : List Atom :=
  [Atom.bot, Atom.plus isNameChar, Atom.eot]

/-- The error `Save` makes for a name the pattern rejects. -/
def invalidNameError : GoError :=
  GoError.errorf
    "invalid profile name: use only letters, numbers, hyphens, and underscores".toList

/-- A name matches `^[A-Za-z0-9_-]+$`: it is not empty and each of its
characters is a letter, a digit, an underscore or a hyphen. -/
def NameMatches (name : Str) : Prop :=
  name ≠ [] ∧ ∀ c ∈ name, isNameChar c = true

instance (name : Str) : Decidable (NameMatches name) := by
  unfold NameMatches
  infer_instance

/-- The pieces `Save` prints to the file, one per `Fprintf` or `Fprintln`;
`created` is `time.Now().Format(time.RFC1123)`. -/
def saveChunks (name created : Str) (current : Macpwr.Settings.AllSettings) : List Str :=
  [ "# macpwr profile: ".toList ++ name ++ "\n".toList,
    "# Created: ".toList ++ created ++ "\n\n".toList,
    "[battery]".toList ++ "\n".toList,
    "displaysleep=".toList ++ itoa current.Battery.DisplaySleep ++ "\n".toList,
    "sleep=".toList ++ itoa current.Battery.SystemSleep ++ "\n".toList,
    "disksleep=".toList ++ itoa current.Battery.DiskSleep ++ "\n\n".toList,
    "[ac]".toList ++ "\n".toList,
    "displaysleep=".toList ++ itoa current.AC.DisplaySleep ++ "\n".toList,
    "sleep=".toList ++ itoa current.AC.SystemSleep ++ "\n".toList,
    "disksleep=".toList ++ itoa current.AC.DiskSleep ++ "\n".toList ]

/-- The text of the file `Save` leaves when every write succeeds. -/
def saveText (name created : Str) (current : Macpwr.Settings.AllSettings) : Str :=
  (saveChunks name created current).flatten

/-- The lines of the profile layout, each to be ended by a newline: two
comment lines, a blank line, the battery section, a blank line, the AC
section. -/
def saveLines (name created : Str) (current : Macpwr.Settings.AllSettings) : List Str :=
  [ "# macpwr profile: ".toList ++ name,
    "# Created: ".toList ++ created,
    [],
    "[battery]".toList,
    "displaysleep=".toList ++ itoa current.Battery.DisplaySleep,
    "sleep=".toList ++ itoa current.Battery.SystemSleep,
    "disksleep=".toList ++ itoa current.Battery.DiskSleep,
    [],
    "[ac]".toList,
    "displaysleep=".toList ++ itoa current.AC.DisplaySleep,
    "sleep=".toList ++ itoa current.AC.SystemSleep,
    "disksleep=".toList ++ itoa current.AC.DiskSleep ]

/-- The writes of a list of chunks to the file at `path`, in order. -/
def writeAll {σ : Type} (W : World σ) (path : Str) : List Str → σ → σ
  | [], st => st
  | c :: cs, st => writeAll W path cs (W.write path c st)

/-- `Save`.  The clock is read when the second line is printed. -/
def Save {σ : Type} (W : World σ) (name : Str) (st : σ) : Outcome σ (Option GoError) :=
  if !matchString namePattern name then
    ⟨some invalidNameError, [], st⟩
  else
    match W.mkdirAll W.profilesDir st with
    | (some err, s1) => ⟨some (GoError.external err), [Event.mkdirAll W.profilesDir], s1⟩
    | (none, s1) =>
      let got := Macpwr.Settings.Get W s1
      match got.result with
      | Except.error err =>
        ⟨some (GoError.wrapf "failed to read current settings".toList err),
          Event.mkdirAll W.profilesDir :: got.events, got.state⟩
      | Except.ok current =>
        let path := W.profilePath name
        match W.create path got.state with
        | (some err, s3) =>
          ⟨some (GoError.external err),
            Event.mkdirAll W.profilesDir :: got.events ++ [Event.create path], s3⟩
        | (none, s3) =>
          let chunks := saveChunks name (W.now (W.write path
            ("# macpwr profile: ".toList ++ name ++ "\n".toList) s3)) current
          ⟨none,
            Event.mkdirAll W.profilesDir :: got.events ++ [Event.create path] ++
              chunks.map (Event.write path),
            writeAll W path chunks s3⟩

/-- One turn of the scanning loop of `Load`: the profile and the current
section before the line, and after it.  `timeParse` is
`time.Parse(time.RFC1123, ·)` with its error dropped. -/
def loadLine {τ : Type} (timeParse : Str → τ) (st : Profile τ × Str) (text : Str) :
    Profile τ × Str :=
  let p := st.1
  let currentSection := st.2
  let line := Strings.trimSpace text
  if Strings.hasPrefix line "# Created:".toList then
    ({ p with Created := timeParse (Strings.trimPrefix line "# Created: ".toList) },
      currentSection)
  else if line = "[battery]".toList then (p, "battery".toList)
  else if line = "[ac]".toList then (p, "ac".toList)
  else if Strings.contains line "=".toList then
    match Strings.splitN2 line "=".toList with
    | key :: value :: _ =>
      let val := (atoi value).1
      if currentSection = "battery".toList then
        if key = "displaysleep".toList then
          ({ p with Battery := { p.Battery with DisplaySleep := val } }, currentSection)
        else if key = "sleep".toList then
          ({ p with Battery := { p.Battery with SystemSleep := val } }, currentSection)
        else if key = "disksleep".toList then
          ({ p with Battery := { p.Battery with DiskSleep := val } }, currentSection)
        else (p, currentSection)
      else if currentSection = "ac".toList then
        if key = "displaysleep".toList then
          ({ p with AC := { p.AC with DisplaySleep := val } }, currentSection)
        else if key = "sleep".toList then
          ({ p with AC := { p.AC with SystemSleep := val } }, currentSection)
        else if key = "disksleep".toList then
          ({ p with AC := { p.AC with DiskSleep := val } }, currentSection)
        else (p, currentSection)
      else (p, currentSection)
    | _ => (p, currentSection)
  else (p, currentSection)

/-- The scanning loop of `Load` over the lines the scanner delivers, from
the fresh profile `&Profile{Name: name}` (`zero` is the zero `time.Time`)
and no current section: the profile and the current section at the end. -/
def loadState {τ : Type} (timeParse : Str → τ) (zero : τ) (name : Str) (lines : List Str) :
    Profile τ × Str :=
  lines.foldl (loadLine timeParse)
    (({ Name := name, Created := zero, Battery := ⟨0, 0, 0⟩, AC := ⟨0, 0, 0⟩ } : Profile τ),
      ([] : Str))

/-- The profile `Load` returns for the lines the scanner delivers. -/
def loadLines {τ : Type} (timeParse : Str → τ) (zero : τ) (name : Str) (lines : List Str) :
    Profile τ :=
  (loadState timeParse zero name lines).1

/-- A line is a section header: trimmed, it is exactly `[battery]` or
`[ac]`. -/
def isHeader (text : Str) : Bool :=
  decide (Strings.trimSpace text = "[battery]".toList) ||
    decide (Strings.trimSpace text = "[ac]".toList)

/-- The section named by the most recent header among `lines`: `battery`,
`ac`, or the empty name when no header has been seen. -/
def sectionOf (lines : List Str) : Str :=
  match lines.reverse.find? isHeader with
  | some h => if Strings.trimSpace h = "[battery]".toList then "battery".toList else "ac".toList
  | none => []

/-- `scanner.Err()` after the loop. -/
def scanErr (tooLong : Bool) : Option GoError :=
  if tooLong then some (GoError.external ⟨"bufio.Scanner: token too long".toList⟩) else none

/-- `Load`: the profile (nil when the file cannot be opened) and the error. -/
def Load {σ : Type} {τ : Type} (W : World σ) (timeParse : Str → τ) (zero : τ) (name : Str)
    (st : σ) : Outcome σ (Option (Profile τ) × Option GoError) :=
  let path := W.profilePath name
  match W.readFile path st with
  | (Except.error err, s1) => ⟨(none, some (GoError.external err)), [Event.read path], s1⟩
  | (Except.ok data, s1) =>
    ⟨(some (loadLines timeParse zero name (Bufio.scanLines data).1),
        scanErr (Bufio.scanLines data).2),
      [Event.read path], s1⟩

/-- The command line `Apply` runs for the battery settings. -/
def applyBatteryArgv {τ : Type} (p : Profile τ) : List Str :=
  ["sudo".toList, "pmset".toList, "-b".toList,
    "displaysleep".toList, itoa p.Battery.DisplaySleep,
    "sleep".toList, itoa p.Battery.SystemSleep,
    "disksleep".toList, itoa p.Battery.DiskSleep]

/-- The command line `Apply` runs for the AC settings. -/
def applyACArgv {τ : Type} (p : Profile τ) : List Str :=
  ["sudo".toList, "pmset".toList, "-c".toList,
    "displaysleep".toList, itoa p.AC.DisplaySleep,
    "sleep".toList, itoa p.AC.SystemSleep,
    "disksleep".toList, itoa p.AC.DiskSleep]

/-- `Apply`. -/
def Apply {σ : Type} {τ : Type} (W : World σ) (p : Profile τ) (st : σ) :
    Outcome σ (Option GoError) :=
  match W.run (applyBatteryArgv p) st with
  | (some err, s1) =>
    ⟨some (GoError.wrapf "failed to apply battery settings".toList (GoError.external err)),
      [Event.exec (applyBatteryArgv p)], s1⟩
  | (none, s1) =>
    match W.run (applyACArgv p) s1 with
    | (some err, s2) =>
      ⟨some (GoError.wrapf "failed to apply AC settings".toList (GoError.external err)),
        [Event.exec (applyBatteryArgv p), Event.exec (applyACArgv p)], s2⟩
    | (none, s2) =>
      ⟨none, [Event.exec (applyBatteryArgv p), Event.exec (applyACArgv p)], s2⟩

end Profiles

/-! ## The mutation tool as a store of timers -/

namespace Pmset

/-- The three sleep timers of one power context. -/
structure Timers where
  displaysleep : Int
  sleep : Int
  disksleep : Int
  deriving DecidableEq, Repr

/-- What the tool holds: the timers of each context. -/
structure State where
  ac : Timers
  battery : Timers
  deriving DecidableEq, Repr

/-- The integer a decimal argument denotes. -/
def readInt : Str → Int
  | '-' :: ds => -((Macpwr.Settings.decimalValue ds : Nat) : Int)
  | ds => ((Macpwr.Settings.decimalValue ds : Nat) : Int)

/-- One `<label> <value>` pair written: the timer it names is replaced. -/
def setTimer (t : Timers) (label value : Str) : Timers :=
  if label = "displaysleep".toList then { t with displaysleep := readInt value }
  else if label = "sleep".toList then { t with sleep := readInt value }
  else if label = "disksleep".toList then { t with disksleep := readInt value }
  else t

/-- The pairs of an argument list written, from left to right. -/
def setPairs : Timers → List Str → Timers
  | t, label :: value :: rest => setPairs (setTimer t label value) rest
  | t, _ => t

/-- A successful run of `sudo pmset <selector> <pairs>`: the context the
selector names gets the timers the pairs name, nothing else changes. -/
def write (argv : List Str) (st : State) : State :=
  match argv with
  | elevate :: tool :: selector :: pairs =>
    if elevate = "sudo".toList ∧ tool = "pmset".toList then
      if selector = "-c".toList then { st with ac := setPairs st.ac pairs }
      else if selector = "-b".toList then { st with battery := setPairs st.battery pairs }
      else st
    else st
  | _ => st

/-- The tool as a world: a run the tool `refuses` (for want of privilege,
say) returns an error and changes nothing, any other run writes.  The
other calls are of no concern here and fail. -/
def world (refuses : List Str → Bool) : World State where
  run := fun argv st =>
    if refuses argv then (some ⟨"exit status 1".toList⟩, st) else (none, write argv st)
  output := fun _ st => (Except.error ⟨"not modelled".toList⟩, st)
  mkdirAll := fun _ st => (some ⟨"not modelled".toList⟩, st)
  create := fun _ st => (some ⟨"not modelled".toList⟩, st)
  readFile := fun _ st => (Except.error ⟨"not modelled".toList⟩, st)
  write := fun _ _ st => st
  now := fun _ => []
  profilesDir := []
  profilePath := fun name => name

/-- The timers a preset asks for in one context. -/
def ofPreset (s : Macpwr.Presets.Settings) : Timers :=
  ⟨s.DisplaySleep, s.SystemSleep, s.DiskSleep⟩

/-- The timers a profile asks for in one context. -/
def ofProfile (s : Macpwr.Profiles.Settings) : Timers :=
  ⟨s.DisplaySleep, s.SystemSleep, s.DiskSleep⟩

end Pmset

/-! ## Package `display` and the command `set` of `cmd/macpwr` -/

namespace Display

/-- The colour variables of package `display` (ANSI codes, or all empty once
`init` has switched colours off). -/
structure Palette where
  Red : Str
  Green : Str
  Yellow : Str
  Blue : Str
  Cyan : Str
  Bold : Str
  Dim : Str
  Reset : Str

/-- `FormatTime`. -/
def FormatTime (pal : Palette) (minutes : Int) : Str :=
  if minutes = 0 then pal.Green ++ "Never".toList ++ pal.Reset
  else if minutes = 1 then "1 min".toList
  else Strconv.itoa minutes ++ " min".toList

/-- `FormatPercent`. -/
def FormatPercent (pal : Palette) (val : Int) : Str :=
  if val ≥ 80 then pal.Green ++ Strconv.itoa val ++ "%".toList ++ pal.Reset
  else if val ≥ 40 then pal.Yellow ++ Strconv.itoa val ++ "%".toList ++ pal.Reset
  else pal.Red ++ Strconv.itoa val ++ "%".toList ++ pal.Reset

/-- The character `'\033'` (ESC). -/
def escape : Char := Char.ofNat 27

/-- The loop of `visibleLen` from the state `inEscape`, `count`. -/
def visibleLoop : Bool → Nat → Str → Nat
  | _, count, [] => count
  | inEscape, count, r :: rest =>
    if r = escape then visibleLoop true count rest
    else if inEscape then
      if r = 'm' then visibleLoop false count rest else visibleLoop true count rest
    else visibleLoop false (count + 1) rest

/-- `visibleLen`. -/
def visibleLen (s : Str) : Nat :=
  visibleLoop false 0 s

/-- `padWithColor`. -/
def padWithColor (s : Str) (width : Int) : Str :=
  if (visibleLen s : Int) ≥ width then s
  else s ++ List.replicate (width - (visibleLen s : Int)).toNat ' '

/-- The variable `inEscape` when the loop of `visibleLen` ends. -/
def escapeLoop : Bool → Str → Bool
  | inEscape, [] => inEscape
  | inEscape, r :: rest =>
    if r = escape then escapeLoop true rest
    else if inEscape then
      if r = 'm' then escapeLoop false rest else escapeLoop true rest
    else escapeLoop false rest

/-- Every escape of a text is closed: each ESC has an `m` somewhere after
it. -/
def escapesClosed : Str → Bool
  | [] => true
  | r :: rest => (if r = escape then decide ('m' ∈ rest) else true) && escapesClosed rest

/-- A stretch of a coloured text: plain characters, or the body of an escape
sequence (what stands between the ESC and the closing `m`). -/
inductive Stretch where
  | plain : Str → Stretch
  | code : Str → Stretch

/-- A stretch is well formed: plain text has no ESC, the body of a sequence
has neither an `m` nor an ESC. -/
def Stretch.ok : Stretch → Bool
  | Stretch.plain t => decide (escape ∉ t)
  | Stretch.code body => decide (escape ∉ body) && decide ('m' ∉ body)

/-- The characters of a stretch. -/
def Stretch.text : Stretch → Str
  | Stretch.plain t => t
  | Stretch.code body => escape :: body ++ ['m']

/-- The number of characters of a stretch that show. -/
def Stretch.shown : Stretch → Nat
  | Stretch.plain t => t.length
  | Stretch.code _ => 0

/-- The line `Success` prints. -/
def successLine (pal : Palette) (msg : Str) : Str :=
  pal.Green ++ "✓".toList ++ pal.Reset ++ " ".toList ++ msg ++ "\n".toList

/-- The colour variables once `init` has switched colours off. -/
def noColor : Palette :=
  ⟨[], [], [], [], [], [], [], []⟩

/-- What the verbs `%-23s`, `%-16s` and `%-*s` print for a string: the
string, then spaces up to `width` characters. -/
def padRight (s : Str) (width : Nat) : Str :=
  s ++ List.replicate (width - s.length) ' '

/-- `Header`. -/
def Header (pal : Palette) (title : Str) : List Event :=
  [ Event.stdout "\n".toList,
    Event.stdout ("╔".toList ++ (List.replicate 58 "═".toList).flatten ++ "╗\n".toList),
    Event.stdout ("║ ".toList ++ pal.Bold ++ padRight title (58 - 1) ++ pal.Reset ++
      "║\n".toList),
    Event.stdout ("╚".toList ++ (List.replicate 58 "═".toList).flatten ++ "╝\n".toList),
    Event.stdout "\n".toList ]

/-- `TableHeader`. -/
def TableHeader (pal : Palette) : List Event :=
  [ Event.stdout "┌─────────────────────────┬──────────────┬──────────────┐\n".toList,
    Event.stdout ("│ ".toList ++ pal.Bold ++ padRight "Setting".toList 23 ++ pal.Reset ++
      " │ ".toList ++ pal.Bold ++ padRight "Battery".toList 12 ++ pal.Reset ++
      " │ ".toList ++ pal.Bold ++ padRight "AC Power".toList 12 ++ pal.Reset ++
      " │\n".toList),
    Event.stdout "├─────────────────────────┼──────────────┼──────────────┤\n".toList ]

/-- `TableRow`. -/
def TableRow (setting battery ac : Str) : Event :=
  Event.stdout ("│ ".toList ++ padRight setting 23 ++ " │ ".toList ++
    padWithColor battery 12 ++ " │ ".toList ++ padWithColor ac 12 ++ " │\n".toList)

/-- `TableSep`. -/
def TableSep : Event :=
  Event.stdout "├─────────────────────────┼──────────────┼──────────────┤\n".toList

/-- `TableFooter`. -/
def TableFooter : Event :=
  Event.stdout "└─────────────────────────┴──────────────┴──────────────┘\n".toList

/-- `FormatBool`. -/
def FormatBool (pal : Palette) (val : Bool) : Str :=
  if val then pal.Green ++ "On".toList ++ pal.Reset
  else pal.Dim ++ "Off".toList ++ pal.Reset

end Display

namespace Main

open Settings

/-- The flag variables of the command `set` when its `Run` function starts:
the values, and for the three timers whether the flag was given
(`cmd.Flags().Changed`). -/
structure SetFlags where
  ac : Bool
  bat : Bool
  displaySleep : Int
  systemSleep : Int
  diskSleep : Int
  dFlag : Bool
  sFlag : Bool
  kFlag : Bool

/-- The options `setCmd` hands to `settings.Set`. -/
def setOptions (f : SetFlags) : SetOptions :=
  let ac := if !f.ac && !f.bat then true else f.ac
  { PowerSource := if ac then "-c".toList else "-b".toList
    DisplaySleep := if f.dFlag then some f.displaySleep else none
    SystemSleep := if f.sFlag then some f.systemSleep else none
    DiskSleep := if f.kFlag then some f.diskSleep else none }

/-- The name `setCmd` prints for the power source. -/
def sourceName (f : SetFlags) : Str :=
  if f.bat then "Battery".toList else "AC Power".toList

/-- What `setCmd` prints before it calls `settings.Set`. -/
def setAnnouncement (pal : Display.Palette) (f : SetFlags) : List Event :=
  [Event.stdout ("\nApplying to ".toList ++ pal.Bold ++ sourceName f ++ pal.Reset ++
    ":\n".toList)] ++
  (if f.dFlag then
    [Event.stdout ("  â€¢ Display sleep: ".toList ++ Display.FormatTime pal f.displaySleep ++
      "\n".toList)] else []) ++
  (if f.sFlag then
    [Event.stdout ("  â€¢ System sleep: ".toList ++ Display.FormatTime pal f.systemSleep ++
      "\n".toList)] else []) ++
  (if f.kFlag then
    [Event.stdout ("  â€¢ Disk sleep: ".toList ++ Display.FormatTime pal f.diskSleep ++
      "\n".toList)] else []) ++
  [Event.stdout "\n".toList]

/-- The `Run` function of `setCmd`. -/
def setCmd {σ : Type} (W : World σ) (pal : Display.Palette) (f : SetFlags) (st : σ) :
    Outcome σ Unit :=
  if !f.dFlag && !f.sFlag && !f.kFlag then
    ⟨(), [Event.error "No settings specified. Use -d, -s, or -k to set values.".toList,
      Event.help], st⟩
  else
    let set := Settings.Set W (setOptions f) st
    match set.result with
    | some err =>
      ⟨(), setAnnouncement pal f ++ set.events ++
        [Event.error ("Failed to apply settings: ".toList ++ err.Error)], set.state⟩
    | none =>
      ⟨(), setAnnouncement pal f ++ set.events ++
        [Event.stdout (Display.successLine pal "Settings applied successfully!".toList),
          Event.stdout "\n".toList], set.state⟩

/-- The `Run` function of `showCmd`. -/
def showCmd {σ : Type} (W : World σ) (pal : Display.Palette) (st : σ) : Outcome σ Unit :=
  let got := Settings.Get W st
  match got.result with
  | Except.error err =>
    ⟨(), Display.Header pal "macOS Power Settings".toList ++ got.events ++
      [Event.error ("Failed to read power settings: ".toList ++ err.Error)], got.state⟩
  | Except.ok s =>
    ⟨(), Display.Header pal "macOS Power Settings".toList ++ got.events ++
      Display.TableHeader pal ++
      [ Display.TableRow "Display Sleep".toList
          (Display.FormatTime pal s.Battery.DisplaySleep)
          (Display.FormatTime pal s.AC.DisplaySleep),
        Display.TableRow "System Sleep".toList
          (Display.FormatTime pal s.Battery.SystemSleep)
          (Display.FormatTime pal s.AC.SystemSleep),
        Display.TableRow "Disk Sleep".toList
          (Display.FormatTime pal s.Battery.DiskSleep)
          (Display.FormatTime pal s.AC.DiskSleep),
        Display.TableSep,
        Display.TableRow "Power Nap".toList
          (Display.FormatBool pal s.Battery.PowerNap) (Display.FormatBool pal s.AC.PowerNap),
        Display.TableRow "Wake on LAN".toList
          (Display.FormatBool pal s.Battery.WakeOnLAN) (Display.FormatBool pal s.AC.WakeOnLAN),
        Display.TableRow "Low Power Mode".toList
          (Display.FormatBool pal s.Battery.LowPowerMode)
          (Display.FormatBool pal s.AC.LowPowerMode),
        Display.TableRow "TCP Keep Alive".toList
          (Display.FormatBool pal s.Battery.TCPKeepAlive)
          (Display.FormatBool pal s.AC.TCPKeepAlive),
        Display.TableFooter,
        Event.stdout "\n".toList ], got.state⟩

/-- What `presetCmd` prints for no argument or the argument `list`. -/
def presetList (pal : Display.Palette) : List Event :=
  [Event.stdout ("\n".toList ++ pal.Bold ++ "Available Presets".toList ++ pal.Reset ++
    "\n\n".toList)] ++
  Presets.All.map (fun p => Event.stdout ("  ".toList ++ pal.Cyan ++
    Display.padRight p.Name 16 ++ pal.Reset ++ " ".toList ++ p.Description ++ "\n".toList)) ++
  [Event.stdout "\n".toList]

/-- What `presetCmd` prints before it calls `presets.Apply`. -/
def presetAnnouncement (pal : Display.Palette) (p : Presets.Preset) : List Event :=
  [ Event.stdout ("\nApplying preset: ".toList ++ pal.Bold ++ p.Name ++ pal.Reset ++
      "\n".toList),
    Event.stdout (pal.Dim ++ p.Description ++ pal.Reset ++ "\n\n".toList),
    Event.stdout "Setting AC Power...\n".toList,
    Event.stdout "Setting Battery Power...\n".toList ]

/-- The `Run` function of `presetCmd`. -/
def presetCmd {σ : Type} (W : World σ) (pal : Display.Palette) (args : List Str) (st : σ) :
    Outcome σ Unit :=
  match args with
  | [] => ⟨(), presetList pal, st⟩
  | name :: _ =>
    if name = "list".toList then ⟨(), presetList pal, st⟩
    else
      match Presets.Get name with
      | none =>
        ⟨(), [Event.error ("Unknown preset: ".toList ++ name), Event.stdout "\n".toList] ++
          presetList pal, st⟩
      | some p =>
        let ap := Presets.Apply W p st
        match ap.result with
        | some err =>
          ⟨(), presetAnnouncement pal p ++ ap.events ++
            [Event.error ("Failed to apply preset: ".toList ++ err.Error)], ap.state⟩
        | none =>
          ⟨(), presetAnnouncement pal p ++ ap.events ++
            [ Event.stdout "\n".toList,
              Event.stdout (Display.successLine pal
                ("Preset '".toList ++ p.Name ++ "' applied successfully!".toList)),
              Event.stdout "\n".toList ], ap.state⟩

/-- How the `Run` function of a command ends: it returns, or it dereferences
a nil pointer and the process dies of the run-time panic. -/
inductive Ending where
  | returned : Ending
  | panicked : Ending
  deriving DecidableEq, Repr

/-- What the `Run` function of `profile load` prints before it calls
`profiles.Apply`. -/
def loadAnnouncement (pal : Display.Palette) (name : Str) : List Event :=
  [ Event.stdout ("\nLoading profile: ".toList ++ pal.Bold ++ name ++ pal.Reset ++
      "\n\n".toList),
    Event.stdout "Setting Battery Power...\n".toList,
    Event.stdout "Setting AC Power...\n".toList ]

/-- The `Run` function of `profile load` for its one argument.  It reads the
fields of `p` after checking `err` only. -/
def profileLoadCmd {σ : Type} {τ : Type} (W : World σ) (pal : Display.Palette)
    (timeParse : Str → τ) (zero : τ) (name : Str) (st : σ) : Outcome σ Ending :=
  let ld := Profiles.Load W timeParse zero name st
  match ld.result with
  | (_, some _) =>
    ⟨Ending.returned, ld.events ++ [Event.error ("Profile not found: ".toList ++ name)],
      ld.state⟩
  | (none, none) => ⟨Ending.panicked, ld.events ++ loadAnnouncement pal name, ld.state⟩
  | (some p, none) =>
    let ap := Profiles.Apply W p ld.state
    match ap.result with
    | some err =>
      ⟨Ending.returned, ld.events ++ loadAnnouncement pal name ++ ap.events ++
        [Event.error err.Error], ap.state⟩
    | none =>
      ⟨Ending.returned, ld.events ++ loadAnnouncement pal name ++ ap.events ++
        [ Event.stdout "\n".toList,
          Event.stdout (Display.successLine pal
            ("Profile '".toList ++ name ++ "' loaded successfully!".toList)),
          Event.stdout "\n".toList ], ap.state⟩

/-- What `rootCmd.Execute()` makes of the command line, which is the work of
the library cobra: it refuses the line and returns an error (unknown command
or flag, a flag value that does not parse, a wrong number of arguments), or
it calls the `Run` function of one command and returns nil, `Run` having no
result. -/
inductive Invocation (σ : Type) where
  | refused : OsError → Invocation σ
  | toShow : Invocation σ
  | toSet : SetFlags → Invocation σ
  | toPreset : List Str → Invocation σ
  | toProfileLoad : Str → Invocation σ
  /-- The `Run` function of another command. -/
  | toOther : (σ → Outcome σ Ending) → Invocation σ

/-- The `Run` function an invocation calls, run to its end; `none` for a
refused command line. -/
def dispatch {σ : Type} {τ : Type} (W : World σ) (pal : Display.Palette)
    (timeParse : Str → τ) (zero : τ) (inv : Invocation σ) (st : σ) :
    Option (Outcome σ Ending) :=
  match inv with
  | Invocation.refused _ => none
  | Invocation.toShow =>
    some ⟨Ending.returned, (showCmd W pal st).events, (showCmd W pal st).state⟩
  | Invocation.toSet f =>
    some ⟨Ending.returned, (setCmd W pal f st).events, (setCmd W pal f st).state⟩
  | Invocation.toPreset args =>
    some ⟨Ending.returned, (presetCmd W pal args st).events, (presetCmd W pal args st).state⟩
  | Invocation.toProfileLoad name => some (profileLoadCmd W pal timeParse zero name st)
  | Invocation.toOther run => some (run st)

/-- `main`, from the invocation on: the exit status of the process.  A
refused command line ends in `os.Exit(1)` (what the library prints about
the refusal is not listed among the events); after a `Run` function has
returned `main` returns, which is status 0; a panic ends the process with
status 2. -/
def main {σ : Type} {τ : Type} (W : World σ) (pal : Display.Palette)
    (timeParse : Str → τ) (zero : τ) (inv : Invocation σ) (st : σ) : Outcome σ Int :=
  match dispatch W pal timeParse zero inv st with
  | none => ⟨1, [], st⟩
  | some o =>
    match o.result with
    | Ending.returned => ⟨0, o.events, o.state⟩
    | Ending.panicked => ⟨2, o.events, o.state⟩

/-- A command reported an error: `display.Error` was called. -/
def reportsError (events : List Event) : Bool :=
  events.any (fun e => match e with
    | Event.error _ => true
    | _ => false)

end Main

end Macpwr

/-! # Properties -/

namespace Macpwr

/-! ## `strconv`: digits, range and round trip -/

namespace Strconv

open Regexp

theorem isDigit_digitChar (d : Nat) (h : d < 10) : isDigit (Nat.digitChar d) = true := by
  interval_cases d <;> decide

theorem digitChar_val (d : Nat) (h : d < 10) : (Nat.digitChar d).toNat - '0'.toNat = d := by
  interval_cases d <;> decide

theorem toDigitsCore_digits (fuel : Nat) :
    ∀ (n : Nat) (ds : Str), (∀ c ∈ ds, isDigit c = true) →
      ∀ c ∈ Nat.toDigitsCore 10 fuel n ds, isDigit c = true := by
  induction fuel with
  | zero => intro n ds h; simpa [Nat.toDigitsCore] using h
  | succ f ih =>
    intro n ds h
    have hd : isDigit (Nat.digitChar (n % 10)) = true :=
      isDigit_digitChar _ (Nat.mod_lt _ (by decide))
    simp only [Nat.toDigitsCore]
    split
    · intro c hc
      rcases List.mem_cons.1 hc with rfl | hc
      · exact hd
      · exact h c hc
    · apply ih
      intro c hc
      rcases List.mem_cons.1 hc with rfl | hc
      · exact hd
      · exact h c hc

theorem toDigitsCore_ne_nil (fuel n : Nat) (ds : Str) :
    Nat.toDigitsCore 10 (fuel + 1) n ds ≠ [] := by
  induction fuel generalizing n ds with
  | zero => simp [Nat.toDigitsCore]
  | succ f ih =>
    rw [Nat.toDigitsCore]
    split
    · simp
    · exact ih _ _

theorem toDigits_digits (n : Nat) : ∀ c ∈ Nat.toDigits 10 n, isDigit c = true :=
  toDigitsCore_digits _ _ _ (by simp)

theorem toDigits_ne_nil (n : Nat) : Nat.toDigits 10 n ≠ [] :=
  toDigitsCore_ne_nil _ _ _

/-- Every character `Itoa` prints is a minus sign or a decimal digit. -/
theorem itoa_chars (v : Int) : ∀ c ∈ itoa v, c = '-' ∨ isDigit c = true := by
  intro c hc
  unfold itoa at hc
  split at hc
  · rcases List.mem_cons.1 hc with rfl | hc
    · exact Or.inl rfl
    · exact Or.inr (toDigits_digits _ c hc)
  · exact Or.inr (toDigits_digits _ c hc)

theorem itoa_ne_nil (v : Int) : itoa v ≠ [] := by
  unfold itoa
  split
  · simp
  · exact toDigits_ne_nil _

/-- No output of `Itoa` contains a letter, so none is a word of letters. -/
theorem itoa_ne_of_mem {w : Str} {c : Char} (hc : c ∈ w) (h1 : c ≠ '-')
    (h2 : isDigit c = false) (v : Int) : itoa v ≠ w := by
  intro h
  subst h
  rcases itoa_chars v c hc with h | h
  · exact h1 h
  · simp [h] at h2

end Strconv


/-! ## `settings.Set`, `setCmd` and `presets.Apply`: the command lines -/

namespace Settings

open Strconv

/-- The slice `Set` builds: the selector, then the pairs of the set fields. -/
theorem setArgs_eq (opts : SetOptions) :
    setArgs opts = opts.PowerSource ::
      ((opts.DisplaySleep.map (fun v => ["displaysleep".toList, itoa v])).getD [] ++
       (opts.SystemSleep.map (fun v => ["sleep".toList, itoa v])).getD [] ++
       (opts.DiskSleep.map (fun v => ["disksleep".toList, itoa v])).getD []) := by
  rcases opts with ⟨ps, _ | d, _ | s, _ | k⟩ <;> simp [setArgs]

theorem itoa_ne_displaysleep (v : Int) :
    ¬ ['d', 'i', 's', 'p', 'l', 'a', 'y', 's', 'l', 'e', 'e', 'p'] = itoa v :=
  fun h => itoa_ne_of_mem (c := 'd') (by decide) (by decide) (by decide) v h.symm

theorem itoa_ne_sleep (v : Int) : ¬ ['s', 'l', 'e', 'e', 'p'] = itoa v :=
  fun h => itoa_ne_of_mem (c := 's') (by decide) (by decide) (by decide) v h.symm

theorem itoa_ne_disksleep (v : Int) :
    ¬ ['d', 'i', 's', 'k', 's', 'l', 'e', 'e', 'p'] = itoa v :=
  fun h => itoa_ne_of_mem (c := 'd') (by decide) (by decide) (by decide) v h.symm

/-- C2: `Set` issues one command line, `sudo pmset` followed by the slice
`args`; that slice is the context selector followed by exactly one label and
decimal value for each set field, in the order displaysleep, sleep,
disksleep; the label of an unset field occurs nowhere after the selector,
and nowhere in the slice when the selector is `-c` or `-b`. -/
theorem set_args_exactly_set_fields {σ : Type} (W : World σ) (opts : SetOptions) (st : σ) :
    (Set W opts st).events =
        [Event.exec ("sudo".toList :: "pmset".toList :: setArgs opts)] ∧
    setArgs opts = opts.PowerSource ::
      ((opts.DisplaySleep.map (fun v => ["displaysleep".toList, itoa v])).getD [] ++
       (opts.SystemSleep.map (fun v => ["sleep".toList, itoa v])).getD [] ++
       (opts.DiskSleep.map (fun v => ["disksleep".toList, itoa v])).getD []) ∧
    (opts.DisplaySleep = none → "displaysleep".toList ∉ (setArgs opts).tail) ∧
    (opts.SystemSleep = none → "sleep".toList ∉ (setArgs opts).tail) ∧
    (opts.DiskSleep = none → "disksleep".toList ∉ (setArgs opts).tail) ∧
    (opts.PowerSource = "-c".toList ∨ opts.PowerSource = "-b".toList →
      (opts.DisplaySleep = none → "displaysleep".toList ∉ setArgs opts) ∧
      (opts.SystemSleep = none → "sleep".toList ∉ setArgs opts) ∧
      (opts.DiskSleep = none → "disksleep".toList ∉ setArgs opts)) := by
  refine ⟨rfl, setArgs_eq opts, ?_, ?_, ?_, ?_⟩
  · intro h
    rcases opts with ⟨ps, d, _ | s, _ | k⟩ <;> simp only at h <;> subst h <;>
      simp [setArgs, itoa_ne_displaysleep]
  · intro h
    rcases opts with ⟨ps, _ | d, s, _ | k⟩ <;> simp only at h <;> subst h <;>
      simp [setArgs, itoa_ne_sleep]
  · intro h
    rcases opts with ⟨ps, _ | d, _ | s, k⟩ <;> simp only at h <;> subst h <;>
      simp [setArgs, itoa_ne_disksleep]
  · intro hps
    refine ⟨?_, ?_, ?_⟩
    · intro h
      rcases opts with ⟨ps, d, _ | s, _ | k⟩ <;> simp only at h hps <;> subst h <;>
        rcases hps with rfl | rfl <;>
        simp [setArgs, itoa_ne_displaysleep]
    · intro h
      rcases opts with ⟨ps, _ | d, s, _ | k⟩ <;> simp only at h hps <;> subst h <;>
        rcases hps with rfl | rfl <;>
        simp [setArgs, itoa_ne_sleep]
    · intro h
      rcases opts with ⟨ps, _ | d, _ | s, k⟩ <;> simp only at h hps <;> subst h <;>
        rcases hps with rfl | rfl <;>
        simp [setArgs, itoa_ne_disksleep]

/-- C3, as stated, fails: with all three fields unset `Set` still runs the
mutation tool, with the selector alone, and returns what the tool
returns (here: no error). -/
theorem set_all_unset_still_invokes :
    (Set (calmWorld [] [] []) ⟨"-c".toList, none, none, none⟩ ()).events =
        [Event.exec ["sudo".toList, "pmset".toList, "-c".toList]] ∧
    (Set (calmWorld [] [] []) ⟨"-c".toList, none, none, none⟩ ()).result = none := by
  decide

end Settings

namespace Main

open Settings

/-- C3, amended: the guard is in the command `set`.  When none of the three
timer flags was given, `setCmd` reports the error and shows the help without
calling `settings.Set`: it issues no command and leaves the state as it
was; and `setCmd` issues a command exactly when at least one timer flag was
given, the options then having that field set. -/
theorem setCmd_rejects_empty_update {σ : Type} (W : World σ) (pal : Display.Palette)
    (f : SetFlags) (st : σ) :
    (f.dFlag = false ∧ f.sFlag = false ∧ f.kFlag = false →
      (setCmd W pal f st).events =
        [Event.error "No settings specified. Use -d, -s, or -k to set values.".toList,
          Event.help] ∧
      (setCmd W pal f st).state = st) ∧
    ((∃ argv, Event.exec argv ∈ (setCmd W pal f st).events) ↔
      (f.dFlag = true ∨ f.sFlag = true ∨ f.kFlag = true)) ∧
    (∀ argv, Event.exec argv ∈ (setCmd W pal f st).events →
      argv = setArgv (setOptions f) ∧
      ((setOptions f).DisplaySleep ≠ none ∨ (setOptions f).SystemSleep ≠ none ∨
        (setOptions f).DiskSleep ≠ none)) := by
  rcases f with ⟨ac, bat, dv, sv, kv, d, s, k⟩
  cases d <;> cases s <;> cases k <;>
    simp [setCmd, setOptions, Settings.Set, setAnnouncement] <;>
    (split <;> simp)

end Main

namespace Presets

open Strconv

/-- C10: when both writes succeed, `Apply` issues exactly two command lines,
first `sudo pmset -c` and then `sudo pmset -b`, each followed by
displaysleep, sleep, disksleep with the decimal value of that context's
timer in the preset, whatever the values are (0 included), and returns no
error. -/
theorem apply_two_full_writes {σ : Type} (W : World σ) (p : Preset) (st : σ)
    (hac : (W.run (applyArgv "-c".toList p.AC) st).1 = none)
    (hbat : (W.run (applyArgv "-b".toList p.Battery)
      (W.run (applyArgv "-c".toList p.AC) st).2).1 = none) :
    (Apply W p st).events =
      [Event.exec ["sudo".toList, "pmset".toList, "-c".toList,
          "displaysleep".toList, itoa p.AC.DisplaySleep,
          "sleep".toList, itoa p.AC.SystemSleep,
          "disksleep".toList, itoa p.AC.DiskSleep],
        Event.exec ["sudo".toList, "pmset".toList, "-b".toList,
          "displaysleep".toList, itoa p.Battery.DisplaySleep,
          "sleep".toList, itoa p.Battery.SystemSleep,
          "disksleep".toList, itoa p.Battery.DiskSleep]] ∧
    (Apply W p st).result = none := by
  unfold Apply applySettings
  simp only [hac, hbat, Option.map]
  exact ⟨rfl, trivial⟩

/-- C10 at the preset `presentation` (all timers 0) in a world where every
call succeeds: both command lines carry the three zeros. -/
theorem apply_two_full_writes_witness :
    (Apply (calmWorld [] [] [])
      ⟨"presentation".toList, [], ⟨0, 0, 0⟩, ⟨0, 0, 0⟩⟩ ()).events =
      [Event.exec ["sudo".toList, "pmset".toList, "-c".toList,
          "displaysleep".toList, "0".toList, "sleep".toList, "0".toList,
          "disksleep".toList, "0".toList],
        Event.exec ["sudo".toList, "pmset".toList, "-b".toList,
          "displaysleep".toList, "0".toList, "sleep".toList, "0".toList,
          "disksleep".toList, "0".toList]] ∧
    (Apply (calmWorld [] [] [])
      ⟨"presentation".toList, [], ⟨0, 0, 0⟩, ⟨0, 0, 0⟩⟩ ()).result = none :=
  apply_two_full_writes (calmWorld [] [] [])
    ⟨"presentation".toList, [], ⟨0, 0, 0⟩, ⟨0, 0, 0⟩⟩ () rfl rfl

end Presets


/-! ## `strings`: cutting at the first occurrence -/

namespace Strings

theorem cut_of_prefix (sep s : Str) (h : sep <+: s) :
    cut sep s = some ([], s.drop sep.length) := by
  have h' : sep.isPrefixOf s = true := List.isPrefixOf_iff_prefix.2 h
  cases s with
  | nil =>
    have : sep = [] := List.prefix_nil.1 h
    subst this
    simp [cut]
  | cons c cs => simp [cut, h']

theorem cut_eq_none_iff (sep : Str) : ∀ s : Str, cut sep s = none ↔ ¬ sep <:+: s := by
  intro s
  induction s with
  | nil =>
    cases sep with
    | nil => simp [cut]
    | cons a as => simp [cut]
  | cons c cs ih =>
    by_cases hp : sep.isPrefixOf (c :: cs) = true
    · have hpre : sep <+: c :: cs := List.isPrefixOf_iff_prefix.1 hp
      simp [cut, hp, hpre.isInfix]
    · have hpre : ¬ sep <+: c :: cs := fun h => hp (List.isPrefixOf_iff_prefix.2 h)
      rw [cut, if_neg hp, List.infix_cons_iff]
      cases hc : cut sep cs with
      | none =>
        have := ih.1 hc
        simp [hpre, this]
      | some ab =>
        have : sep <:+: cs := by
          by_contra hn
          rw [ih.2 hn] at hc
          cases hc
        simp [this]

theorem dropLast_init (l : Str) : l.dropLast <+: l := by
  rw [List.dropLast_eq_take]
  exact List.take_prefix _ _

/-- What `cut` returns is a decomposition at the first occurrence. -/
theorem cut_eq_some (sep : Str) (hsep : sep ≠ []) :
    ∀ (s a b : Str), cut sep s = some (a, b) →
      s = a ++ sep ++ b ∧ ¬ sep <:+: a ++ sep.dropLast := by
  intro s
  induction s with
  | nil =>
    intro a b h
    cases sep with
    | nil => exact absurd rfl hsep
    | cons x xs => simp [cut] at h
  | cons c cs ih =>
    intro a b h
    by_cases hp : sep.isPrefixOf (c :: cs) = true
    · have hpre : sep <+: c :: cs := List.isPrefixOf_iff_prefix.1 hp
      rw [cut, if_pos hp] at h
      simp only [Option.some.injEq, Prod.mk.injEq] at h
      obtain ⟨rfl, rfl⟩ := h
      refine ⟨?_, ?_⟩
      · obtain ⟨t, ht⟩ := hpre
        rw [← ht]
        simp
      · intro hin
        have h1 := hin.length_le
        have h2 : sep.length ≠ 0 := fun h0 => hsep (List.length_eq_zero.1 h0)
        simp [List.length_dropLast] at h1
        omega
    · have hpre : ¬ sep <+: c :: cs := fun h => hp (List.isPrefixOf_iff_prefix.2 h)
      rw [cut, if_neg hp] at h
      cases hc : cut sep cs with
      | none => simp [hc] at h
      | some ab =>
        obtain ⟨a', b'⟩ := ab
        simp only [hc, Option.some.injEq, Prod.mk.injEq] at h
        obtain ⟨rfl, rfl⟩ := h
        obtain ⟨h1, h2⟩ := ih a' b' hc
        refine ⟨by rw [h1]; simp, ?_⟩
        intro hin
        rw [List.cons_append, List.infix_cons_iff] at hin
        rcases hin with hin | hin
        · apply hpre
          refine hin.trans ?_
          rw [h1]
          have := dropLast_init sep
          obtain ⟨t, ht⟩ := this
          refine ⟨t ++ b', ?_⟩
          simp only [List.append_assoc, List.cons_append]
          rw [← List.append_assoc (List.dropLast sep) t b', ht]
        · exact h2 hin

/-- A decomposition at the first occurrence is what `cut` returns. -/
theorem cut_of_first (sep : Str) :
    ∀ (a b : Str), ¬ sep <:+: a ++ sep.dropLast → cut sep (a ++ sep ++ b) = some (a, b) := by
  intro a
  induction a with
  | nil =>
    intro b _
    have := cut_of_prefix sep ([] ++ sep ++ b) ⟨b, by simp⟩
    simpa using this
  | cons c a' ih =>
    intro b h
    have hsep : sep ≠ [] := by
      rintro rfl
      exact h List.nil_infix
    have hlen : sep.length ≠ 0 := fun h0 => hsep (List.length_eq_zero.1 h0)
    rw [List.cons_append, List.infix_cons_iff] at h
    have hnp : ¬ sep <+: c :: a' ++ sep ++ b := by
      intro hp
      apply h
      left
      have h2 : (c :: (a' ++ sep.dropLast)) <+: c :: a' ++ sep ++ b := by
        obtain ⟨t, ht⟩ := dropLast_init sep
        refine ⟨t ++ b, ?_⟩
        simp only [List.append_assoc, List.cons_append]
        rw [← List.append_assoc (List.dropLast sep) t b, ht]
      exact List.prefix_of_prefix_length_le hp h2
        (by simp [List.length_dropLast]; omega)
    have hnp' : ¬ sep.isPrefixOf (c :: (a' ++ sep ++ b)) = true := fun hp =>
      hnp (by simpa using List.isPrefixOf_iff_prefix.1 hp)
    have hrec := ih b (fun hin => h (Or.inr hin))
    show cut sep (c :: (a' ++ sep ++ b)) = some (c :: a', b)
    rw [cut, if_neg hnp', hrec]

/-- The first piece of a split: the text before the first separator, or all
of the text. -/
theorem genSplit_head (sep : Str) (n : Nat) (s : Str) :
    ∃ tl, genSplit sep (n + 1) s =
      (match cut sep s with
        | some (a, _) => a
        | none => s) :: tl := by
  rw [genSplit]
  cases cut sep s with
  | none => exact ⟨[], rfl⟩
  | some ab => exact ⟨_, rfl⟩

end Strings


/-! ## `profiles.Save`: the name check comes first -/

namespace Regexp

theorem find_bot_of_prev (r : List Atom) (c : Char) :
    ∀ s : Str, find (Atom.bot :: r) (some c) s = none := by
  intro s
  induction s generalizing c with
  | nil => simp [find, matchHere]
  | cons x xs ih => simp [find, matchHere, ih]

theorem rep_eot (cls : Char → Bool) (r : Str) :
    ∀ (s : Str) (prev : Option Char),
      rep cls (fun _ t => if t = [] then some r else none) prev s =
        if s.all cls then some r else none := by
  intro s
  induction s with
  | nil => intro prev; simp [rep]
  | cons c cs ih =>
    intro prev
    by_cases hc : cls c = true
    · rw [rep, if_pos hc, ih]
      by_cases hall : cs.all cls = true
      · simp [hall, hc]
      · simp [hall, hc]
    · rw [rep, if_neg hc]
      simp [hc]

end Regexp

namespace Profiles

open Regexp

/-- The compiled name pattern accepts exactly the names of the class. -/
theorem matchString_namePattern (name : Str) :
    matchString namePattern name = true ↔ NameMatches name := by
  unfold NameMatches
  cases name with
  | nil => simp [matchString, namePattern, find, matchHere]
  | cons c cs =>
    by_cases hc : isNameChar c = true
    · by_cases hall : cs.all isNameChar = true
      · have hall' := hall
        rw [List.all_eq_true] at hall'
        simp [matchString, namePattern, find, matchHere, hc, rep_eot, hall]
        exact hall'
      · have hall' := hall
        rw [List.all_eq_true] at hall'
        simp [matchString, namePattern, find, matchHere, hc, rep_eot, hall,
          find_bot_of_prev]
        simpa using hall'
    · simp [matchString, namePattern, find, matchHere, hc, find_bot_of_prev]

/-- C4: a name that does not match `^[A-Za-z0-9_-]+$` (so `my profile`,
`a/b`, the empty name, a name ending in a newline) makes `Save` return the
invalid-name error with no event issued (no directory made, no status
query, no file created) and the state untouched; for a name that matches,
`Save` never returns the invalid-name error. -/
theorem save_validates_name_before_io {σ : Type} (W : World σ) (name : Str) (st : σ) :
    (¬ NameMatches name → Save W name st = ⟨some invalidNameError, [], st⟩) ∧
    (NameMatches name → (Save W name st).result ≠ some invalidNameError) ∧
    ¬ NameMatches "my profile".toList ∧ ¬ NameMatches "a/b".toList ∧
    ¬ NameMatches [] ∧ ¬ NameMatches "work\n".toList := by
  refine ⟨?_, ?_, by decide, by decide, by decide, by decide⟩
  · intro h
    have hm : matchString namePattern name = false := by
      rw [← Bool.not_eq_true, matchString_namePattern]
      exact h
    simp [Save, hm]
  · intro h
    have hm : matchString namePattern name = true := (matchString_namePattern name).2 h
    unfold Save
    simp only [hm, Bool.not_true, Bool.false_eq_true, if_false]
    rcases hmk : W.mkdirAll W.profilesDir st with ⟨_ | e, s1⟩
    · simp only []
      cases hg : (Macpwr.Settings.Get W s1).result with
      | error err => simp [invalidNameError]
      | ok cur =>
        simp only []
        rcases hcr : W.create (W.profilePath name) (Macpwr.Settings.Get W s1).state with
          ⟨_ | e, s3⟩
        · simp
        · simp [invalidNameError]
    · simp [invalidNameError]

end Profiles


/-! ## `settings.Get`: the two halves of the output -/

namespace Settings

open Strings

theorem anchor_ne_nil : anchor ≠ [] := by decide

theorem parseOutput_of_no_anchor (data : Str) (h : ¬ anchor <:+: data) :
    parseOutput data = Except.error formatError := by
  have hc : cut anchor data = none := (cut_eq_none_iff anchor data).2 h
  unfold parseOutput split
  cases data.length with
  | zero => simp [genSplit]
  | succ n => simp [genSplit, hc]

/-- The settings `Get` extracts from an output cut at its first anchor. -/
theorem parseOutput_of_first (pre post : Str) (h : ¬ anchor <:+: pre ++ anchor.dropLast) :
    parseOutput (pre ++ anchor ++ post) =
      Except.ok ⟨parseSection pre,
        parseSection (match cut anchor post with
          | some (mid, _) => mid
          | none => post)⟩ := by
  have hc := cut_of_first anchor pre post h
  have hlen : (pre ++ anchor ++ post).length = (pre.length + post.length + 7) + 1 + 1 := by
    simp [anchor]
    omega
  unfold parseOutput split
  rw [hlen, genSplit, hc]
  obtain ⟨tl, htl⟩ := genSplit_head anchor (pre.length + post.length + 7) post
  simp only [htl]

theorem isFirstPiece_cut (sep : Str) (hsep : sep ≠ []) (s : Str) :
    IsFirstPiece sep s (match cut sep s with
      | some (mid, _) => mid
      | none => s) := by
  cases hc : cut sep s with
  | none => exact Or.inl ⟨(cut_eq_none_iff sep s).1 hc, rfl⟩
  | some ab =>
    obtain ⟨a, b⟩ := ab
    obtain ⟨h1, h2⟩ := cut_eq_some sep hsep s a b hc
    exact Or.inr ⟨⟨b, h1.symm⟩, h2⟩

/-- C5: the parsing of `Get` ends with the format error, and so without a
settings pair, exactly when the output does not contain `AC Power:`; when
the anchor is present the result is a pair, its Battery parsed from the
text before the first anchor and its AC from the text after it, up to the
next anchor if there is one.  `Get` itself returns the tool's error when
the query fails and this parsing result otherwise, after one query. -/
theorem get_fails_iff_no_anchor (data : Str) :
    (parseOutput data = Except.error formatError ↔ ¬ anchor <:+: data) ∧
    ((∃ pair, parseOutput data = Except.ok pair) ↔ anchor <:+: data) ∧
    (anchor <:+: data → ∃ pre post mid,
      data = pre ++ anchor ++ post ∧ ¬ anchor <:+: pre ++ anchor.dropLast ∧
      IsFirstPiece anchor post mid ∧
      parseOutput data = Except.ok ⟨parseSection pre, parseSection mid⟩) ∧
    (∀ {σ : Type} (W : World σ) (st : σ),
      (Get W st).events = [Event.exec ["pmset".toList, "-g".toList, "custom".toList]] ∧
      (∀ err, (W.output getArgv st).1 = Except.error err →
        (Get W st).result = Except.error (GoError.external err)) ∧
      ((W.output getArgv st).1 = Except.ok data → (Get W st).result = parseOutput data)) := by
  have key : anchor <:+: data → ∃ pre post mid,
      data = pre ++ anchor ++ post ∧ ¬ anchor <:+: pre ++ anchor.dropLast ∧
      IsFirstPiece anchor post mid ∧
      parseOutput data = Except.ok ⟨parseSection pre, parseSection mid⟩ := by
    intro h
    cases hc : cut anchor data with
    | none => exact absurd h ((cut_eq_none_iff anchor data).1 hc)
    | some ab =>
      obtain ⟨pre, post⟩ := ab
      obtain ⟨h1, h2⟩ := cut_eq_some anchor anchor_ne_nil data pre post hc
      refine ⟨pre, post, _, h1, h2, isFirstPiece_cut anchor anchor_ne_nil post, ?_⟩
      rw [h1]
      exact parseOutput_of_first pre post h2
  refine ⟨⟨?_, parseOutput_of_no_anchor data⟩, ⟨?_, ?_⟩, key, ?_⟩
  · intro herr hin
    obtain ⟨pre, post, mid, _, _, _, hok⟩ := key hin
    rw [hok] at herr
    cases herr
  · rintro ⟨pair, hok⟩
    by_contra hn
    rw [parseOutput_of_no_anchor data hn] at hok
    cases hok
  · intro hin
    obtain ⟨pre, post, mid, _, _, _, hok⟩ := key hin
    exact ⟨_, hok⟩
  · intro σ W st
    unfold Get
    rcases ho : W.output getArgv st with ⟨_ | out, s1⟩
    · refine ⟨rfl, ?_, ?_⟩
      · intro err h
        cases h
        rfl
      · intro h
        cases h
    · refine ⟨rfl, ?_, ?_⟩
      · intro err h
        cases h
      · intro h
        cases h
        rfl

/-- C8: the halves are parsed independently and alike.  Two outputs with
the same text before their first anchor get the same Battery settings,
those of that text; two outputs with the same text after their first
anchor get the same AC settings; and a section text placed on both sides of
the anchor gives the same `PowerSettings` twice: both halves go through
`parseSection`, which reads the same seven labels. -/
theorem halves_parsed_independently :
    (∀ pre x₁ x₂ : Str, ¬ anchor <:+: pre ++ anchor.dropLast →
      ∃ a₁ a₂, parseOutput (pre ++ anchor ++ x₁) = Except.ok ⟨parseSection pre, a₁⟩ ∧
        parseOutput (pre ++ anchor ++ x₂) = Except.ok ⟨parseSection pre, a₂⟩) ∧
    (∀ p₁ p₂ post : Str, ¬ anchor <:+: p₁ ++ anchor.dropLast →
      ¬ anchor <:+: p₂ ++ anchor.dropLast →
      ∃ b₁ b₂ a, parseOutput (p₁ ++ anchor ++ post) = Except.ok ⟨b₁, a⟩ ∧
        parseOutput (p₂ ++ anchor ++ post) = Except.ok ⟨b₂, a⟩) ∧
    (∀ sec : Str, ¬ anchor <:+: sec ++ anchor.dropLast →
      parseOutput (sec ++ anchor ++ sec) =
        Except.ok ⟨parseSection sec, parseSection sec⟩) ∧
    (∀ sec : Str, parseSection sec =
      ⟨parseIntSetting sec "displaysleep".toList, parseIntSetting sec "sleep".toList,
        parseIntSetting sec "disksleep".toList, parseBoolSetting sec "powernap".toList,
        parseBoolSetting sec "womp".toList, parseBoolSetting sec "lowpowermode".toList,
        parseBoolSetting sec "tcpkeepalive".toList⟩) := by
  refine ⟨?_, ?_, ?_, fun _ => rfl⟩
  · intro pre x₁ x₂ h
    exact ⟨_, _, parseOutput_of_first pre x₁ h, parseOutput_of_first pre x₂ h⟩
  · intro p₁ p₂ post h₁ h₂
    exact ⟨_, _, _, parseOutput_of_first p₁ post h₁, parseOutput_of_first p₂ post h₂⟩
  · intro sec h
    have hno : ¬ anchor <:+: sec := fun hin =>
      h (hin.trans (List.infix_append' [] sec anchor.dropLast))
    rw [parseOutput_of_first sec sec h, (cut_eq_none_iff anchor sec).2 hno]

/-- C8 at a concrete output: battery lines, the anchor, AC lines. -/
theorem halves_parsed_independently_witness :
    parseOutput (" sleep 5\n".toList ++ anchor ++ " sleep 5\n".toList) =
      Except.ok ⟨parseSection " sleep 5\n".toList, parseSection " sleep 5\n".toList⟩ ∧
    (parseSection " sleep 5\n".toList).SystemSleep = 5 :=
  ⟨halves_parsed_independently.2.2.1 " sleep 5\n".toList (by decide), by decide⟩

end Settings


/-! ## `strconv`: `Atoi` after `Itoa`, and the range of `Atoi` -/

namespace Strconv

open Regexp

/-- The value of a digit string read from the running value `a`, without
bounds. -/
theorem parseUintLoop_of_small :
    ∀ (s : Str) (a : Nat), (∀ c ∈ s, isDigit c = true) →
      s.foldl (fun n c => n * 10 + (c.toNat - '0'.toNat)) a ≤ maxUint64 →
      parseUintLoop a s = (s.foldl (fun n c => n * 10 + (c.toNat - '0'.toNat)) a, none) := by
  intro s
  induction s with
  | nil => intro a _ _; rfl
  | cons c cs ih =>
    intro a hd hle
    have hc : isDigit c = true := hd c (List.mem_cons_self _ _)
    have hmono : ∀ (l : Str) (b : Nat),
        b ≤ l.foldl (fun n c => n * 10 + (c.toNat - '0'.toNat)) b := by
      intro l
      induction l with
      | nil => intro b; exact Nat.le_refl _
      | cons x xs ihx =>
        intro b
        simp only [List.foldl_cons]
        exact Nat.le_trans (by omega) (ihx _)
    simp only [List.foldl_cons] at hle ⊢
    have h1 : a * 10 + (c.toNat - '0'.toNat) ≤ maxUint64 := Nat.le_trans (hmono cs _) hle
    have h2 : ¬ a ≥ maxUint64 / 10 + 1 := by
      have : maxUint64 = 18446744073709551615 := by decide
      omega
    rw [parseUintLoop, if_pos hc, if_neg h2, if_neg (by omega)]
    exact ih _ (fun x hx => hd x (List.mem_cons_of_mem _ hx)) hle

theorem toDigitsCore_value (fuel : Nat) :
    ∀ (n : Nat) (ds : Str), n < fuel →
      ∃ k, ∀ a, (Nat.toDigitsCore 10 fuel n ds).foldl
          (fun n c => n * 10 + (c.toNat - '0'.toNat)) a =
        ds.foldl (fun n c => n * 10 + (c.toNat - '0'.toNat)) (a * 10 ^ k + n) := by
  induction fuel with
  | zero => intro n ds h; omega
  | succ f ih =>
    intro n ds h
    have hval := digitChar_val (n % 10) (Nat.mod_lt _ (by decide))
    rw [Nat.toDigitsCore]
    split
    · rename_i h0
      refine ⟨1, fun a => ?_⟩
      simp only [List.foldl_cons, hval, pow_one]
      congr 1
      omega
    · rename_i h0
      obtain ⟨k, hk⟩ := ih (n / 10) (Nat.digitChar (n % 10) :: ds) (by omega)
      refine ⟨k + 1, fun a => ?_⟩
      rw [hk a]
      simp only [List.foldl_cons, hval]
      congr 1
      rw [pow_succ]
      have := Nat.div_add_mod n 10
      nlinarith [this]

theorem toDigits_value (n : Nat) :
    (Nat.toDigits 10 n).foldl (fun n c => n * 10 + (c.toNat - '0'.toNat)) 0 = n := by
  obtain ⟨k, hk⟩ := toDigitsCore_value (n + 1) n [] (Nat.lt_succ_self n)
  have := hk 0
  simpa [Nat.toDigits] using this

theorem parseUint_toDigits (n : Nat) (h : n ≤ maxUint64) :
    parseUint (Nat.toDigits 10 n) = (n, none) := by
  have hv := toDigits_value n
  have hp := parseUintLoop_of_small (Nat.toDigits 10 n) 0 (toDigits_digits n) (by rw [hv]; exact h)
  rw [hv] at hp
  unfold parseUint
  cases hd : Nat.toDigits 10 n with
  | nil => exact absurd hd (toDigits_ne_nil n)
  | cons c cs => rw [hd] at hp; exact hp

/-- `Atoi` reads back what `Itoa` printed, for every 64-bit integer. -/
theorem atoi_itoa (v : Int) (hlo : -(2 : Int) ^ 63 ≤ v) (hhi : v < (2 : Int) ^ 63) :
    atoi (itoa v) = (v, none) := by
  unfold atoi itoa
  by_cases hneg : v < 0
  · rw [if_pos hneg]
    have hm : (-v).toNat ≤ maxUint64 := by
      have : maxUint64 = 18446744073709551615 := by decide
      omega
    have hp := parseUint_toDigits _ hm
    have hb : ¬ ((-v).toNat > 2 ^ 63) := by omega
    simp only [parseInt, beq_self_eq_true, Bool.or_true, if_true, hp, Bool.not_true,
      Bool.false_and, Bool.false_eq_true, if_false, Bool.true_and, decide_eq_true_eq, hb]
    congr 1
    omega
  · rw [if_neg hneg]
    have hm : v.toNat ≤ maxUint64 := by
      have : maxUint64 = 18446744073709551615 := by decide
      omega
    have hp := parseUint_toDigits _ hm
    cases hd : Nat.toDigits 10 v.toNat with
    | nil => exact absurd hd (toDigits_ne_nil _)
    | cons c cs =>
      have hc : isDigit c = true := toDigits_digits v.toNat c (by rw [hd]; exact List.mem_cons_self _ _)
      have hc1 : (c == '-') = false := by
        rw [beq_eq_false_iff_ne]
        rintro rfl
        revert hc
        decide
      have hc2 : (c == '+') = false := by
        rw [beq_eq_false_iff_ne]
        rintro rfl
        revert hc
        decide
      rw [hd] at hp
      have hb : ¬ (v.toNat ≥ 2 ^ 63) := by omega
      simp only [parseInt, hc1, hc2, Bool.or_false, Bool.false_eq_true, if_false, hp,
        Bool.not_false, Bool.true_and, decide_eq_true_eq, hb, Bool.false_and]
      congr 1
      omega

/-- Whatever the text, the value `Atoi` returns is a 64-bit integer. -/
theorem atoi_range (s : Str) :
    -(2 : Int) ^ 63 ≤ (atoi s).1 ∧ (atoi s).1 < (2 : Int) ^ 63 := by
  unfold atoi parseInt
  cases s with
  | nil => simp
  | cons c cs =>
    simp only []
    split
    · simp
    · rename_i un e _
      split
      · simp
      · split
        · simp
        · rename_i h1 h2
          simp only [Bool.and_eq_true, Bool.not_eq_true', beq_eq_false_iff_ne, ne_eq,
            decide_eq_true_eq, beq_iff_eq, not_and, not_le, not_lt] at h1 h2
          by_cases hneg : c = '-'
          · have := h2 hneg
            simp only [hneg, beq_self_eq_true, if_true]
            omega
          · have := h1 hneg
            have hf : (c == '-') = false := beq_eq_false_iff_ne.2 hneg
            simp only [hf, Bool.false_eq_true, if_false]
            omega

end Strconv


/-! ## `profiles.Load`: the scanning loop -/

namespace Profiles

open Strconv Strings

theorem cut_eq_sign (key value : Str) (h : '=' ∉ key) :
    cut "=".toList (key ++ '=' :: value) = some (key, value) := by
  have h1 : ¬ "=".toList <:+: key ++ ("=".toList).dropLast := by
    rintro ⟨u, v, huv⟩
    apply h
    have : '=' ∈ u ++ "=".toList ++ v := by simp
    rw [huv] at this
    simpa using this
  have := cut_of_first "=".toList key value h1
  simpa using this

/-- The section after a line: a header names it, any other line keeps it. -/
theorem loadLine_section {τ : Type} (timeParse : Str → τ) (st : Profile τ × Str) (text : Str) :
    (loadLine timeParse st text).2 =
      if trimSpace text = "[battery]".toList then "battery".toList
      else if trimSpace text = "[ac]".toList then "ac".toList
      else st.2 := by
  unfold loadLine
  by_cases hb : trimSpace text = "[battery]".toList
  · simp [hb, hasPrefix]
  · by_cases ha : trimSpace text = "[ac]".toList
    · simp [ha, hasPrefix]
    · simp only [hb, ha, if_false]
      repeat' split
      all_goals rfl

/-- The name never changes. -/
theorem loadLine_name {τ : Type} (timeParse : Str → τ) (st : Profile τ × Str) (text : Str) :
    (loadLine timeParse st text).1.Name = st.1.Name := by
  unfold loadLine
  simp only []
  repeat' split
  all_goals rfl

theorem loadState_snoc {τ : Type} (timeParse : Str → τ) (zero : τ) (name : Str)
    (lines : List Str) (text : Str) :
    loadState timeParse zero name (lines ++ [text]) =
      loadLine timeParse (loadState timeParse zero name lines) text := by
  simp [loadState, List.foldl_append]

theorem loadState_name {τ : Type} (timeParse : Str → τ) (zero : τ) (name : Str)
    (lines : List Str) : (loadState timeParse zero name lines).1.Name = name := by
  induction lines using List.reverseRecOn with
  | nil => rfl
  | append_singleton ls l ih => rw [loadState_snoc, loadLine_name, ih]

theorem loadState_section {τ : Type} (timeParse : Str → τ) (zero : τ) (name : Str)
    (lines : List Str) : (loadState timeParse zero name lines).2 = sectionOf lines := by
  induction lines using List.reverseRecOn with
  | nil => rfl
  | append_singleton ls l ih =>
    rw [loadState_snoc, loadLine_section, ih]
    unfold sectionOf
    rw [List.reverse_append, List.reverse_singleton, List.singleton_append, List.find?_cons]
    by_cases hb : trimSpace l = "[battery]".toList
    · simp [isHeader, hb]
    · by_cases ha : trimSpace l = "[ac]".toList
      · simp [isHeader, ha]
      · simp only [isHeader, hb, ha, if_false, decide_False, Bool.or_self]

end Profiles

namespace Profiles

open Strconv Strings

/-- One turn of the loop on a line that is `key=value` once trimmed and is
not a creation-time comment. -/
theorem loadLine_keyValue {τ : Type} (timeParse : Str → τ) (p : Profile τ) (sec : Str)
    (text key value : Str) (htrim : trimSpace text = key ++ '=' :: value) (hkey : '=' ∉ key)
    (hcre : hasPrefix (trimSpace text) "# Created:".toList = false) :
    loadLine timeParse (p, sec) text =
      (if sec = "battery".toList then
        if key = "displaysleep".toList then
          { p with Battery := { p.Battery with DisplaySleep := (atoi value).1 } }
        else if key = "sleep".toList then
          { p with Battery := { p.Battery with SystemSleep := (atoi value).1 } }
        else if key = "disksleep".toList then
          { p with Battery := { p.Battery with DiskSleep := (atoi value).1 } }
        else p
      else if sec = "ac".toList then
        if key = "displaysleep".toList then
          { p with AC := { p.AC with DisplaySleep := (atoi value).1 } }
        else if key = "sleep".toList then
          { p with AC := { p.AC with SystemSleep := (atoi value).1 } }
        else if key = "disksleep".toList then
          { p with AC := { p.AC with DiskSleep := (atoi value).1 } }
        else p
      else p, sec) := by
  have hmem : '=' ∈ trimSpace text := by rw [htrim]; simp
  have hnb : trimSpace text ≠ "[battery]".toList := by
    intro h
    rw [h] at hmem
    revert hmem
    decide
  have hna : trimSpace text ≠ "[ac]".toList := by
    intro h
    rw [h] at hmem
    revert hmem
    decide
  have hcut := cut_eq_sign key value hkey
  have hcont : contains (trimSpace text) "=".toList = true := by
    rw [htrim, contains, hcut]
    rfl
  have hsplit : splitN2 (trimSpace text) "=".toList = [key, value] := by
    rw [htrim, splitN2, genSplit, hcut]
    rfl
  unfold loadLine
  simp only [hcre, hnb, hna, hcont, hsplit, if_true, if_false, Bool.false_eq_true]
  repeat' split
  all_goals rfl

end Profiles
namespace Profiles

open Strconv Strings

theorem hasPrefix_created_of_key (key value : Str)
    (h : key = "displaysleep".toList ∨ key = "sleep".toList ∨ key = "disksleep".toList) :
    hasPrefix (key ++ '=' :: value) "# Created:".toList = false := by
  rcases h with rfl | rfl | rfl <;> rfl

theorem not_mem_of_key (key : Str)
    (h : key = "displaysleep".toList ∨ key = "sleep".toList ∨ key = "disksleep".toList) :
    '=' ∉ key := by
  rcases h with rfl | rfl | rfl <;> decide

/-- C9, as stated, fails: a `key=value` line whose trimmed text begins with
`# Created:` is read as the creation-time comment.  After a valid comment
the line `# Created:x=5`, whose key `# Created:x` is none of the three,
replaces the creation time by what `time.Parse` gives for a text that is no
time stamp (the zero time); here `true` stands for the time of the valid
stamp and `false` for the zero time. -/
theorem load_created_key_line :
    trimSpace "# Created:x=5".toList = "# Created:x".toList ++ '=' :: "5".toList ∧
    '=' ∉ "# Created:x".toList ∧
    (loadLines (fun s => decide (s = "Mon, 02 Jan 2006 15:04:05 MST".toList)) false
      "work".toList ["# Created: Mon, 02 Jan 2006 15:04:05 MST".toList]).Created = true ∧
    (loadLines (fun s => decide (s = "Mon, 02 Jan 2006 15:04:05 MST".toList)) false
      "work".toList ["# Created: Mon, 02 Jan 2006 15:04:05 MST".toList,
        "# Created:x=5".toList]).Created = false := by
  decide

/-- C9, amended: for every sequence of lines `before` and every next line `text`
given to the loop of `Load`: the profile's Name is the requested name; the
current section is the one named by the most recent line that is exactly
`[battery]` or `[ac]` once trimmed; a line `key=value` (once trimmed) with
key displaysleep, sleep or disksleep sets that field of the current
section's settings to the value `Atoi` reads and changes nothing else; a
`key=value` line with any other key, or one met before any header, leaves
the profile unchanged provided its trimmed text does not begin with
`# Created:` (such a line is read as the creation-time comment); and no
`key=value` line changes the section.  `Atoi` reads back every decimal
64-bit integer. -/
theorem load_assigns_by_section {τ : Type} (timeParse : Str → τ) (zero : τ) (name : Str)
    (before : List Str) (text key value : Str) :
    (loadLines timeParse zero name before).Name = name ∧
    (loadState timeParse zero name before).2 = sectionOf before ∧
    (trimSpace text = key ++ '=' :: value → '=' ∉ key →
      sectionOf (before ++ [text]) = sectionOf before ∧
      (sectionOf before = "battery".toList →
        (key = "displaysleep".toList → loadLines timeParse zero name (before ++ [text]) =
          { loadLines timeParse zero name before with
            Battery := { (loadLines timeParse zero name before).Battery with
              DisplaySleep := (atoi value).1 } }) ∧
        (key = "sleep".toList → loadLines timeParse zero name (before ++ [text]) =
          { loadLines timeParse zero name before with
            Battery := { (loadLines timeParse zero name before).Battery with
              SystemSleep := (atoi value).1 } }) ∧
        (key = "disksleep".toList → loadLines timeParse zero name (before ++ [text]) =
          { loadLines timeParse zero name before with
            Battery := { (loadLines timeParse zero name before).Battery with
              DiskSleep := (atoi value).1 } })) ∧
      (sectionOf before = "ac".toList →
        (key = "displaysleep".toList → loadLines timeParse zero name (before ++ [text]) =
          { loadLines timeParse zero name before with
            AC := { (loadLines timeParse zero name before).AC with
              DisplaySleep := (atoi value).1 } }) ∧
        (key = "sleep".toList → loadLines timeParse zero name (before ++ [text]) =
          { loadLines timeParse zero name before with
            AC := { (loadLines timeParse zero name before).AC with
              SystemSleep := (atoi value).1 } }) ∧
        (key = "disksleep".toList → loadLines timeParse zero name (before ++ [text]) =
          { loadLines timeParse zero name before with
            AC := { (loadLines timeParse zero name before).AC with
              DiskSleep := (atoi value).1 } })) ∧
      (hasPrefix (trimSpace text) "# Created:".toList = false →
        (key ≠ "displaysleep".toList ∧ key ≠ "sleep".toList ∧ key ≠ "disksleep".toList) ∨
          sectionOf before = [] →
        loadLines timeParse zero name (before ++ [text]) =
          loadLines timeParse zero name before)) ∧
    (∀ v : Int, -(2 : Int) ^ 63 ≤ v → v < (2 : Int) ^ 63 → (atoi (itoa v)).1 = v) := by
  refine ⟨loadState_name timeParse zero name before,
    loadState_section timeParse zero name before, ?_, ?_⟩
  · intro htrim hkey
    have hsec := loadState_section timeParse zero name before
    have hstep := fun hcre : hasPrefix (trimSpace text) "# Created:".toList = false =>
      (loadState_snoc timeParse zero name before text).trans
        (loadLine_keyValue timeParse (loadState timeParse zero name before).1
          (loadState timeParse zero name before).2 text key value htrim hkey hcre)
    have hkeep : sectionOf (before ++ [text]) = sectionOf before := by
      rw [← loadState_section timeParse zero name (before ++ [text]), loadState_snoc,
        loadLine_section, hsec]
      have hmem : '=' ∈ trimSpace text := by rw [htrim]; simp
      have hnb : trimSpace text ≠ "[battery]".toList := by
        intro h
        rw [h] at hmem
        revert hmem
        decide
      have hna : trimSpace text ≠ "[ac]".toList := by
        intro h
        rw [h] at hmem
        revert hmem
        decide
      rw [if_neg hnb, if_neg hna]
    refine ⟨hkeep, ?_, ?_, ?_⟩
    · intro hb
      rw [← hsec] at hb
      refine ⟨?_, ?_, ?_⟩
      · intro hk
        have hcre : hasPrefix (trimSpace text) "# Created:".toList = false := by
          rw [htrim]; exact hasPrefix_created_of_key key value (Or.inl hk)
        unfold loadLines
        rw [hstep hcre, if_pos hb, if_pos hk]
      · intro hk
        have hcre : hasPrefix (trimSpace text) "# Created:".toList = false := by
          rw [htrim]; exact hasPrefix_created_of_key key value (Or.inr (Or.inl hk))
        unfold loadLines
        rw [hstep hcre, if_pos hb, if_neg (by rw [hk]; decide), if_pos hk]
      · intro hk
        have hcre : hasPrefix (trimSpace text) "# Created:".toList = false := by
          rw [htrim]; exact hasPrefix_created_of_key key value (Or.inr (Or.inr hk))
        unfold loadLines
        rw [hstep hcre, if_pos hb, if_neg (by rw [hk]; decide), if_neg (by rw [hk]; decide),
          if_pos hk]
    · intro ha
      rw [← hsec] at ha
      have hnb : ¬ (loadState timeParse zero name before).2 = "battery".toList := by
        rw [ha]; decide
      refine ⟨?_, ?_, ?_⟩
      · intro hk
        have hcre : hasPrefix (trimSpace text) "# Created:".toList = false := by
          rw [htrim]; exact hasPrefix_created_of_key key value (Or.inl hk)
        unfold loadLines
        rw [hstep hcre, if_neg hnb, if_pos ha, if_pos hk]
      · intro hk
        have hcre : hasPrefix (trimSpace text) "# Created:".toList = false := by
          rw [htrim]; exact hasPrefix_created_of_key key value (Or.inr (Or.inl hk))
        unfold loadLines
        rw [hstep hcre, if_neg hnb, if_pos ha, if_neg (by rw [hk]; decide), if_pos hk]
      · intro hk
        have hcre : hasPrefix (trimSpace text) "# Created:".toList = false := by
          rw [htrim]; exact hasPrefix_created_of_key key value (Or.inr (Or.inr hk))
        unfold loadLines
        rw [hstep hcre, if_neg hnb, if_pos ha, if_neg (by rw [hk]; decide),
          if_neg (by rw [hk]; decide), if_pos hk]
    · intro hcre hor
      unfold loadLines
      rw [hstep hcre]
      rcases hor with ⟨h1, h2, h3⟩ | h0
      · simp only [if_neg h1, if_neg h2, if_neg h3, ite_self]
      · rw [← hsec] at h0
        have hnb : ¬ (loadState timeParse zero name before).2 = "battery".toList := by
          rw [h0]; decide
        have hna : ¬ (loadState timeParse zero name before).2 = "ac".toList := by
          rw [h0]; decide
        rw [if_neg hnb, if_neg hna]
  · intro v hlo hhi
    rw [atoi_itoa v hlo hhi]

/-- C9 on a concrete file: after the header `[battery]`, the line
` sleep=7 ` sets the battery's SystemSleep to 7 and nothing else. -/
theorem load_assigns_by_section_witness :
    sectionOf ["[battery]".toList] = "battery".toList ∧
    loadLines (fun _ => ()) () "work".toList ["[battery]".toList, " sleep=7 ".toList] =
      { loadLines (fun _ => ()) () "work".toList ["[battery]".toList] with
        Battery := { (loadLines (fun _ => ()) () "work".toList ["[battery]".toList]).Battery with
          SystemSleep := 7 } } :=
  ⟨by decide,
    ((load_assigns_by_section (fun _ => ()) () "work".toList ["[battery]".toList]
      " sleep=7 ".toList "sleep".toList "7".toList).2.2.1 (by decide) (by decide)).2.1
      (by decide) |>.2.1 rfl⟩

end Profiles

/-! ## Lines, trimming and sizes -/

namespace Strings

theorem trimRight_append_last (a : Str) (x : Char) (b : Str) (hx : isUnicodeSpace x = false) :
    trimRight (a ++ [x] ++ b) = a ++ [x] ++ trimRight b := by
  unfold trimRight
  rw [List.reverse_append, List.dropWhile_append]
  have hx' : ¬ isUnicodeSpace x = true := by simp [hx]
  split
  · rename_i hemp
    have : List.dropWhile isUnicodeSpace b.reverse = [] := List.isEmpty_iff.1 hemp
    rw [this]
    simp [List.dropWhile_cons_of_neg hx']
  · simp

theorem trimRight_last (a : Str) (x : Char) (hx : isUnicodeSpace x = false) :
    trimRight (a ++ [x]) = a ++ [x] := by
  have := trimRight_append_last a x [] hx
  simpa [trimRight] using this

theorem trimSpace_of_ends (c : Char) (a : Str) (x : Char) (hc : isUnicodeSpace c = false)
    (hx : isUnicodeSpace x = false) : trimSpace (c :: a ++ [x]) = c :: a ++ [x] := by
  unfold trimSpace
  have hc' : ¬ isUnicodeSpace c = true := by simp [hc]
  rw [List.cons_append, List.dropWhile_cons_of_neg hc', ← List.cons_append]
  exact trimRight_last (c :: a) x hx

theorem space_toNat (c : Char) (h : isUnicodeSpace c = true) :
    c.toNat < 33 ∨ 133 ≤ c.toNat := by
  unfold isUnicodeSpace at h
  simp only [Bool.or_eq_true, beq_iff_eq, decide_eq_true_eq] at h
  rcases h with ((((((((((((((h | h) | h) | h) | h) | h) | h) | h) | h) | h) | h) | h) | h)
    | h) | h) <;> first | omega | (subst h; decide)

end Strings

namespace Bufio

theorem pieces_append_newline (l rest : Str) (h : '\n' ∉ l) :
    pieces (l ++ '\n' :: rest) = l :: pieces rest := by
  induction l with
  | nil => simp [pieces]
  | cons c cs ih =>
    have hc : c ≠ '\n' := fun e => h (by simp [e])
    have hcs : '\n' ∉ cs := fun e => h (List.mem_cons_of_mem _ e)
    rw [List.cons_append, pieces, if_neg hc, ih hcs]

theorem dropCR_last (a : Str) (x : Char) (hx : x ≠ '\r') : dropCR (a ++ [x]) = a ++ [x] := by
  unfold dropCR
  rw [if_neg]
  simp [List.getLast?_append, hx]

theorem byteLen_append (a b : Str) : byteLen (a ++ b) = byteLen a + byteLen b := by
  simp [byteLen]

theorem utf8Size_le (c : Char) : c.utf8Size ≤ 4 := by
  unfold Char.utf8Size
  simp only []
  split
  · omega
  · split
    · omega
    · split <;> omega

theorem byteLen_le (s : Str) : byteLen s ≤ 4 * s.length := by
  induction s with
  | nil => simp [byteLen]
  | cons c cs ih =>
    have := utf8Size_le c
    simp only [byteLen, List.map_cons, List.sum_cons, List.length_cons] at ih ⊢
    omega

end Bufio

namespace Strconv

open Regexp

theorem digit_toNat (c : Char) (h : isDigit c = true) : 48 ≤ c.toNat ∧ c.toNat ≤ 57 := by
  unfold isDigit at h
  simpa using h

theorem digit_not_space (c : Char) (h : isDigit c = true) :
    Strings.isUnicodeSpace c = false := by
  have h1 := digit_toNat c h
  cases hs : Strings.isUnicodeSpace c with
  | false => rfl
  | true =>
    have := Strings.space_toNat c hs
    omega

theorem digit_ne_cr (c : Char) (h : isDigit c = true) : c ≠ '\r' := by
  rintro rfl
  revert h
  decide

theorem digit_ne_newline (c : Char) (h : isDigit c = true) : c ≠ '\n' := by
  rintro rfl
  revert h
  decide

/-- The text `Itoa` prints ends in a digit. -/
theorem itoa_last (v : Int) : ∃ init d, itoa v = init ++ [d] ∧ isDigit d = true := by
  have key : ∀ n : Nat, ∃ init d, Nat.toDigits 10 n = init ++ [d] ∧ isDigit d = true := by
    intro n
    have hne := toDigits_ne_nil n
    refine ⟨(Nat.toDigits 10 n).dropLast, (Nat.toDigits 10 n).getLast hne, ?_, ?_⟩
    · exact (List.dropLast_append_getLast hne).symm
    · exact toDigits_digits n _ (List.getLast_mem hne)
  unfold itoa
  split
  · obtain ⟨init, d, h1, h2⟩ := key (-v).toNat
    exact ⟨'-' :: init, d, by rw [h1]; rfl, h2⟩
  · exact key v.toNat

theorem itoa_no_newline (v : Int) : '\n' ∉ itoa v := by
  intro h
  rcases itoa_chars v _ h with h | h
  · revert h; decide
  · revert h; decide

theorem itoa_length (v : Int) (hlo : -(2 : Int) ^ 63 ≤ v) (hhi : v < (2 : Int) ^ 63) :
    (itoa v).length ≤ 20 := by
  have key : ∀ n : Nat, n < 10 ^ 19 → (Nat.toDigits 10 n).length ≤ 19 := fun n hn =>
    Nat.toDigitsCore_length 10 (by decide) (n + 1) n 19 hn (by decide)
  unfold itoa
  split
  · have := key (-v).toNat (by omega)
    simp only [List.length_cons]
    omega
  · have := key v.toNat (by omega)
    omega

end Strconv


/-! ## The file `Save` writes, as the scanner of `Load` reads it -/

namespace Bufio

theorem pieces_lines (ls : List Str) (h : ∀ l ∈ ls, '\n' ∉ l) :
    pieces ((ls.map (fun l => l ++ ['\n'])).flatten) = ls ++ [[]] := by
  induction ls with
  | nil => rfl
  | cons l ls ih =>
    have h1 : '\n' ∉ l := h l (List.mem_cons_self _ _)
    have h2 := ih (fun x hx => h x (List.mem_cons_of_mem _ hx))
    simp only [List.map_cons, List.flatten_cons, List.append_assoc, List.singleton_append]
    rw [pieces_append_newline l _ h1, h2]
    rfl

theorem scanPieces_lines (ls : List Str) (h : ∀ l ∈ ls, byteLen l < maxScanTokenSize) :
    scanPieces (ls ++ [[]]) = (ls.map dropCR, false) := by
  induction ls with
  | nil => simp [scanPieces, byteLen, maxScanTokenSize]
  | cons l ls ih =>
    have h1 : ¬ byteLen l ≥ maxScanTokenSize := by
      have := h l (List.mem_cons_self _ _)
      omega
    have h2 := ih (fun x hx => h x (List.mem_cons_of_mem _ hx))
    cases ls with
    | nil =>
      simp only [List.nil_append] at h2
      show scanPieces [l, []] = _
      rw [show scanPieces [l, []] = (if byteLen l ≥ maxScanTokenSize then ([], true)
        else ((dropCR l) :: (scanPieces [[]]).1, (scanPieces [[]]).2)) from rfl, if_neg h1, h2]
      rfl
    | cons l' ls' =>
      simp only [List.cons_append] at h2
      show scanPieces (l :: l' :: (ls' ++ [[]])) = _
      rw [show scanPieces (l :: l' :: (ls' ++ [[]])) =
        (if byteLen l ≥ maxScanTokenSize then ([], true)
        else ((dropCR l) :: (scanPieces (l' :: (ls' ++ [[]]))).1,
          (scanPieces (l' :: (ls' ++ [[]]))).2)) from rfl, if_neg h1, h2]
      rfl

/-- A text made of lines that fit the buffer, each ended by a newline, is
scanned into those lines. -/
theorem scanLines_lines (ls : List Str) (h1 : ∀ l ∈ ls, '\n' ∉ l)
    (h2 : ∀ l ∈ ls, byteLen l < maxScanTokenSize) :
    scanLines ((ls.map (fun l => l ++ ['\n'])).flatten) = (ls.map dropCR, false) := by
  rw [scanLines, pieces_lines ls h1, scanPieces_lines ls h2]

end Bufio

namespace Profiles

open Strconv Strings Bufio

theorem saveText_eq_lines (name created : Str) (current : Macpwr.Settings.AllSettings) :
    saveText name created current =
      ((saveLines name created current).map (fun l => l ++ ['\n'])).flatten := by
  simp [saveText, saveChunks, saveLines]

end Profiles

namespace Profiles

open Strconv Strings Bufio Regexp

theorem nameChar_toNat (c : Char) (h : isNameChar c = true) : 45 ≤ c.toNat ∧ c.toNat ≤ 122 := by
  unfold isNameChar at h
  simp only [Bool.or_eq_true, beq_iff_eq, decide_eq_true_eq] at h
  rcases h with (((h | h) | h) | h) | h
  · have : 'a'.toNat = 97 := rfl
    have : 'z'.toNat = 122 := rfl
    omega
  · have : 'A'.toNat = 65 := rfl
    have : 'Z'.toNat = 90 := rfl
    omega
  · have : '0'.toNat = 48 := rfl
    have : '9'.toNat = 57 := rfl
    omega
  · subst h; decide
  · subst h; decide

theorem nameChar_not_space (c : Char) (h : isNameChar c = true) :
    isUnicodeSpace c = false := by
  have h1 := nameChar_toNat c h
  cases hs : isUnicodeSpace c with
  | false => rfl
  | true =>
    have := space_toNat c hs
    omega

theorem nameChar_ne_newline (c : Char) (h : isNameChar c = true) : c ≠ '\n' := by
  rintro rfl
  revert h
  decide

theorem nameChar_ne_cr (c : Char) (h : isNameChar c = true) : c ≠ '\r' := by
  rintro rfl
  revert h
  decide

/-- Before any header, a line that is neither a creation-time comment nor a
header changes nothing. -/
theorem loadLine_no_section {τ : Type} (timeParse : Str → τ) (p : Profile τ) (text : Str)
    (hcre : hasPrefix (trimSpace text) "# Created:".toList = false)
    (hnb : trimSpace text ≠ "[battery]".toList) (hna : trimSpace text ≠ "[ac]".toList) :
    loadLine timeParse (p, []) text = (p, []) := by
  have h1 : ¬ (([] : Str) = "battery".toList) := by decide
  have h2 : ¬ (([] : Str) = "ac".toList) := by decide
  unfold loadLine
  simp only [hcre, hnb, hna, h1, h2, if_false, Bool.false_eq_true]
  repeat' split
  all_goals rfl

theorem loadLine_blank {τ : Type} (timeParse : Str → τ) (st : Profile τ × Str) :
    loadLine timeParse st [] = st := rfl

theorem loadLine_battery {τ : Type} (timeParse : Str → τ) (p : Profile τ) (sec : Str) :
    loadLine timeParse (p, sec) "[battery]".toList = (p, "battery".toList) := rfl

theorem loadLine_ac {τ : Type} (timeParse : Str → τ) (p : Profile τ) (sec : Str) :
    loadLine timeParse (p, sec) "[ac]".toList = (p, "ac".toList) := rfl

/-- The comment line with the creation time touches the time only. -/
theorem loadLine_created {τ : Type} (timeParse : Str → τ) (p : Profile τ) (sec : Str)
    (created : Str) :
    ∃ t, loadLine timeParse (p, sec) (dropCR ("# Created: ".toList ++ created)) =
      ({ p with Created := t }, sec) := by
  have hx : ∃ x, dropCR ("# Created: ".toList ++ created) = "# Created".toList ++ [':'] ++ x := by
    unfold dropCR
    split
    · exact ⟨(' ' :: created).dropLast, by simp [List.dropLast]⟩
    · exact ⟨' ' :: created, by simp⟩
  obtain ⟨x, hx⟩ := hx
  have htrim : trimSpace (dropCR ("# Created: ".toList ++ created)) =
      "# Created".toList ++ [':'] ++ trimRight x := by
    rw [hx, trimSpace]
    have : List.dropWhile isUnicodeSpace ("# Created".toList ++ [':'] ++ x) =
        "# Created".toList ++ [':'] ++ x := rfl
    rw [this]
    exact trimRight_append_last _ _ _ (by decide)
  have hpre : hasPrefix (trimSpace (dropCR ("# Created: ".toList ++ created)))
      "# Created:".toList = true := by
    rw [htrim]
    simp [hasPrefix]
  refine ⟨timeParse (trimPrefix (trimSpace (dropCR ("# Created: ".toList ++ created)))
    "# Created: ".toList), ?_⟩
  unfold loadLine
  simp only [hpre, if_true]

end Profiles
namespace Profiles

open Strconv Strings Bufio Regexp

/-- A line `key=<Itoa v>` of the saved file, read back: the field of the
current section gets `v`. -/
theorem loadLine_saved {τ : Type} (timeParse : Str → τ) (p : Profile τ) (sec : Str)
    (c : Char) (k : Str) (v : Int) (hc : isUnicodeSpace c = false) (hk : '=' ∉ c :: k)
    (hpre : c ≠ '#') (hlo : -(2 : Int) ^ 63 ≤ v) (hhi : v < (2 : Int) ^ 63) :
    loadLine timeParse (p, sec) (dropCR (c :: k ++ '=' :: itoa v)) =
      (if sec = "battery".toList then
        if c :: k = "displaysleep".toList then
          { p with Battery := { p.Battery with DisplaySleep := v } }
        else if c :: k = "sleep".toList then
          { p with Battery := { p.Battery with SystemSleep := v } }
        else if c :: k = "disksleep".toList then
          { p with Battery := { p.Battery with DiskSleep := v } }
        else p
      else if sec = "ac".toList then
        if c :: k = "displaysleep".toList then
          { p with AC := { p.AC with DisplaySleep := v } }
        else if c :: k = "sleep".toList then
          { p with AC := { p.AC with SystemSleep := v } }
        else if c :: k = "disksleep".toList then
          { p with AC := { p.AC with DiskSleep := v } }
        else p
      else p, sec) := by
  obtain ⟨init, d, hit, hd⟩ := itoa_last v
  have hshape : c :: k ++ '=' :: itoa v = c :: (k ++ '=' :: init) ++ [d] := by
    rw [hit]; simp
  have hdrop : dropCR (c :: k ++ '=' :: itoa v) = c :: k ++ '=' :: itoa v := by
    rw [hshape]
    exact dropCR_last _ _ (digit_ne_cr d hd)
  have htrim : trimSpace (c :: k ++ '=' :: itoa v) = c :: k ++ '=' :: itoa v := by
    rw [hshape]
    exact trimSpace_of_ends c _ d hc (digit_not_space d hd)
  have hcre : hasPrefix (trimSpace (c :: k ++ '=' :: itoa v)) "# Created:".toList = false := by
    rw [htrim]
    simp [hasPrefix, List.isPrefixOf, hpre.symm]
  rw [hdrop, loadLine_keyValue timeParse p sec _ (c :: k) (itoa v) htrim hk hcre,
    atoi_itoa v hlo hhi]

/-- The first comment line of the saved file changes nothing. -/
theorem loadLine_title {τ : Type} (timeParse : Str → τ) (p : Profile τ) (name : Str)
    (hname : NameMatches name) :
    loadLine timeParse (p, []) (dropCR ("# macpwr profile: ".toList ++ name)) = (p, []) := by
  obtain ⟨hne, hall⟩ := hname
  have hd : isNameChar (name.getLast hne) = true := hall _ (List.getLast_mem hne)
  have hshape : "# macpwr profile: ".toList ++ name =
      '#' :: (" macpwr profile: ".toList ++ name.dropLast) ++ [name.getLast hne] := by
    conv_lhs => rw [← List.dropLast_append_getLast hne]
    simp
  have hdrop : dropCR ("# macpwr profile: ".toList ++ name) =
      "# macpwr profile: ".toList ++ name := by
    rw [hshape]
    exact dropCR_last _ _ (nameChar_ne_cr _ hd)
  have htrim : trimSpace ("# macpwr profile: ".toList ++ name) =
      "# macpwr profile: ".toList ++ name := by
    rw [hshape]
    exact trimSpace_of_ends '#' _ _ (by decide) (nameChar_not_space _ hd)
  rw [hdrop]
  apply loadLine_no_section
  · rw [htrim]; rfl
  · rw [htrim]; simp
  · rw [htrim]; simp

theorem parseIntSetting_range (sec key : Str) :
    -(2 : Int) ^ 63 ≤ Macpwr.Settings.parseIntSetting sec key ∧
      Macpwr.Settings.parseIntSetting sec key < (2 : Int) ^ 63 := by
  unfold Macpwr.Settings.parseIntSetting
  split
  · exact atoi_range _
  · norm_num

end Profiles
namespace Profiles

open Strconv Strings Bufio Regexp

/-- The four lines of a saved battery section, read back. -/
theorem load_battery_block {τ : Type} (timeParse : Str → τ) (p : Profile τ) (sec : Str)
    (v₁ v₂ v₃ : Int)
    (h₁ : -(2 : Int) ^ 63 ≤ v₁ ∧ v₁ < (2 : Int) ^ 63)
    (h₂ : -(2 : Int) ^ 63 ≤ v₂ ∧ v₂ < (2 : Int) ^ 63)
    (h₃ : -(2 : Int) ^ 63 ≤ v₃ ∧ v₃ < (2 : Int) ^ 63) :
    loadLine timeParse (loadLine timeParse (loadLine timeParse
      (loadLine timeParse (p, sec) (dropCR "[battery]".toList))
      (dropCR ("displaysleep=".toList ++ itoa v₁)))
      (dropCR ("sleep=".toList ++ itoa v₂)))
      (dropCR ("disksleep=".toList ++ itoa v₃)) =
    ({ p with Battery := ⟨v₁, v₂, v₃⟩ }, "battery".toList) := by
  have e₀ : dropCR "[battery]".toList = "[battery]".toList := rfl
  have e₁ := loadLine_saved timeParse p "battery".toList 'd' "isplaysleep".toList v₁
    (by decide) (by decide) (by decide) h₁.1 h₁.2
  have e₂ := loadLine_saved timeParse { p with Battery := { p.Battery with DisplaySleep := v₁ } }
    "battery".toList 's' "leep".toList v₂ (by decide) (by decide) (by decide) h₂.1 h₂.2
  have e₃ := loadLine_saved timeParse
    { p with Battery := { p.Battery with DisplaySleep := v₁, SystemSleep := v₂ } }
    "battery".toList 'd' "isksleep".toList v₃ (by decide) (by decide) (by decide) h₃.1 h₃.2
  simp only [String.toList, List.cons_append, List.nil_append, if_true, reduceCtorEq,
    List.cons.injEq, Char.reduceEq, and_false, and_self, if_false, false_and] at e₁ e₂ e₃
  rw [e₀, loadLine_battery]
  simp only [String.toList, List.cons_append, List.nil_append]
  rw [e₁, e₂, e₃]

/-- The four lines of a saved AC section, read back. -/
theorem load_ac_block {τ : Type} (timeParse : Str → τ) (p : Profile τ) (sec : Str)
    (v₁ v₂ v₃ : Int)
    (h₁ : -(2 : Int) ^ 63 ≤ v₁ ∧ v₁ < (2 : Int) ^ 63)
    (h₂ : -(2 : Int) ^ 63 ≤ v₂ ∧ v₂ < (2 : Int) ^ 63)
    (h₃ : -(2 : Int) ^ 63 ≤ v₃ ∧ v₃ < (2 : Int) ^ 63) :
    loadLine timeParse (loadLine timeParse (loadLine timeParse
      (loadLine timeParse (p, sec) (dropCR "[ac]".toList))
      (dropCR ("displaysleep=".toList ++ itoa v₁)))
      (dropCR ("sleep=".toList ++ itoa v₂)))
      (dropCR ("disksleep=".toList ++ itoa v₃)) =
    ({ p with AC := ⟨v₁, v₂, v₃⟩ }, "ac".toList) := by
  have e₀ : dropCR "[ac]".toList = "[ac]".toList := rfl
  have e₁ := loadLine_saved timeParse p "ac".toList 'd' "isplaysleep".toList v₁
    (by decide) (by decide) (by decide) h₁.1 h₁.2
  have e₂ := loadLine_saved timeParse { p with AC := { p.AC with DisplaySleep := v₁ } }
    "ac".toList 's' "leep".toList v₂ (by decide) (by decide) (by decide) h₂.1 h₂.2
  have e₃ := loadLine_saved timeParse
    { p with AC := { p.AC with DisplaySleep := v₁, SystemSleep := v₂ } }
    "ac".toList 'd' "isksleep".toList v₃ (by decide) (by decide) (by decide) h₃.1 h₃.2
  simp only [String.toList, List.cons_append, List.nil_append, if_true, reduceCtorEq,
    List.cons.injEq, Char.reduceEq, and_false, and_self, if_false, false_and] at e₁ e₂ e₃
  rw [e₀, loadLine_ac]
  simp only [String.toList, List.cons_append, List.nil_append]
  rw [e₁, e₂, e₃]

end Profiles
namespace Profiles

open Strconv Strings Bufio Regexp

theorem saveLines_no_newline (name created : Str) (current : Macpwr.Settings.AllSettings)
    (hname : NameMatches name) (hcreated : '\n' ∉ created) :
    ∀ l ∈ saveLines name created current, '\n' ∉ l := by
  have hn : '\n' ∉ name := fun h => nameChar_ne_newline _ (hname.2 _ h) rfl
  intro l hl
  simp only [saveLines, List.mem_cons, List.mem_singleton, List.not_mem_nil, or_false] at hl
  rcases hl with rfl | rfl | rfl | rfl | rfl | rfl | rfl | rfl | rfl | rfl | rfl | rfl <;>
    simp [hn, hcreated, itoa_no_newline]

theorem saveLines_fit (name created : Str) (current : Macpwr.Settings.AllSettings)
    (hsize₁ : byteLen name + 18 < maxScanTokenSize)
    (hsize₂ : byteLen created + 11 < maxScanTokenSize)
    (hb₁ : -(2 : Int) ^ 63 ≤ current.Battery.DisplaySleep ∧ current.Battery.DisplaySleep < (2 : Int) ^ 63)
    (hb₂ : -(2 : Int) ^ 63 ≤ current.Battery.SystemSleep ∧ current.Battery.SystemSleep < (2 : Int) ^ 63)
    (hb₃ : -(2 : Int) ^ 63 ≤ current.Battery.DiskSleep ∧ current.Battery.DiskSleep < (2 : Int) ^ 63)
    (ha₁ : -(2 : Int) ^ 63 ≤ current.AC.DisplaySleep ∧ current.AC.DisplaySleep < (2 : Int) ^ 63)
    (ha₂ : -(2 : Int) ^ 63 ≤ current.AC.SystemSleep ∧ current.AC.SystemSleep < (2 : Int) ^ 63)
    (ha₃ : -(2 : Int) ^ 63 ≤ current.AC.DiskSleep ∧ current.AC.DiskSleep < (2 : Int) ^ 63) :
    ∀ l ∈ saveLines name created current, byteLen l < maxScanTokenSize := by
  have hmax : maxScanTokenSize = 65536 := rfl
  have hit : ∀ v : Int, -(2 : Int) ^ 63 ≤ v ∧ v < (2 : Int) ^ 63 → byteLen (itoa v) ≤ 80 := by
    intro v hv
    have h1 := byteLen_le (itoa v)
    have h2 := itoa_length v hv.1 hv.2
    omega
  have k₁ : byteLen "# macpwr profile: ".toList = 18 := by decide
  have k₂ : byteLen "# Created: ".toList = 11 := by decide
  have k₃ : byteLen "[battery]".toList = 9 := by decide
  have k₄ : byteLen "[ac]".toList = 4 := by decide
  have k₅ : byteLen "displaysleep=".toList = 13 := by decide
  have k₆ : byteLen "sleep=".toList = 6 := by decide
  have k₇ : byteLen "disksleep=".toList = 10 := by decide
  have k₈ : byteLen [] = 0 := rfl
  have := hit _ hb₁
  have := hit _ hb₂
  have := hit _ hb₃
  have := hit _ ha₁
  have := hit _ ha₂
  have := hit _ ha₃
  intro l hl
  simp only [saveLines, List.mem_cons, List.mem_singleton, List.not_mem_nil, or_false] at hl
  rcases hl with rfl | rfl | rfl | rfl | rfl | rfl | rfl | rfl | rfl | rfl | rfl | rfl <;>
    simp only [byteLen_append, k₁, k₂, k₃, k₄, k₅, k₆, k₇, k₈] <;> omega

/-- The file `Save` writes for in-range settings, read by the loop of
`Load`: no scanner error, and a profile with the name and the settings. -/
theorem load_saved_text {τ : Type} (timeParse : Str → τ) (zero : τ) (name created : Str)
    (current : Macpwr.Settings.AllSettings) (hname : NameMatches name)
    (hcreated : '\n' ∉ created)
    (hsize₁ : byteLen name + 18 < maxScanTokenSize)
    (hsize₂ : byteLen created + 11 < maxScanTokenSize)
    (hb₁ : -(2 : Int) ^ 63 ≤ current.Battery.DisplaySleep ∧ current.Battery.DisplaySleep < (2 : Int) ^ 63)
    (hb₂ : -(2 : Int) ^ 63 ≤ current.Battery.SystemSleep ∧ current.Battery.SystemSleep < (2 : Int) ^ 63)
    (hb₃ : -(2 : Int) ^ 63 ≤ current.Battery.DiskSleep ∧ current.Battery.DiskSleep < (2 : Int) ^ 63)
    (ha₁ : -(2 : Int) ^ 63 ≤ current.AC.DisplaySleep ∧ current.AC.DisplaySleep < (2 : Int) ^ 63)
    (ha₂ : -(2 : Int) ^ 63 ≤ current.AC.SystemSleep ∧ current.AC.SystemSleep < (2 : Int) ^ 63)
    (ha₃ : -(2 : Int) ^ 63 ≤ current.AC.DiskSleep ∧ current.AC.DiskSleep < (2 : Int) ^ 63) :
    (scanLines (saveText name created current)).2 = false ∧
    ∃ t, loadLines timeParse zero name (scanLines (saveText name created current)).1 =
      { Name := name, Created := t,
        Battery := ⟨current.Battery.DisplaySleep, current.Battery.SystemSleep,
          current.Battery.DiskSleep⟩,
        AC := ⟨current.AC.DisplaySleep, current.AC.SystemSleep, current.AC.DiskSleep⟩ } := by
  have hscan := scanLines_lines (saveLines name created current)
    (saveLines_no_newline name created current hname hcreated)
    (saveLines_fit name created current hsize₁ hsize₂ hb₁ hb₂ hb₃ ha₁ ha₂ ha₃)
  rw [← saveText_eq_lines] at hscan
  rw [hscan]
  refine ⟨rfl, ?_⟩
  obtain ⟨t, ht⟩ := loadLine_created timeParse
    ({ Name := name, Created := zero, Battery := ⟨0, 0, 0⟩, AC := ⟨0, 0, 0⟩ } : Profile τ) []
    created
  refine ⟨t, ?_⟩
  have eblank : dropCR [] = [] := rfl
  simp only [loadLines, loadState, saveLines, List.map, List.foldl]
  rw [loadLine_title timeParse _ name hname, ht, eblank, loadLine_blank,
    load_battery_block timeParse _ _ _ _ _ hb₁ hb₂ hb₃, loadLine_blank,
    load_ac_block timeParse _ _ _ _ _ ha₁ ha₂ ha₃]

end Profiles
namespace Profiles

open Strconv Strings Bufio Regexp

theorem parseOutput_of_anchor (data : Str) (h : Macpwr.Settings.anchor <:+: data) :
    ∃ pre mid, Macpwr.Settings.parseOutput data =
      Except.ok ⟨Macpwr.Settings.parseSection pre, Macpwr.Settings.parseSection mid⟩ := by
  cases hc : cut Macpwr.Settings.anchor data with
  | none => exact absurd h ((cut_eq_none_iff _ data).1 hc)
  | some ab =>
    obtain ⟨pre, post⟩ := ab
    obtain ⟨h1, h2⟩ := cut_eq_some _ Macpwr.Settings.anchor_ne_nil data pre post hc
    rw [h1]
    exact ⟨pre, _, Macpwr.Settings.parseOutput_of_first pre post h2⟩

/-- C1: round trip.  For every status output that contains the anchor
`AC Power:`, the pair `Get` extracts from it, written in the layout of
`Save` (under a name `Save` accepts, with a one-line time stamp, both short
enough for the scanner's buffer) and read by the scanner and the loop of
`Load`, gives back without scanner error a profile whose Battery and AC
DisplaySleep, SystemSleep and DiskSleep are the extracted ones, under the
requested name. -/
theorem save_load_round_trip {τ : Type} (timeParse : Str → τ) (zero : τ)
    (data name created : Str) (hanchor : Macpwr.Settings.anchor <:+: data)
    (hname : NameMatches name) (hcreated : '\n' ∉ created)
    (hsize₁ : byteLen name + 18 < maxScanTokenSize)
    (hsize₂ : byteLen created + 11 < maxScanTokenSize) :
    ∃ pair, Macpwr.Settings.parseOutput data = Except.ok pair ∧
      (scanLines (saveText name created pair)).2 = false ∧
      (loadLines timeParse zero name (scanLines (saveText name created pair)).1).Battery =
        ⟨pair.Battery.DisplaySleep, pair.Battery.SystemSleep, pair.Battery.DiskSleep⟩ ∧
      (loadLines timeParse zero name (scanLines (saveText name created pair)).1).AC =
        ⟨pair.AC.DisplaySleep, pair.AC.SystemSleep, pair.AC.DiskSleep⟩ ∧
      (loadLines timeParse zero name (scanLines (saveText name created pair)).1).Name =
        name := by
  obtain ⟨pre, mid, hok⟩ := parseOutput_of_anchor data hanchor
  refine ⟨_, hok, ?_⟩
  obtain ⟨hscan, t, ht⟩ := load_saved_text timeParse zero name created
    ⟨Macpwr.Settings.parseSection pre, Macpwr.Settings.parseSection mid⟩ hname hcreated
    hsize₁ hsize₂ (parseIntSetting_range _ _) (parseIntSetting_range _ _)
    (parseIntSetting_range _ _) (parseIntSetting_range _ _) (parseIntSetting_range _ _)
    (parseIntSetting_range _ _)
  refine ⟨hscan, ?_, ?_, ?_⟩ <;> rw [ht]

/-- C1 at a sample of the status tool's output, saved as `work`. -/
theorem save_load_round_trip_witness :
    Macpwr.Settings.anchor <:+:
      "Battery Power:\n displaysleep 2\n sleep 10\nAC Power:\n displaysleep 10\n".toList ∧
    NameMatches "work".toList ∧
    '\n' ∉ "Mon, 02 Jan 2006 15:04:05 MST".toList ∧
    (∃ pair, Macpwr.Settings.parseOutput
        "Battery Power:\n displaysleep 2\n sleep 10\nAC Power:\n displaysleep 10\n".toList =
          Except.ok pair ∧
      (scanLines (saveText "work".toList "Mon, 02 Jan 2006 15:04:05 MST".toList pair)).2 =
        false ∧
      (loadLines (fun _ => ()) () "work".toList (scanLines (saveText "work".toList
        "Mon, 02 Jan 2006 15:04:05 MST".toList pair)).1).Battery =
        ⟨pair.Battery.DisplaySleep, pair.Battery.SystemSleep, pair.Battery.DiskSleep⟩ ∧
      (loadLines (fun _ => ()) () "work".toList (scanLines (saveText "work".toList
        "Mon, 02 Jan 2006 15:04:05 MST".toList pair)).1).AC =
        ⟨pair.AC.DisplaySleep, pair.AC.SystemSleep, pair.AC.DiskSleep⟩ ∧
      (loadLines (fun _ => ()) () "work".toList (scanLines (saveText "work".toList
        "Mon, 02 Jan 2006 15:04:05 MST".toList pair)).1).Name = "work".toList) :=
  ⟨by decide, by decide, by decide,
    save_load_round_trip (fun _ => ()) ()
      "Battery Power:\n displaysleep 2\n sleep 10\nAC Power:\n displaysleep 10\n".toList
      "work".toList "Mon, 02 Jan 2006 15:04:05 MST".toList
      (by decide) (by decide) (by decide) (by decide) (by decide)⟩

end Profiles

/-! ## `regexp`: greedy repetition and literals -/

namespace Regexp

/-- Greedy repetition in front of a continuation that ignores the previous
character and fails on every character of the class: the whole run is
consumed. -/
theorem rep_of_fail {R : Type} (cls : Char → Bool) (k : Option Char → Str → Option R)
    (hind : ∀ p p' t, k p t = k p' t)
    (hfail : ∀ p c cs, cls c = true → k p (c :: cs) = none) :
    ∀ (s : Str) (prev : Option Char), rep cls k prev s = k none (s.dropWhile cls) := by
  intro s
  induction s with
  | nil => intro prev; exact hind _ _ _
  | cons c cs ih =>
    intro prev
    by_cases hc : cls c = true
    · rw [rep, if_pos hc, ih, List.dropWhile_cons_of_pos hc, hfail prev c cs hc]
      cases k none (List.dropWhile cls cs) <;> rfl
    · rw [rep, if_neg hc, List.dropWhile_cons_of_neg hc]
      exact hind _ _ _

/-- Greedy repetition in front of a continuation that ignores the previous
character and always succeeds: the whole run is consumed. -/
theorem rep_of_total {R : Type} (cls : Char → Bool) (k : Option Char → Str → Option R)
    (hind : ∀ p p' t, k p t = k p' t)
    (htot : ∀ p t, ∃ r, k p t = some r) :
    ∀ (s : Str) (prev : Option Char), rep cls k prev s = k none (s.dropWhile cls) := by
  intro s
  induction s with
  | nil => intro prev; exact hind _ _ _
  | cons c cs ih =>
    intro prev
    by_cases hc : cls c = true
    · rw [rep, if_pos hc, ih, List.dropWhile_cons_of_pos hc]
      obtain ⟨r, hr⟩ := htot none (List.dropWhile cls cs)
      rw [hr]
    · rw [rep, if_neg hc, List.dropWhile_cons_of_neg hc]
      exact hind _ _ _

/-- A run of literals in front of a rest that ignores the previous
character. -/
theorem matchHere_lits (r : List Atom)
    (hind : ∀ cap p p' t, matchHere r cap p t = matchHere r cap p' t) :
    ∀ (key : Str) (cap : Str) (prev : Option Char) (s : Str),
      matchHere (key.map Atom.lit ++ r) cap prev s =
        if key.isPrefixOf s then matchHere r cap none (s.drop key.length) else none := by
  intro key
  induction key with
  | nil => intro cap prev s; simpa using hind cap prev none s
  | cons k ks ih =>
    intro cap prev s
    cases s with
    | nil => simp [matchHere]
    | cons x xs =>
      by_cases hx : x = k
      · subst hx
        simp [matchHere, ih]
      · have hx' : ¬ k = x := fun h => hx h.symm
        simp [matchHere, hx, hx']

theorem take_length_sub_dropWhile (cls : Char → Bool) (s : Str) :
    s.take (s.length - (s.dropWhile cls).length) = s.takeWhile cls := by
  induction s with
  | nil => rfl
  | cons c cs ih =>
    by_cases hc : cls c = true
    · rw [List.dropWhile_cons_of_pos hc, List.takeWhile_cons_of_pos hc]
      have hle : (List.dropWhile cls cs).length ≤ cs.length :=
        (List.dropWhile_suffix cls).length_le
      have : (c :: cs).length - (List.dropWhile cls cs).length =
          (cs.length - (List.dropWhile cls cs).length) + 1 := by
        simp only [List.length_cons]
        omega
      rw [this, List.take_succ_cons, ih]
    · rw [List.dropWhile_cons_of_neg hc, List.takeWhile_cons_of_neg hc]
      simp

end Regexp


/-! ## The settings pattern, position by position -/

namespace Settings

open Regexp

theorem space_not_digit (c : Char) (h : isSpace c = true) : isDigit c = false := by
  unfold isSpace at h
  simp only [Bool.or_eq_true, beq_iff_eq] at h
  rcases h with (((h | h) | h) | h) | h <;> subst h <;> decide

theorem space_not_word (c : Char) (h : isSpace c = true) : isWord c = false := by
  unfold isSpace at h
  simp only [Bool.or_eq_true, beq_iff_eq] at h
  rcases h with (((h | h) | h) | h) | h <;> subst h <;> decide

/-- The group `(\d+)` at the end of a pattern: the digits that follow, all
of them. -/
theorem matchHere_group (cls : Char → Bool) (cap : Str) (prev : Option Char) (s : Str) :
    matchHere [Atom.capOpen, Atom.plus cls, Atom.capClose] cap prev s =
      if s.takeWhile cls ≠ [] then some (s.takeWhile cls) else none := by
  cases s with
  | nil => simp [matchHere]
  | cons d ds =>
    by_cases hd : cls d = true
    · have hrep := rep_of_total cls
        (fun p t => matchHere [Atom.capClose] (d :: ds) p t)
        (fun p p' t => rfl)
        (fun p t => ⟨_, rfl⟩) ds (some d)
      have htake := take_length_sub_dropWhile cls (d :: ds)
      rw [List.dropWhile_cons_of_pos hd] at htake
      simp only [matchHere, hd, if_true] at hrep ⊢
      rw [hrep, htake]
      simp [List.takeWhile_cons_of_pos hd]
    · simp [matchHere, hd, List.takeWhile_cons_of_neg hd]

/-- The end `\s+(\d+)` of the settings pattern. -/
theorem matchHere_value (cap : Str) (prev : Option Char) (s : Str) :
    matchHere [Atom.plus isSpace, Atom.capOpen, Atom.plus isDigit, Atom.capClose] cap prev s =
      if s.takeWhile isSpace ≠ [] ∧ (s.dropWhile isSpace).takeWhile isDigit ≠ [] then
        some ((s.dropWhile isSpace).takeWhile isDigit)
      else none := by
  cases s with
  | nil => simp [matchHere]
  | cons x xs =>
    by_cases hx : isSpace x = true
    · have hrep := rep_of_fail isSpace
        (fun p t => matchHere [Atom.capOpen, Atom.plus isDigit, Atom.capClose] cap p t)
        (fun p p' t => by beta_reduce; rw [matchHere_group, matchHere_group])
        (fun p c cs hc => by
          beta_reduce
          rw [matchHere_group, List.takeWhile_cons_of_neg (by simp [space_not_digit c hc])]
          simp) xs (some x)
      rw [matchHere, if_pos hx, hrep, matchHere_group, List.dropWhile_cons_of_pos hx,
        List.takeWhile_cons_of_pos hx]
      simp
    · rw [matchHere, if_neg hx, List.takeWhile_cons_of_neg hx]
      simp

/-- The settings pattern tried at one position: at the start of a line it
finds what `labelValue` describes, elsewhere nothing. -/
theorem matchHere_settingPattern (key : Str) (hkey : IsLabel key) (prev : Option Char)
    (s : Str) :
    matchHere (settingPattern key) [] prev s =
      if prev = none ∨ prev = some '\n' then labelValue key s else none := by
  have htail : ∀ cap p p' t,
      matchHere [Atom.plus isSpace, Atom.capOpen, Atom.plus isDigit, Atom.capClose] cap p t =
      matchHere [Atom.plus isSpace, Atom.capOpen, Atom.plus isDigit, Atom.capClose] cap p' t :=
    fun cap p p' t => by rw [matchHere_value, matchHere_value]
  have hlits := matchHere_lits _ htail key
  have hrep := rep_of_fail isSpace
    (fun p t => matchHere (key.map Atom.lit ++
      [Atom.plus isSpace, Atom.capOpen, Atom.plus isDigit, Atom.capClose]) [] p t)
    (fun p p' t => by beta_reduce; rw [hlits, hlits])
    (fun p c cs hc => by
      beta_reduce
      rw [hlits]
      obtain ⟨hne, hw⟩ := hkey
      cases key with
      | nil => exact absurd rfl hne
      | cons k ks =>
        have hk : isWord k = true := hw k (List.mem_cons_self _ _)
        have : ¬ k = c := by
          rintro rfl
          rw [space_not_word _ hc] at hk
          cases hk
        simp [List.isPrefixOf, this]) s prev
  have hpat : settingPattern key = Atom.bol :: Atom.star isSpace :: (key.map Atom.lit ++
      [Atom.plus isSpace, Atom.capOpen, Atom.plus isDigit, Atom.capClose]) := by
    simp [settingPattern]
  rw [hpat]
  show (if prev = none ∨ prev = some '\n' then
    rep isSpace (fun p t => matchHere (key.map Atom.lit ++
      [Atom.plus isSpace, Atom.capOpen, Atom.plus isDigit, Atom.capClose]) [] p t) prev s
    else none) = _
  by_cases hb : prev = none ∨ prev = some '\n'
  · rw [if_pos hb, if_pos hb, hrep, hlits, matchHere_value]
    rfl
  · rw [if_neg hb, if_neg hb]

end Settings


/-! ## The settings pattern, line by line -/

namespace Settings

open Regexp Bufio

theorem lines_induction (P : Str → Prop) (h₁ : ∀ l, '\n' ∉ l → P l)
    (h₂ : ∀ l rest, '\n' ∉ l → P rest → P (l ++ '\n' :: rest)) : ∀ s, P s := by
  have key : ∀ n, ∀ s : Str, s.length ≤ n → P s := by
    intro n
    induction n with
    | zero =>
      intro s hs
      have : s = [] := List.length_eq_zero.1 (Nat.le_zero.1 hs)
      subst this
      exact h₁ [] (by simp)
    | succ n ih =>
      intro s hs
      have hsplit := List.takeWhile_append_dropWhile (fun c => decide (c ≠ '\n')) s
      have hno : '\n' ∉ s.takeWhile (fun c => decide (c ≠ '\n')) := by
        intro hmem
        have := List.mem_takeWhile_imp hmem
        simp at this
      cases hd : s.dropWhile (fun c => decide (c ≠ '\n')) with
      | nil =>
        rw [hd, List.append_nil] at hsplit
        rw [← hsplit]
        exact h₁ _ hno
      | cons c rest =>
        have hc : c = '\n' := by
          have := List.head_dropWhile_not (fun c => decide (c ≠ '\n')) s (by rw [hd]; simp)
          simp only [hd, List.head_cons] at this
          simpa using this
        subst hc
        rw [hd] at hsplit
        have hlen : rest.length ≤ n := by
          have := congrArg List.length hsplit
          simp only [List.length_append, List.length_cons] at this
          omega
        rw [← hsplit]
        exact h₂ _ rest hno (ih rest hlen)
  intro s
  exact key s.length s (Nat.le_refl _)

theorem pieces_of_no_newline (l : Str) (h : '\n' ∉ l) : pieces l = [l] := by
  induction l with
  | nil => rfl
  | cons c cs ih =>
    have hc : c ≠ '\n' := fun e => h (by simp [e])
    have hcs : '\n' ∉ cs := fun e => h (List.mem_cons_of_mem _ e)
    rw [pieces, if_neg hc, ih hcs]

theorem find_line_start (key : Str) (hkey : IsLabel key) (prev : Option Char)
    (hprev : prev = none ∨ prev = some '\n') (s : Str) :
    ∃ X, find (settingPattern key) prev s =
      (match labelValue key s with
        | some r => some r
        | none => X) ∧
      X = (match s with
        | [] => none
        | c :: cs => find (settingPattern key) (some c) cs) := by
  cases s with
  | nil =>
    refine ⟨none, ?_, rfl⟩
    rw [find, matchHere_settingPattern key hkey, if_pos hprev]
    cases labelValue key [] <;> rfl
  | cons c cs =>
    refine ⟨_, ?_, rfl⟩
    rw [find, matchHere_settingPattern key hkey, if_pos hprev]

theorem find_inside_line (key : Str) (hkey : IsLabel key) :
    ∀ (l : Str) (c : Char), '\n' ∉ l → c ≠ '\n' →
      find (settingPattern key) (some c) l = none ∧
      ∀ rest, find (settingPattern key) (some c) (l ++ '\n' :: rest) =
        find (settingPattern key) (some '\n') rest := by
  intro l
  induction l with
  | nil =>
    intro c _ hc
    have hb : ¬ (some c = none ∨ some c = some '\n') := by simp [hc]
    refine ⟨?_, fun rest => ?_⟩
    · rw [find, matchHere_settingPattern key hkey, if_neg hb]
    · rw [List.nil_append, find, matchHere_settingPattern key hkey, if_neg hb]
  | cons x xs ih =>
    intro c hl hc
    have hb : ¬ (some c = none ∨ some c = some '\n') := by simp [hc]
    have hx : x ≠ '\n' := fun e => hl (by simp [e])
    have hxs : '\n' ∉ xs := fun e => hl (List.mem_cons_of_mem _ e)
    obtain ⟨i₁, i₂⟩ := ih x hxs hx
    refine ⟨?_, fun rest => ?_⟩
    · rw [find, matchHere_settingPattern key hkey, if_neg hb]
      exact i₁
    · rw [List.cons_append, find, matchHere_settingPattern key hkey, if_neg hb]
      exact i₂ rest

theorem find_start_irrelevant (key : Str) (hkey : IsLabel key) (s : Str) :
    find (settingPattern key) (some '\n') s = find (settingPattern key) none s := by
  cases s with
  | nil =>
    rw [find, find, matchHere_settingPattern key hkey, matchHere_settingPattern key hkey]
    simp
  | cons c cs =>
    rw [find, find, matchHere_settingPattern key hkey, matchHere_settingPattern key hkey]
    simp

/-- The search over a text whose first line is `l`. -/
theorem find_first_line (key : Str) (hkey : IsLabel key) (l rest : Str) (hl : '\n' ∉ l) :
    find (settingPattern key) none (l ++ '\n' :: rest) =
      (match labelValue key (l ++ '\n' :: rest) with
        | some r => some r
        | none => find (settingPattern key) none rest) := by
  obtain ⟨X, h₁, h₂⟩ := find_line_start key hkey none (Or.inl rfl) (l ++ '\n' :: rest)
  rw [h₁, h₂]
  cases l with
  | nil =>
    simp only [List.nil_append]
    rw [find_start_irrelevant key hkey]
  | cons x xs =>
    have hx : x ≠ '\n' := fun e => hl (by simp [e])
    have hxs : '\n' ∉ xs := fun e => hl (List.mem_cons_of_mem _ e)
    simp only [List.cons_append]
    rw [(find_inside_line key hkey xs x hxs hx).2 rest, find_start_irrelevant key hkey]

/-- The search over a text of one line. -/
theorem find_last_line (key : Str) (hkey : IsLabel key) (l : Str) (hl : '\n' ∉ l) :
    find (settingPattern key) none l = labelValue key l := by
  obtain ⟨X, h₁, h₂⟩ := find_line_start key hkey none (Or.inl rfl) l
  rw [h₁, h₂]
  cases l with
  | nil => cases labelValue key [] <;> rfl
  | cons x xs =>
    have hx : x ≠ '\n' := fun e => hl (by simp [e])
    have hxs : '\n' ∉ xs := fun e => hl (List.mem_cons_of_mem _ e)
    simp only []
    rw [(find_inside_line key hkey xs x hxs hx).1]
    cases labelValue key (x :: xs) <;> rfl

end Settings

namespace Settings

open Regexp Bufio

theorem label_no_newline (key : Str) (hkey : IsLabel key) : '\n' ∉ key := by
  intro h
  have := hkey.2 _ h
  revert this
  decide

theorem isPrefixOf_append_newline (key : Str) (hkey : '\n' ∉ key) :
    ∀ a b : Str, key.isPrefixOf (a ++ '\n' :: b) = key.isPrefixOf a := by
  induction key with
  | nil => intro a b; simp
  | cons k ks ih =>
    intro a b
    have hk : k ≠ '\n' := fun e => hkey (by simp [e])
    have hks : '\n' ∉ ks := fun e => hkey (List.mem_cons_of_mem _ e)
    cases a with
    | nil => simp [List.isPrefixOf, hk]
    | cons x xs =>
      have := ih hks xs b
      show (k == x && ks.isPrefixOf (xs ++ '\n' :: b)) = (k == x && ks.isPrefixOf xs)
      rw [this]

theorem isPrefixOf_length_le (key s : Str) (h : key.isPrefixOf s = true) :
    key.length ≤ s.length :=
  (List.isPrefixOf_iff_prefix.1 h).length_le

/-- White space in front does not change what a text carries. -/
theorem labelValue_skip (key l s : Str) (hl : ∀ c ∈ l, isSpace c = true) :
    labelValue key (l ++ s) = labelValue key s := by
  unfold labelValue
  rw [List.dropWhile_append_of_pos hl]

theorem labelValue_of_blank (key l : Str) (hkey : IsLabel key)
    (hl : ∀ c ∈ l, isSpace c = true) : labelValue key l = none := by
  unfold labelValue
  rw [List.dropWhile_eq_nil_iff.2 hl]
  obtain ⟨hne, -⟩ := hkey
  cases key with
  | nil => exact absurd rfl hne
  | cons k ks => simp [List.isPrefixOf]

/-- A line that is not blank and does not leave its label dangling carries
the same digits whatever follows its newline. -/
theorem labelValue_line (key l rest : Str) (hkey : IsLabel key)
    (hblank : ¬ ∀ c ∈ l, isSpace c = true) (hdang : danglingLabel key l = false) :
    labelValue key (l ++ '\n' :: rest) = labelValue key l := by
  have h₁ : l.dropWhile isSpace ≠ [] := fun h => hblank (List.dropWhile_eq_nil_iff.1 h)
  have e₁ : (l ++ '\n' :: rest).dropWhile isSpace = l.dropWhile isSpace ++ '\n' :: rest := by
    rw [List.dropWhile_append, if_neg]
    simpa using h₁
  unfold labelValue
  rw [e₁, isPrefixOf_append_newline key (label_no_newline key hkey)]
  by_cases hp : key.isPrefixOf (l.dropWhile isSpace) = true
  · rw [if_pos hp, if_pos hp]
    have hlen := isPrefixOf_length_le _ _ hp
    have hnot : ¬ ∀ c ∈ (l.dropWhile isSpace).drop key.length, isSpace c = true := by
      intro hall
      have : danglingLabel key l = true := by
        unfold danglingLabel
        rw [hp, Bool.true_and, List.all_eq_true]
        exact hall
      rw [this] at hdang
      cases hdang
    have e₂ : (l.dropWhile isSpace ++ '\n' :: rest).drop key.length =
        (l.dropWhile isSpace).drop key.length ++ '\n' :: rest :=
      List.drop_append_of_le_length hlen
    have h₃ : ((l.dropWhile isSpace).drop key.length).dropWhile isSpace ≠ [] :=
      fun h => hnot (List.dropWhile_eq_nil_iff.1 h)
    have e₃ : ((l.dropWhile isSpace).drop key.length ++ '\n' :: rest).dropWhile isSpace =
        ((l.dropWhile isSpace).drop key.length).dropWhile isSpace ++ '\n' :: rest := by
      rw [List.dropWhile_append, if_neg]
      simpa using h₃
    have e₄ : ((l.dropWhile isSpace).drop key.length ++ '\n' :: rest).takeWhile isSpace =
        ((l.dropWhile isSpace).drop key.length).takeWhile isSpace := by
      rw [List.takeWhile_append, if_neg]
      intro hlen'
      apply hnot
      have hpre := List.takeWhile_prefix isSpace (l := (l.dropWhile isSpace).drop key.length)
      have heq := hpre.eq_of_length hlen'
      exact List.takeWhile_eq_self_iff.1 heq
    have e₅ : ∀ m : Str, (m ++ '\n' :: rest).takeWhile isDigit = m.takeWhile isDigit := by
      intro m
      rw [List.takeWhile_append]
      split
      · rename_i hlen'
        have hpre := List.takeWhile_prefix isDigit (l := m)
        have heq := hpre.eq_of_length hlen'
        rw [heq, List.takeWhile_cons_of_neg (by decide)]
        simp
      · rfl
    rw [e₂, e₃, e₄, e₅]
  · rw [if_neg hp, if_neg hp]

end Settings

namespace Strconv

open Regexp

theorem parseUintLoop_of_large :
    ∀ (s : Str) (a : Nat), (∀ c ∈ s, isDigit c = true) → a ≤ maxUint64 →
      maxUint64 < s.foldl (fun n c => n * 10 + (c.toNat - '0'.toNat)) a →
      parseUintLoop a s = (maxUint64, some NumError.errRange) := by
  intro s
  induction s with
  | nil =>
    intro a _ ha hlt
    simp only [List.foldl_nil] at hlt
    omega
  | cons c cs ih =>
    intro a hd ha hlt
    have hc : isDigit c = true := hd c (List.mem_cons_self _ _)
    rw [parseUintLoop, if_pos hc]
    split
    · rfl
    · split
      · rfl
      · rename_i h1 h2
        exact ih _ (fun x hx => hd x (List.mem_cons_of_mem _ hx)) (by omega) hlt

/-- On a non-empty string of digits `Atoi` returns the number written,
capped at the largest `int`. -/
theorem atoi_digits (ds : Str) (hne : ds ≠ []) (hd : ∀ c ∈ ds, isDigit c = true) :
    (atoi ds).1 =
      ((min (ds.foldl (fun n c => n * 10 + (c.toNat - '0'.toNat)) 0) (2 ^ 63 - 1) : Nat) : Int) := by
  cases ds with
  | nil => exact absurd rfl hne
  | cons c cs =>
    have hc : isDigit c = true := hd c (List.mem_cons_self _ _)
    have hc1 : (c == '-') = false := by
      rw [beq_eq_false_iff_ne]
      rintro rfl
      revert hc
      decide
    have hc2 : (c == '+') = false := by
      rw [beq_eq_false_iff_ne]
      rintro rfl
      revert hc
      decide
    have hmax : maxUint64 = 18446744073709551615 := by decide
    by_cases hsmall : (c :: cs).foldl (fun n c => n * 10 + (c.toNat - '0'.toNat)) 0 ≤ maxUint64
    · have hp := parseUintLoop_of_small (c :: cs) 0 hd hsmall
      simp only [atoi, parseInt, hc1, hc2, Bool.or_false, Bool.false_eq_true, if_false,
        parseUint, hp, Bool.not_false, Bool.true_and, Bool.false_and, decide_eq_true_eq]
      split
      · rename_i h
        rw [min_eq_right (by omega)]
        norm_num
      · rename_i h
        rw [min_eq_left (by omega)]
    · have hp := parseUintLoop_of_large (c :: cs) 0 hd (by omega) (by omega)
      simp only [atoi, parseInt, hc1, hc2, Bool.or_false, Bool.false_eq_true, if_false,
        parseUint, hp, Bool.not_false, Bool.true_and, Bool.false_and, decide_eq_true_eq]
      rw [if_pos (by omega), min_eq_right (by omega)]
      norm_num

end Strconv

namespace Settings

open Regexp Bufio Strconv

/-- On a text without dangling label lines, the pattern finds the digits of
the first line that carries the label. -/
theorem find_eq_first_line (key : Str) (hkey : IsLabel key) :
    ∀ text : Str, (∀ line ∈ pieces text, danglingLabel key line = false) →
      findStringSubmatch (settingPattern key) text =
        (pieces text).findSome? (labelValue key) := by
  intro text
  unfold findStringSubmatch
  induction text using lines_induction with
  | h₁ l hl =>
    intro _
    rw [find_last_line key hkey l hl, pieces_of_no_newline l hl]
    simp only [List.findSome?]
    cases labelValue key l <;> rfl
  | h₂ l rest hl ih =>
    intro hnd
    rw [pieces_append_newline l rest hl] at hnd ⊢
    have hd : danglingLabel key l = false := hnd l (List.mem_cons_self _ _)
    have ih' := ih (fun x hx => hnd x (List.mem_cons_of_mem _ hx))
    rw [find_first_line key hkey l rest hl]
    simp only [List.findSome?]
    by_cases hblank : ∀ c ∈ l, isSpace c = true
    · have hsp : ∀ c ∈ l ++ ['\n'], isSpace c = true := by
        intro c hc
        rcases List.mem_append.1 hc with h | h
        · exact hblank c h
        · rw [List.mem_singleton.1 h]; decide
      have e : l ++ '\n' :: rest = (l ++ ['\n']) ++ rest := by simp
      rw [e, labelValue_skip key _ rest hsp, labelValue_of_blank key l hkey hblank]
      obtain ⟨X, h₁, -⟩ := find_line_start key hkey none (Or.inl rfl) rest
      rw [← ih']
      rw [h₁]
      cases labelValue key rest <;> rfl
    · rw [labelValue_line key l rest hkey hblank hd, ih']
      cases labelValue key l <;> rfl

theorem labelValue_digits (key s ds : Str) (h : labelValue key s = some ds) :
    ds ≠ [] ∧ ∀ c ∈ ds, isDigit c = true := by
  unfold labelValue at h
  split at h
  · split at h
    · rename_i h2
      simp only [Option.some.injEq] at h
      subst h
      exact ⟨h2.2, fun c hc => List.mem_takeWhile_imp hc⟩
    · cases h
  · cases h

theorem findSome_labelValue_digits (key : Str) (ls : List Str) (ds : Str)
    (h : ls.findSome? (labelValue key) = some ds) :
    ds ≠ [] ∧ ∀ c ∈ ds, isDigit c = true := by
  obtain ⟨l, -, hl⟩ := List.exists_of_findSome?_eq_some h
  exact labelValue_digits key l ds hl

end Settings

namespace Settings

open Regexp Bufio Strconv

theorem sleep_not_leading (line : Str)
    (h : "displaysleep".toList <+: line.dropWhile isSpace ∨
      "disksleep".toList <+: line.dropWhile isSpace ∨ ∀ c ∈ line, isSpace c = true) :
    "sleep".toList.isPrefixOf (line.dropWhile isSpace) = false := by
  rcases h with ⟨t, ht⟩ | ⟨t, ht⟩ | h
  · rw [← ht]; rfl
  · rw [← ht]; rfl
  · rw [List.dropWhile_eq_nil_iff.2 h]; rfl

/-- C6, as stated, fails.  In `sleep`, newline, `5` no line has the shape
label, white space, digits, yet `parseIntSetting` returns 5, digits of the
next line (the pattern's `\s+` runs over the newline); and digits past the
range of `int` come back as the largest `int`, not as the integer
written. -/
theorem parseIntSetting_crosses_lines_and_saturates :
    parseIntSetting "sleep\n5".toList "sleep".toList = 5 ∧
    (pieces "sleep\n5".toList).findSome? (labelValue "sleep".toList) = none ∧
    parseIntSetting "sleep 99999999999999999999".toList "sleep".toList =
      9223372036854775807 := by
  decide

/-- C6, amended: for every label (a word, such as displaysleep, sleep,
disksleep) and every text block none of whose lines holds the label
followed by white space only, `parseIntSetting` returns the integer written
after the label, capped at the largest `int` (2^63 - 1), on the first line
that begins, after optional white space, with the label followed by white
space and digits, and 0 when no line has that shape.  And a text whose
lines all begin with displaysleep or disksleep (or are blank) gives 0 for
the label sleep. -/
theorem parseIntSetting_first_label_line (key text : Str) (hkey : IsLabel key)
    (hnd : ∀ line ∈ pieces text, danglingLabel key line = false) :
    parseIntSetting text key =
      (match (pieces text).findSome? (labelValue key) with
        | some ds => ((min (decimalValue ds) (2 ^ 63 - 1) : Nat) : Int)
        | none => 0) ∧
    (∀ t : Str,
      (∀ line ∈ pieces t, "displaysleep".toList <+: line.dropWhile isSpace ∨
        "disksleep".toList <+: line.dropWhile isSpace ∨ ∀ c ∈ line, isSpace c = true) →
      parseIntSetting t "sleep".toList = 0) := by
  constructor
  · unfold parseIntSetting
    rw [find_eq_first_line key hkey text hnd]
    cases h : (pieces text).findSome? (labelValue key) with
    | none => rfl
    | some ds =>
      obtain ⟨h1, h2⟩ := findSome_labelValue_digits key _ ds h
      exact atoi_digits ds h1 h2
  · intro t ht
    have hsleep : IsLabel "sleep".toList := by decide
    have hnd' : ∀ line ∈ pieces t, danglingLabel "sleep".toList line = false := by
      intro line hl
      unfold danglingLabel
      rw [sleep_not_leading line (ht line hl)]
      rfl
    have hnone : (pieces t).findSome? (labelValue "sleep".toList) = none := by
      rw [List.findSome?_eq_none_iff]
      intro line hl
      unfold labelValue
      rw [sleep_not_leading line (ht line hl)]
      rfl
    unfold parseIntSetting
    rw [find_eq_first_line _ hsleep t hnd', hnone]

/-- C6 on three lines of status output: the value for sleep is the 5 of
the second line, not the 10 or the 7 of its neighbours. -/
theorem parseIntSetting_first_label_line_witness :
    IsLabel "sleep".toList ∧
    (∀ line ∈ pieces " displaysleep 10\n sleep 5\n disksleep 7\n".toList,
      danglingLabel "sleep".toList line = false) ∧
    parseIntSetting " displaysleep 10\n sleep 5\n disksleep 7\n".toList "sleep".toList = 5 :=
  ⟨by decide, by decide,
    (parseIntSetting_first_label_line "sleep".toList
      " displaysleep 10\n sleep 5\n disksleep 7\n".toList (by decide) (by decide)).1.trans
      (by decide)⟩

end Settings

/-! ## The battery pattern, position by position -/

namespace Battery

open Regexp

/-- The end `\s*(\w+)` of the battery pattern. -/
theorem matchHere_word (cap : Str) (prev : Option Char) (s : Str) :
    matchHere [Atom.star isSpace, Atom.capOpen, Atom.plus isWord, Atom.capClose] cap prev s =
      if (s.dropWhile isSpace).takeWhile isWord ≠ [] then
        some ((s.dropWhile isSpace).takeWhile isWord)
      else none := by
  have hrep := rep_of_fail isSpace
    (fun p t => matchHere [Atom.capOpen, Atom.plus isWord, Atom.capClose] cap p t)
    (fun p p' t => by
      beta_reduce
      rw [Macpwr.Settings.matchHere_group, Macpwr.Settings.matchHere_group])
    (fun p c cs hc => by
      beta_reduce
      rw [Macpwr.Settings.matchHere_group,
        List.takeWhile_cons_of_neg (by simp [Macpwr.Settings.space_not_word c hc])]
      simp) s prev
  rw [matchHere, hrep, Macpwr.Settings.matchHere_group]

/-- The end `\s*=\s*(\w+)` of the battery pattern. -/
theorem matchHere_assign (cap : Str) (prev : Option Char) (s : Str) :
    matchHere [Atom.star isSpace, Atom.lit '=', Atom.star isSpace, Atom.capOpen,
        Atom.plus isWord, Atom.capClose] cap prev s =
      (match s.dropWhile isSpace with
        | [] => none
        | c :: rest =>
          if c = '=' ∧ (rest.dropWhile isSpace).takeWhile isWord ≠ [] then
            some ((rest.dropWhile isSpace).takeWhile isWord)
          else none) := by
  have hk : ∀ (p : Option Char) (t : Str),
      matchHere [Atom.lit '=', Atom.star isSpace, Atom.capOpen, Atom.plus isWord,
        Atom.capClose] cap p t =
      (match t with
        | [] => none
        | c :: rest =>
          if c = '=' ∧ (rest.dropWhile isSpace).takeWhile isWord ≠ [] then
            some ((rest.dropWhile isSpace).takeWhile isWord)
          else none) := by
    intro p t
    cases t with
    | nil => rfl
    | cons c rest =>
      by_cases hc : c = '='
      · subst hc
        rw [matchHere, if_pos rfl, matchHere_word]
        simp
      · rw [matchHere, if_neg hc]
        simp [hc]
  have hrep := rep_of_fail isSpace
    (fun p t => matchHere [Atom.lit '=', Atom.star isSpace, Atom.capOpen, Atom.plus isWord,
      Atom.capClose] cap p t)
    (fun p p' t => by beta_reduce; rw [hk, hk])
    (fun p c cs hc => by
      beta_reduce
      rw [hk]
      have : c ≠ '=' := by
        rintro rfl
        revert hc
        decide
      simp [this]) s prev
  rw [matchHere, hrep, hk]
  cases List.dropWhile isSpace s <;> rfl

/-- The battery pattern tried at one position. -/
theorem matchHere_boolPattern (key : Str) (prev : Option Char) (s : Str) :
    matchHere (boolPattern key) [] prev s =
      if prev = none ∨ prev = some '\n' then quotedValue key s else none := by
  have hpat : boolPattern key = Atom.bol :: Atom.plus isSpace ::
      ((quoted key).map Atom.lit ++ [Atom.star isSpace, Atom.lit '=', Atom.star isSpace,
        Atom.capOpen, Atom.plus isWord, Atom.capClose]) := by
    simp [boolPattern, quoted]
  have hlits := matchHere_lits [Atom.star isSpace, Atom.lit '=', Atom.star isSpace,
      Atom.capOpen, Atom.plus isWord, Atom.capClose]
    (fun cap p p' t => by rw [matchHere_assign, matchHere_assign]) (quoted key)
  have hfail : ∀ (p : Option Char) (c : Char) (cs : Str), isSpace c = true →
      matchHere ((quoted key).map Atom.lit ++ [Atom.star isSpace, Atom.lit '=',
        Atom.star isSpace, Atom.capOpen, Atom.plus isWord, Atom.capClose]) [] p (c :: cs) =
        none := by
    intro p c cs hc
    rw [hlits]
    have : ¬ '"' = c := by
      rintro rfl
      revert hc
      decide
    simp [quoted, List.isPrefixOf, this]
  have hrep := rep_of_fail isSpace
    (fun p t => matchHere ((quoted key).map Atom.lit ++ [Atom.star isSpace, Atom.lit '=',
      Atom.star isSpace, Atom.capOpen, Atom.plus isWord, Atom.capClose]) [] p t)
    (fun p p' t => by beta_reduce; rw [hlits, hlits])
    (fun p c cs hc => hfail p c cs hc)
  rw [hpat]
  show (if prev = none ∨ prev = some '\n' then
    matchHere (Atom.plus isSpace :: ((quoted key).map Atom.lit ++ [Atom.star isSpace,
      Atom.lit '=', Atom.star isSpace, Atom.capOpen, Atom.plus isWord, Atom.capClose]))
      [] prev s
    else none) = _
  by_cases hb : prev = none ∨ prev = some '\n'
  · rw [if_pos hb, if_pos hb]
    unfold quotedValue
    cases s with
    | nil => simp [matchHere]
    | cons x xs =>
      by_cases hx : isSpace x = true
      · rw [matchHere, if_pos hx, hrep]
        beta_reduce
        rw [hlits, matchHere_assign,
          List.takeWhile_cons_of_pos hx, List.dropWhile_cons_of_pos hx]
        simp
      · rw [matchHere, if_neg hx, List.takeWhile_cons_of_neg hx]
        simp
  · rw [if_neg hb, if_neg hb]

end Battery


/-! ## Where a match can come from -/

namespace Regexp

/-- A match found by the search is a match at some position of the text. -/
theorem find_eq_some (pat : List Atom) :
    ∀ (s : Str) (prev : Option Char) (r : Str), find pat prev s = some r →
      ∃ prev' t, t <:+ s ∧ matchHere pat [] prev' t = some r := by
  intro s
  induction s with
  | nil =>
    intro prev r h
    exact ⟨prev, [], List.suffix_refl _, h⟩
  | cons c cs ih =>
    intro prev r h
    rw [find] at h
    cases hm : matchHere pat [] prev (c :: cs) with
    | some r' =>
      rw [hm] at h
      exact ⟨prev, c :: cs, List.suffix_refl _, by rw [hm, ← h]⟩
    | none =>
      rw [hm] at h
      obtain ⟨prev', t, ht, hr⟩ := ih (some c) r h
      exact ⟨prev', t, ht.trans (List.suffix_cons _ _), hr⟩

end Regexp

namespace Settings

open Regexp

theorem labelValue_occurs (key s r : Str) (h : labelValue key s = some r) : key <:+: s := by
  unfold labelValue at h
  split at h
  · rename_i hp
    exact (List.isPrefixOf_iff_prefix.1 hp).isInfix.trans (List.dropWhile_suffix _).isInfix
  · cases h

/-- Without the label in the text the settings pattern finds nothing. -/
theorem find_none_of_absent (key : Str) (hkey : IsLabel key) (text : Str)
    (h : ¬ key <:+: text) : findStringSubmatch (settingPattern key) text = none := by
  cases hf : findStringSubmatch (settingPattern key) text with
  | none => rfl
  | some r =>
    exfalso
    apply h
    obtain ⟨prev', t, ht, hr⟩ := find_eq_some _ text none r hf
    rw [matchHere_settingPattern key hkey] at hr
    split at hr
    · exact (labelValue_occurs key t r hr).trans ht.isInfix
    · cases hr

end Settings

namespace Battery

open Regexp

theorem quotedValue_occurs (key s r : Str) (h : quotedValue key s = some r) :
    quoted key <:+: s := by
  unfold quotedValue at h
  split at h
  · rename_i hp
    exact (List.isPrefixOf_iff_prefix.1 hp.2).isInfix.trans (List.dropWhile_suffix _).isInfix
  · cases h

/-- Without the quoted label in the text the battery pattern finds
nothing. -/
theorem find_none_of_unquoted (key : Str) (text : Str) (h : ¬ quoted key <:+: text) :
    findStringSubmatch (boolPattern key) text = none := by
  cases hf : findStringSubmatch (boolPattern key) text with
  | none => rfl
  | some r =>
    exfalso
    apply h
    obtain ⟨prev', t, ht, hr⟩ := find_eq_some _ text none r hf
    rw [matchHere_boolPattern key] at hr
    split at hr
    · exact (quotedValue_occurs key t r hr).trans ht.isInfix
    · cases hr

theorem word_not_space (c : Char) (h : isWord c = true) : isSpace c = false := by
  cases hs : isSpace c with
  | false => rfl
  | true =>
    rw [Macpwr.Settings.space_not_word c hs] at h
    cases h

/-- An entry of the dump behind white space: the word after the equals
sign. -/
theorem quotedValue_entry (key u ws₁ ws₂ w rest : Str) (hu : u ≠ [])
    (hus : ∀ c ∈ u, isSpace c = true) (h₁ : ∀ c ∈ ws₁, isSpace c = true)
    (h₂ : ∀ c ∈ ws₂, isSpace c = true) (hw : w ≠ []) (hww : ∀ c ∈ w, isWord c = true)
    (hrest : rest.takeWhile isWord = []) :
    quotedValue key (u ++ (quoted key ++ (ws₁ ++ '=' :: (ws₂ ++ (w ++ rest))))) = some w := by
  have e₁ : (u ++ (quoted key ++ (ws₁ ++ '=' :: (ws₂ ++ (w ++ rest))))).dropWhile isSpace =
      quoted key ++ (ws₁ ++ '=' :: (ws₂ ++ (w ++ rest))) := by
    rw [List.dropWhile_append_of_pos hus]
    rfl
  have e₀ : (u ++ (quoted key ++ (ws₁ ++ '=' :: (ws₂ ++ (w ++ rest))))).takeWhile isSpace ≠
      [] := by
    cases u with
    | nil => exact absurd rfl hu
    | cons c cs =>
      rw [List.cons_append, List.takeWhile_cons_of_pos (hus c (List.mem_cons_self _ _))]
      simp
  have e₂ : (quoted key).isPrefixOf (quoted key ++ (ws₁ ++ '=' :: (ws₂ ++ (w ++ rest)))) =
      true := List.isPrefixOf_iff_prefix.2 (List.prefix_append _ _)
  have e₃ : (ws₁ ++ '=' :: (ws₂ ++ (w ++ rest))).dropWhile isSpace =
      '=' :: (ws₂ ++ (w ++ rest)) := by
    rw [List.dropWhile_append_of_pos h₁, List.dropWhile_cons_of_neg (by decide)]
  have e₄ : (ws₂ ++ (w ++ rest)).dropWhile isSpace = w ++ rest := by
    rw [List.dropWhile_append_of_pos h₂]
    cases w with
    | nil => exact absurd rfl hw
    | cons c cs =>
      rw [List.cons_append, List.dropWhile_cons_of_neg]
      simp [word_not_space c (hww c (List.mem_cons_self _ _))]
  have e₅ : (w ++ rest).takeWhile isWord = w := by
    rw [List.takeWhile_append_of_pos hww, hrest, List.append_nil]
  unfold quotedValue
  rw [e₁, if_pos ⟨e₀, e₂⟩, List.drop_left, e₃]
  simp only [e₄, e₅]
  rw [if_pos ⟨trivial, hw⟩]

end Battery

namespace Battery

open Regexp

/-- Before the first occurrence of the quoted label, a position can only
match through to that occurrence, and then with the same word. -/
theorem quotedValue_before (key p ind ws₁ ws₂ w rest : Str) (hind : ind ≠ [])
    (hinds : ∀ c ∈ ind, isSpace c = true) (h₁ : ∀ c ∈ ws₁, isSpace c = true)
    (h₂ : ∀ c ∈ ws₂, isSpace c = true) (hw : w ≠ []) (hww : ∀ c ∈ w, isWord c = true)
    (hrest : rest.takeWhile isWord = [])
    (hfirst : ¬ quoted key <:+: p ++ (ind ++ (quoted key).dropLast)) (r : Str)
    (h : quotedValue key (p ++ (ind ++ (quoted key ++ (ws₁ ++ '=' :: (ws₂ ++ (w ++ rest)))))) =
      some r) : r = w := by
  by_cases hp : ∀ c ∈ p, isSpace c = true
  · have hu : p ++ ind ≠ [] := by simp [hind]
    have hus : ∀ c ∈ p ++ ind, isSpace c = true := by
      intro c hc
      rcases List.mem_append.1 hc with h | h
      · exact hp c h
      · exact hinds c h
    have := quotedValue_entry key (p ++ ind) ws₁ ws₂ w rest hu hus h₁ h₂ hw hww hrest
    rw [List.append_assoc, h] at this
    exact Option.some.inj this
  · exfalso
    apply hfirst
    have hp₁ : p.dropWhile isSpace ≠ [] := fun e => hp (List.dropWhile_eq_nil_iff.1 e)
    have hdrop : (p ++ (ind ++ (quoted key ++ (ws₁ ++ '=' :: (ws₂ ++ (w ++ rest)))))).dropWhile
        isSpace = p.dropWhile isSpace ++
          (ind ++ (quoted key ++ (ws₁ ++ '=' :: (ws₂ ++ (w ++ rest))))) := by
      rw [List.dropWhile_append, if_neg]
      simpa using hp₁
    unfold quotedValue at h
    split at h
    · rename_i hq
      have hpre : quoted key <+: p.dropWhile isSpace ++
          (ind ++ (quoted key ++ (ws₁ ++ '=' :: (ws₂ ++ (w ++ rest))))) := by
        rw [← hdrop]
        exact List.isPrefixOf_iff_prefix.1 hq.2
      have hA : (p.dropWhile isSpace ++ (ind ++ (quoted key).dropLast)) <+:
          p.dropWhile isSpace ++
            (ind ++ (quoted key ++ (ws₁ ++ '=' :: (ws₂ ++ (w ++ rest))))) := by
        obtain ⟨t, ht⟩ := Macpwr.Strings.dropLast_init (quoted key)
        refine ⟨t ++ (ws₁ ++ '=' :: (ws₂ ++ (w ++ rest))), ?_⟩
        conv_rhs => rw [← ht]
        simp
      have hlen : (quoted key).length ≤
          (p.dropWhile isSpace ++ (ind ++ (quoted key).dropLast)).length := by
        have : (p.dropWhile isSpace).length ≠ 0 := fun e => hp₁ (List.length_eq_zero.1 e)
        simp only [List.length_append, List.length_dropLast]
        omega
      have hin := (List.prefix_of_prefix_length_le hpre hA hlen).isInfix
      have hsuf : (p.dropWhile isSpace ++ (ind ++ (quoted key).dropLast)) <:+
          p ++ (ind ++ (quoted key).dropLast) := by
        obtain ⟨t, ht⟩ := List.dropWhile_suffix isSpace (l := p)
        exact ⟨t, by rw [← List.append_assoc, ht]⟩
      exact hin.trans hsuf.isInfix
    · cases h

/-- The search reaches the first entry of the label on a line of its own. -/
theorem find_entry (key ind ws₁ ws₂ w rest : Str) (hind : ind ≠ [])
    (hinds : ∀ c ∈ ind, isSpace c = true) (h₁ : ∀ c ∈ ws₁, isSpace c = true)
    (h₂ : ∀ c ∈ ws₂, isSpace c = true) (hw : w ≠ []) (hww : ∀ c ∈ w, isWord c = true)
    (hrest : rest.takeWhile isWord = []) :
    ∀ (p : Str) (prev : Option Char), (p = [] → prev = none ∨ prev = some '\n') →
      (p ≠ [] → p.getLast? = some '\n') →
      ¬ quoted key <:+: p ++ (ind ++ (quoted key).dropLast) →
      find (boolPattern key) prev
        (p ++ (ind ++ (quoted key ++ (ws₁ ++ '=' :: (ws₂ ++ (w ++ rest)))))) = some w := by
  intro p
  induction p with
  | nil =>
    intro prev hprev _ _
    have hq := quotedValue_entry key ind ws₁ ws₂ w rest hind hinds h₁ h₂ hw hww hrest
    cases ind with
    | nil => exact absurd rfl hind
    | cons c cs =>
      rw [List.nil_append, List.cons_append, find, matchHere_boolPattern, if_pos (hprev rfl)]
      rw [List.cons_append] at hq
      rw [hq]
  | cons x xs ih =>
    intro prev _ hlast hfirst
    rw [List.cons_append, find, matchHere_boolPattern]
    have hnext : find (boolPattern key) (some x)
        (xs ++ (ind ++ (quoted key ++ (ws₁ ++ '=' :: (ws₂ ++ (w ++ rest)))))) = some w := by
      apply ih
      · intro hxs
        subst hxs
        have := hlast (by simp)
        simp only [List.getLast?_singleton] at this
        exact Or.inr this
      · intro hxs
        have := hlast (by simp)
        cases xs with
        | nil => exact absurd rfl hxs
        | cons y ys => simpa [List.getLast?_cons_cons] using this
      · intro hin
        exact hfirst (hin.trans (List.suffix_cons x _).isInfix)
    by_cases hb : prev = none ∨ prev = some '\n'
    · rw [if_pos hb]
      cases hq : quotedValue key
          (x :: (xs ++ (ind ++ (quoted key ++ (ws₁ ++ '=' :: (ws₂ ++ (w ++ rest))))))) with
      | none => exact hnext
      | some r =>
        have := quotedValue_before key (x :: xs) ind ws₁ ws₂ w rest hind hinds h₁ h₂ hw hww
          hrest hfirst r hq
        rw [this]
    · rw [if_neg hb]
      exact hnext

end Battery
namespace Battery

open Regexp Bufio Macpwr.Settings

theorem key_infix_quoted (key : Str) : key <:+: quoted key :=
  ⟨['"'], ['"'], by simp [quoted]⟩

/-- C7, as stated, fails: each extractor knows one spelling of true only.
`parseBoolSetting` is false for the value yes, `parseBoolValue` is false
for the value 1. -/
theorem bool_extractors_one_spelling_each :
    parseBoolSetting " womp yes\n".toList "womp".toList = false ∧
    parseBoolValue "  \"IsCharging\" = 1\n".toList "IsCharging".toList = false := by
  decide

/-- The search with the battery pattern, on every text: the word of the
first place where a line begins from which an entry of the label can be
read. -/
theorem find_boolPattern (key : Str) :
    ∀ (s : Str) (prev : Option Char),
      find (boolPattern key) prev s =
        ((if prev = none ∨ prev = some '\n' then [s] else []) ++ afterNewlines s).findSome?
          (quotedValue key) := by
  intro s
  induction s with
  | nil =>
    intro prev
    rw [find, matchHere_boolPattern]
    by_cases hb : prev = none ∨ prev = some '\n'
    · rw [if_pos hb, if_pos hb]
      simp only [afterNewlines, List.append_nil, List.findSome?]
      cases quotedValue key [] <;> rfl
    · rw [if_neg hb, if_neg hb]
      rfl
  | cons c cs ih =>
    intro prev
    rw [find, matchHere_boolPattern, ih (some c)]
    have hnext : (some c = none ∨ some c = some '\n') ↔ c = '\n' := by simp
    by_cases hb : prev = none ∨ prev = some '\n'
    · rw [if_pos hb, if_pos hb]
      by_cases hc : c = '\n'
      · rw [if_pos (hnext.2 hc)]
        simp only [afterNewlines, if_pos hc, List.cons_append, List.nil_append,
          List.findSome?]
        cases quotedValue key (c :: cs) <;> rfl
      · rw [if_neg (fun h => hc (hnext.1 h))]
        simp only [afterNewlines, if_neg hc, List.cons_append, List.nil_append,
          List.findSome?]
        cases quotedValue key (c :: cs) <;> rfl
    · rw [if_neg hb, if_neg hb]
      by_cases hc : c = '\n'
      · rw [if_pos (hnext.2 hc)]
        simp only [afterNewlines, if_pos hc, List.cons_append, List.nil_append]
      · rw [if_neg (fun h => hc (hnext.1 h))]
        simp only [afterNewlines, if_neg hc, List.nil_append]

/-- C7, amended: each extractor reads the spelling of its own tool.  For a
label `key` of the status output, on every text without a dangling label
line, `settings.parseBoolSetting` is true exactly when the first line that
begins with the label followed by white space and digits has the digits
`1`.  For a label `bkey` of the battery dump, on every text,
`battery.parseBoolValue` is true exactly when the first entry of the label
on a line of its own (from where a line begins: white space, the quoted
label, `=`, a word) has a word that is `yes` in any letter case; an
occurrence of the quoted label inside a line is no entry, before or without
one.  When the first occurrence of the quoted label is such an entry, its
word decides.  Both are false when the label does not occur in the text. -/
theorem bool_extractors_by_tool (key bkey : Str) (hkey : IsLabel key) (_hbkey : IsLabel bkey) :
    (∀ text : Str, (∀ line ∈ pieces text, danglingLabel key line = false) →
      parseBoolSetting text key =
        decide ((pieces text).findSome? (labelValue key) = some ['1'])) ∧
    (∀ text : Str, parseBoolValue text bkey =
      decide (((lineStarts text).findSome? (quotedValue bkey)).map toLower =
        some "yes".toList)) ∧
    (∀ pre ind ws₁ ws₂ w rest : Str, (pre = [] ∨ pre.getLast? = some '\n') →
      ind ≠ [] → (∀ c ∈ ind, isSpace c = true) → (∀ c ∈ ws₁, isSpace c = true) →
      (∀ c ∈ ws₂, isSpace c = true) → w ≠ [] → (∀ c ∈ w, isWord c = true) →
      rest.takeWhile isWord = [] →
      ¬ quoted bkey <:+: pre ++ (ind ++ (quoted bkey).dropLast) →
      parseBoolValue (pre ++ (ind ++ (quoted bkey ++ (ws₁ ++ '=' :: (ws₂ ++ (w ++ rest))))))
        bkey = decide (toLower w = "yes".toList)) ∧
    (∀ text : Str, ¬ key <:+: text → parseBoolSetting text key = false) ∧
    (∀ text : Str, ¬ bkey <:+: text → parseBoolValue text bkey = false) ∧
    parseBoolValue "  \"Flags\" = \x7b\"IsCharging\"=1\x7d\n  \"IsCharging\" = Yes\n".toList
      "IsCharging".toList = true ∧
    parseBoolValue "  \"Flags\" = \x7b\"IsCharging\"=Yes\x7d\n".toList "IsCharging".toList =
      false := by
  refine ⟨?_, ?_, ?_, ?_, ?_, by decide, by decide⟩
  · intro text hnd
    unfold parseBoolSetting
    rw [find_eq_first_line key hkey text hnd]
    cases (pieces text).findSome? (labelValue key) with
    | none => rfl
    | some m => simp
  · intro text
    have hfind := find_boolPattern bkey text none
    rw [if_pos (Or.inl rfl)] at hfind
    unfold parseBoolValue findStringSubmatch lineStarts
    rw [hfind]
    simp only [List.singleton_append]
    cases List.findSome? (quotedValue bkey) (text :: afterNewlines text) with
    | none => rfl
    | some m => simp
  · intro pre ind ws₁ ws₂ w rest hpre hind hinds h₁ h₂ hw hww hrest hfirst
    have hfind := find_entry bkey ind ws₁ ws₂ w rest hind hinds h₁ h₂ hw hww hrest pre none
      (fun _ => Or.inl rfl)
      (fun hne => by
        rcases hpre with h | h
        · exact absurd h hne
        · exact h)
      hfirst
    unfold parseBoolValue findStringSubmatch
    rw [hfind]
  · intro text habs
    unfold parseBoolSetting
    rw [Macpwr.Settings.find_none_of_absent key hkey text habs]
  · intro text habs
    have habs' : ¬ quoted bkey <:+: text := fun h => habs ((key_infix_quoted bkey).trans h)
    unfold parseBoolValue
    rw [find_none_of_unquoted bkey text habs']

/-- C7 on one line of each tool: `womp 1` is true for `parseBoolSetting`,
and an entry `"IsCharging" = Yes` is true for `parseBoolValue`. -/
theorem bool_extractors_by_tool_witness :
    IsLabel "womp".toList ∧ IsLabel "IsCharging".toList ∧
    parseBoolSetting " womp 1\n".toList "womp".toList = true ∧
    parseBoolValue "  \"IsCharging\" = Yes\n".toList "IsCharging".toList = true :=
  ⟨by decide, by decide,
    ((bool_extractors_by_tool "womp".toList "IsCharging".toList (by decide) (by decide)).1
      " womp 1\n".toList (by decide)).trans (by decide),
    ((bool_extractors_by_tool "womp".toList "IsCharging".toList (by decide) (by decide)).2.1
      "  \"IsCharging\" = Yes\n".toList).trans (by decide)⟩

end Battery
end Macpwr

namespace Macpwr

/-! ## The tool model: reading arguments back -/

namespace Pmset

open Strconv Regexp

theorem readInt_itoa (v : Int) : readInt (itoa v) = v := by
  unfold itoa
  split
  · rename_i h
    show -((Macpwr.Settings.decimalValue (Nat.toDigits 10 (-v).toNat) : Nat) : Int) = v
    rw [Macpwr.Settings.decimalValue, toDigits_value]
    omega
  · rename_i h
    cases hd : Nat.toDigits 10 v.toNat with
    | nil => exact absurd hd (toDigits_ne_nil _)
    | cons c cs =>
      have hc : isDigit c = true :=
        toDigits_digits v.toNat c (by rw [hd]; exact List.mem_cons_self _ _)
      have hne : c ≠ '-' := by
        rintro rfl
        revert hc
        decide
      have hv := toDigits_value v.toNat
      rw [hd] at hv
      unfold readInt
      split
      · rename_i ds heq
        simp only [List.cons.injEq] at heq
        exact absurd heq.1 hne
      · rw [Macpwr.Settings.decimalValue, hv]
        omega

/-- The three pairs of a full write replace all three timers. -/
theorem setPairs_full (t : Timers) (d s k : Int) :
    setPairs t ["displaysleep".toList, itoa d, "sleep".toList, itoa s,
      "disksleep".toList, itoa k] = ⟨d, s, k⟩ := by
  simp [setPairs, setTimer, readInt_itoa]

theorem write_ac (st : State) (s : Macpwr.Presets.Settings) :
    write (Macpwr.Presets.applyArgv "-c".toList s) st = { st with ac := ofPreset s } := by
  have := setPairs_full st.ac s.DisplaySleep s.SystemSleep s.DiskSleep
  unfold write Macpwr.Presets.applyArgv
  simp only [and_self, if_true]
  rw [this]
  rfl

theorem write_battery (st : State) (s : Macpwr.Presets.Settings) :
    write (Macpwr.Presets.applyArgv "-b".toList s) st =
      { st with battery := ofPreset s } := by
  have := setPairs_full st.battery s.DisplaySleep s.SystemSleep s.DiskSleep
  unfold write Macpwr.Presets.applyArgv
  have hne : ¬ "-b".toList = "-c".toList := by decide
  simp only [and_self, if_true, hne, if_false]
  rw [this]
  rfl

end Pmset

end Macpwr

namespace Macpwr

/-! ## Applying a profile or a preset: two writes in a row -/

namespace Profiles

open Strconv

/-- C11: when both writes succeed, `profiles.Apply` issues exactly two
command lines, first the battery write `sudo pmset -b` with the three
timers of `p.Battery`, then the AC write `sudo pmset -c` with the three
timers of `p.AC`, each carrying displaysleep, sleep and disksleep in that
order, and returns no error. -/
theorem apply_battery_then_ac {σ : Type} {τ : Type} (W : World σ) (p : Profile τ) (st : σ)
    (hbat : (W.run (applyBatteryArgv p) st).1 = none)
    (hac : (W.run (applyACArgv p) (W.run (applyBatteryArgv p) st).2).1 = none) :
    (Apply W p st).events =
      [Event.exec ["sudo".toList, "pmset".toList, "-b".toList,
          "displaysleep".toList, itoa p.Battery.DisplaySleep,
          "sleep".toList, itoa p.Battery.SystemSleep,
          "disksleep".toList, itoa p.Battery.DiskSleep],
        Event.exec ["sudo".toList, "pmset".toList, "-c".toList,
          "displaysleep".toList, itoa p.AC.DisplaySleep,
          "sleep".toList, itoa p.AC.SystemSleep,
          "disksleep".toList, itoa p.AC.DiskSleep]] ∧
    (Apply W p st).result = none := by
  unfold Apply
  rcases h1 : W.run (applyBatteryArgv p) st with ⟨r1, s1⟩
  rw [h1] at hbat hac
  simp only at hbat hac
  subst hbat
  simp only []
  rcases h2 : W.run (applyACArgv p) s1 with ⟨r2, s2⟩
  rw [h2] at hac
  simp only at hac
  subst hac
  exact ⟨rfl, rfl⟩

/-- C11 on a profile with the timers 2, 10, 10 and 10, 0, 10 in a world
where every call succeeds. -/
theorem apply_battery_then_ac_witness :
    (Apply (calmWorld [] [] [])
      ({ Name := "work".toList, Created := (), Battery := ⟨2, 10, 10⟩, AC := ⟨10, 0, 10⟩ } :
        Profile Unit) ()).events =
      [Event.exec ["sudo".toList, "pmset".toList, "-b".toList,
          "displaysleep".toList, "2".toList, "sleep".toList, "10".toList,
          "disksleep".toList, "10".toList],
        Event.exec ["sudo".toList, "pmset".toList, "-c".toList,
          "displaysleep".toList, "10".toList, "sleep".toList, "0".toList,
          "disksleep".toList, "10".toList]] ∧
    (Apply (calmWorld [] [] [])
      ({ Name := "work".toList, Created := (), Battery := ⟨2, 10, 10⟩, AC := ⟨10, 0, 10⟩ } :
        Profile Unit) ()).result = none :=
  apply_battery_then_ac (calmWorld [] [] [])
    ({ Name := "work".toList, Created := (), Battery := ⟨2, 10, 10⟩, AC := ⟨10, 0, 10⟩ } :
      Profile Unit) () rfl rfl

end Profiles

namespace Pmset

theorem write_profile_battery {τ : Type} (st : State) (p : Macpwr.Profiles.Profile τ) :
    write (Macpwr.Profiles.applyBatteryArgv p) st =
      { st with battery := ofProfile p.Battery } := by
  have := setPairs_full st.battery p.Battery.DisplaySleep p.Battery.SystemSleep
    p.Battery.DiskSleep
  unfold write Macpwr.Profiles.applyBatteryArgv
  have hne : ¬ "-b".toList = "-c".toList := by decide
  simp only [and_self, if_true, hne, if_false]
  rw [this]
  rfl

theorem write_profile_ac {τ : Type} (st : State) (p : Macpwr.Profiles.Profile τ) :
    write (Macpwr.Profiles.applyACArgv p) st = { st with ac := ofProfile p.AC } := by
  have := setPairs_full st.ac p.AC.DisplaySleep p.AC.SystemSleep p.AC.DiskSleep
  unfold write Macpwr.Profiles.applyACArgv
  simp only [and_self, if_true]
  rw [this]
  rfl

end Pmset

end Macpwr

namespace Macpwr

namespace Pmset

open Strconv

/-- C12: both `Apply` functions write their two contexts in a row, with no
transaction.  When the first write fails, only that command line is issued
and the error is the first context's (`failed to apply AC settings` for a
preset, `failed to apply battery settings` for a profile); when the first
succeeds and the second fails, exactly the two command lines are issued (no
third, rolling back) and the error is the second context's; the two errors
are different values.  In the tool model the first context then holds the
new timers and the second its old ones. -/
theorem apply_not_transactional :
    (∀ {σ : Type} (W : World σ) (p : Macpwr.Presets.Preset) (st : σ) (e : OsError),
      (W.run (Macpwr.Presets.applyArgv "-c".toList p.AC) st).1 = some e →
      (Macpwr.Presets.Apply W p st).events =
        [Event.exec (Macpwr.Presets.applyArgv "-c".toList p.AC)] ∧
      (Macpwr.Presets.Apply W p st).result =
        some (GoError.wrapf "failed to apply AC settings".toList (GoError.external e))) ∧
    (∀ {σ : Type} (W : World σ) (p : Macpwr.Presets.Preset) (st : σ) (e : OsError),
      (W.run (Macpwr.Presets.applyArgv "-c".toList p.AC) st).1 = none →
      (W.run (Macpwr.Presets.applyArgv "-b".toList p.Battery)
        (W.run (Macpwr.Presets.applyArgv "-c".toList p.AC) st).2).1 = some e →
      (Macpwr.Presets.Apply W p st).events =
        [Event.exec (Macpwr.Presets.applyArgv "-c".toList p.AC),
          Event.exec (Macpwr.Presets.applyArgv "-b".toList p.Battery)] ∧
      (Macpwr.Presets.Apply W p st).result =
        some (GoError.wrapf "failed to apply battery settings".toList
          (GoError.external e))) ∧
    (∀ {σ : Type} {τ : Type} (W : World σ) (p : Macpwr.Profiles.Profile τ) (st : σ)
      (e : OsError),
      (W.run (Macpwr.Profiles.applyBatteryArgv p) st).1 = some e →
      (Macpwr.Profiles.Apply W p st).events =
        [Event.exec (Macpwr.Profiles.applyBatteryArgv p)] ∧
      (Macpwr.Profiles.Apply W p st).result =
        some (GoError.wrapf "failed to apply battery settings".toList
          (GoError.external e))) ∧
    (∀ {σ : Type} {τ : Type} (W : World σ) (p : Macpwr.Profiles.Profile τ) (st : σ)
      (e : OsError),
      (W.run (Macpwr.Profiles.applyBatteryArgv p) st).1 = none →
      (W.run (Macpwr.Profiles.applyACArgv p)
        (W.run (Macpwr.Profiles.applyBatteryArgv p) st).2).1 = some e →
      (Macpwr.Profiles.Apply W p st).events =
        [Event.exec (Macpwr.Profiles.applyBatteryArgv p),
          Event.exec (Macpwr.Profiles.applyACArgv p)] ∧
      (Macpwr.Profiles.Apply W p st).result =
        some (GoError.wrapf "failed to apply AC settings".toList (GoError.external e))) ∧
    (∀ e₁ e₂ : GoError, GoError.wrapf "failed to apply AC settings".toList e₁ ≠
      GoError.wrapf "failed to apply battery settings".toList e₂) ∧
    (∀ (refuses : List Str → Bool) (p : Macpwr.Presets.Preset) (st : State),
      refuses (Macpwr.Presets.applyArgv "-c".toList p.AC) = false →
      refuses (Macpwr.Presets.applyArgv "-b".toList p.Battery) = true →
      (Macpwr.Presets.Apply (world refuses) p st).state =
        { ac := ofPreset p.AC, battery := st.battery }) ∧
    (∀ {τ : Type} (refuses : List Str → Bool) (p : Macpwr.Profiles.Profile τ) (st : State),
      refuses (Macpwr.Profiles.applyBatteryArgv p) = false →
      refuses (Macpwr.Profiles.applyACArgv p) = true →
      (Macpwr.Profiles.Apply (world refuses) p st).state =
        { ac := st.ac, battery := ofProfile p.Battery }) := by
  refine ⟨?_, ?_, ?_, ?_, ?_, ?_, ?_⟩
  · intro σ W p st e h
    unfold Macpwr.Presets.Apply Macpwr.Presets.applySettings
    simp only [h, Option.map]
    exact ⟨trivial, trivial⟩
  · intro σ W p st e h1 h2
    unfold Macpwr.Presets.Apply Macpwr.Presets.applySettings
    simp only [h1, h2, Option.map]
    exact ⟨rfl, trivial⟩
  · intro σ τ W p st e h
    unfold Macpwr.Profiles.Apply
    rcases h1 : W.run (Macpwr.Profiles.applyBatteryArgv p) st with ⟨r1, s1⟩
    rw [h1] at h
    simp only at h
    subst h
    exact ⟨rfl, rfl⟩
  · intro σ τ W p st e h ha
    unfold Macpwr.Profiles.Apply
    rcases h1 : W.run (Macpwr.Profiles.applyBatteryArgv p) st with ⟨r1, s1⟩
    rw [h1] at h ha
    simp only at h ha
    subst h
    simp only []
    rcases h2 : W.run (Macpwr.Profiles.applyACArgv p) s1 with ⟨r2, s2⟩
    rw [h2] at ha
    simp only at ha
    subst ha
    exact ⟨rfl, rfl⟩
  · intro e₁ e₂ h
    injection h with h _
    revert h
    decide
  · intro refuses p st h1 h2
    unfold Macpwr.Presets.Apply Macpwr.Presets.applySettings
    simp only [world, h1, h2, Option.map, if_true, if_false, Bool.false_eq_true]
    rw [write_ac]
  · intro τ refuses p st h1 h2
    unfold Macpwr.Profiles.Apply
    simp only [world, h1, h2, if_true, if_false, Bool.false_eq_true]
    rw [write_profile_battery]

/-- C12 on the preset with AC 5, 10, 5 and battery 1, 2, 2, against a tool
that takes the AC write and refuses the battery write: the AC timers are
the new ones, the battery timers the old ones, and the error is the
battery's. -/
theorem apply_not_transactional_witness :
    (Macpwr.Presets.Apply
      (world (fun argv => decide (argv.get? 2 = some "-b".toList)))
      ⟨"battery-saver".toList, [], ⟨5, 10, 5⟩, ⟨1, 2, 2⟩⟩
      ⟨⟨10, 0, 10⟩, ⟨2, 10, 10⟩⟩).state = ⟨⟨5, 10, 5⟩, ⟨2, 10, 10⟩⟩ :=
  apply_not_transactional.2.2.2.2.2.1
    (fun argv => decide (argv.get? 2 = some "-b".toList))
    ⟨"battery-saver".toList, [], ⟨5, 10, 5⟩, ⟨1, 2, 2⟩⟩
    ⟨⟨10, 0, 10⟩, ⟨2, 10, 10⟩⟩ (by decide) (by decide)

/-- C13: idempotence of preset application in the tool model.  For every
preset and every state of the tool, when the tool refuses neither write,
applying the preset leaves the timers of both contexts equal to the
preset's, and applying it a second time succeeds again and leaves the
state as it was after the first. -/
theorem apply_idempotent (refuses : List Str → Bool) (p : Macpwr.Presets.Preset)
    (st : State)
    (hac : refuses (Macpwr.Presets.applyArgv "-c".toList p.AC) = false)
    (hbat : refuses (Macpwr.Presets.applyArgv "-b".toList p.Battery) = false) :
    (Macpwr.Presets.Apply (world refuses) p st).result = none ∧
    (Macpwr.Presets.Apply (world refuses) p st).state =
      { ac := ofPreset p.AC, battery := ofPreset p.Battery } ∧
    (Macpwr.Presets.Apply (world refuses) p
      (Macpwr.Presets.Apply (world refuses) p st).state).result = none ∧
    (Macpwr.Presets.Apply (world refuses) p
      (Macpwr.Presets.Apply (world refuses) p st).state).state =
      (Macpwr.Presets.Apply (world refuses) p st).state := by
  have key : ∀ s : State, (Macpwr.Presets.Apply (world refuses) p s).result = none ∧
      (Macpwr.Presets.Apply (world refuses) p s).state =
        { ac := ofPreset p.AC, battery := ofPreset p.Battery } := by
    intro s
    unfold Macpwr.Presets.Apply Macpwr.Presets.applySettings
    simp only [world, hac, hbat, Option.map, if_false, Bool.false_eq_true]
    rw [write_ac, write_battery]
    exact ⟨trivial, rfl⟩
  refine ⟨(key st).1, (key st).2, (key _).1, ?_⟩
  rw [(key _).2, (key st).2]

/-- C13 on the preset `movie` from timers that are all 7. -/
theorem apply_idempotent_witness :
    (Macpwr.Presets.Apply (world (fun _ => false))
      ⟨"movie".toList, [], ⟨0, 0, 10⟩, ⟨0, 30, 10⟩⟩ ⟨⟨7, 7, 7⟩, ⟨7, 7, 7⟩⟩).state =
      ⟨⟨0, 0, 10⟩, ⟨0, 30, 10⟩⟩ ∧
    (Macpwr.Presets.Apply (world (fun _ => false))
      ⟨"movie".toList, [], ⟨0, 0, 10⟩, ⟨0, 30, 10⟩⟩
      (Macpwr.Presets.Apply (world (fun _ => false))
        ⟨"movie".toList, [], ⟨0, 0, 10⟩, ⟨0, 30, 10⟩⟩ ⟨⟨7, 7, 7⟩, ⟨7, 7, 7⟩⟩).state).state =
      (Macpwr.Presets.Apply (world (fun _ => false))
        ⟨"movie".toList, [], ⟨0, 0, 10⟩, ⟨0, 30, 10⟩⟩ ⟨⟨7, 7, 7⟩, ⟨7, 7, 7⟩⟩).state :=
  ⟨(apply_idempotent (fun _ => false) ⟨"movie".toList, [], ⟨0, 0, 10⟩, ⟨0, 30, 10⟩⟩
      ⟨⟨7, 7, 7⟩, ⟨7, 7, 7⟩⟩ rfl rfl).2.1,
    (apply_idempotent (fun _ => false) ⟨"movie".toList, [], ⟨0, 0, 10⟩, ⟨0, 30, 10⟩⟩
      ⟨⟨7, 7, 7⟩, ⟨7, 7, 7⟩⟩ rfl rfl).2.2.2⟩

end Pmset

end Macpwr

namespace Macpwr

/-! ## The preset catalog -/

namespace Presets

theorem lookup_eq_some (name : Str) :
    ∀ (l : List Preset) (p : Preset), lookup name l = some p → p ∈ l ∧ p.Name = name := by
  intro l
  induction l with
  | nil => intro p h; cases h
  | cons q rest ih =>
    intro p h
    rw [lookup] at h
    split at h
    · rename_i hq
      cases h
      exact ⟨List.mem_cons_self _ _, hq⟩
    · obtain ⟨h1, h2⟩ := ih p h
      exact ⟨List.mem_cons_of_mem _ h1, h2⟩

theorem lookup_eq_none (name : Str) :
    ∀ l : List Preset, lookup name l = none ↔ ∀ p ∈ l, p.Name ≠ name := by
  intro l
  induction l with
  | nil => simp [lookup]
  | cons q rest ih =>
    rw [lookup]
    by_cases hq : q.Name = name
    · simp [hq]
    · simp [hq, ih]

theorem lookup_all_names : ∀ p ∈ All, lookup p.Name All = some p := by
  decide

/-- C14: `Get("batterysaver")` returns what `Get("battery-saver")` returns,
the catalog's preset named battery-saver (so the same AC and Battery
settings); for every other name `Get` returns the entry of `All` whose Name
is exactly that name, and nil exactly when `All` has no entry of that
name. -/
theorem get_alias_and_exact_name :
    Get "batterysaver".toList = Get "battery-saver".toList ∧
    Get "battery-saver".toList =
      some { Name := "battery-saver".toList
             Description := "Aggressive power saving to extend battery life".toList
             AC := { DisplaySleep := 5, SystemSleep := 10, DiskSleep := 5 }
             Battery := { DisplaySleep := 1, SystemSleep := 2, DiskSleep := 2 } } ∧
    (∀ name : Str, name ≠ "batterysaver".toList →
      (∀ p, Get name = some p ↔ (p ∈ All ∧ p.Name = name)) ∧
      (Get name = none ↔ ∀ p ∈ All, p.Name ≠ name)) := by
  refine ⟨by decide, by decide, ?_⟩
  intro name hname
  have hget : Get name = lookup name All := by
    unfold Get
    rw [if_neg hname]
  rw [hget]
  refine ⟨fun p => ⟨lookup_eq_some name All p, ?_⟩, lookup_eq_none name All⟩
  rintro ⟨hp, rfl⟩
  exact lookup_all_names p hp

end Presets

end Macpwr

namespace Macpwr

/-! ## Package `display`: formatting and visible length -/

namespace Display

open Strconv

/-- C15: `FormatTime` renders 0, and only 0, as never-sleep.
`FormatTime(0)` is Green, `Never`, Reset; for every other number of
minutes the result is the decimal value followed by ` min` (so `1 min`,
`10 min`, `120 min`) and does not contain `Never`. -/
theorem formatTime_never_iff_zero (pal : Palette) :
    FormatTime pal 0 = pal.Green ++ "Never".toList ++ pal.Reset ∧
    (∀ minutes : Int, minutes ≠ 0 →
      FormatTime pal minutes = itoa minutes ++ " min".toList ∧
      ¬ "Never".toList <:+: FormatTime pal minutes) ∧
    FormatTime pal 1 = "1 min".toList ∧ FormatTime pal 10 = "10 min".toList ∧
    FormatTime pal 120 = "120 min".toList := by
  have hform : ∀ minutes : Int, minutes ≠ 0 →
      FormatTime pal minutes = itoa minutes ++ " min".toList := by
    intro minutes h0
    unfold FormatTime
    rw [if_neg h0]
    split
    · rename_i h1
      subst h1
      decide
    · rfl
  refine ⟨rfl, fun minutes h0 => ⟨hform minutes h0, ?_⟩,
    by rw [hform 1 (by decide)]; decide, by rw [hform 10 (by decide)]; decide,
    by rw [hform 120 (by decide)]; decide⟩
  rw [hform minutes h0]
  rintro ⟨u, v, huv⟩
  have hN : 'N' ∈ itoa minutes ++ " min".toList := by
    rw [← huv]
    simp
  rcases List.mem_append.1 hN with h | h
  · rcases itoa_chars minutes _ h with h | h
    · revert h; decide
    · revert h; decide
  · revert h
    decide

/-- C18: `FormatPercent(val)` is a colour, the decimal value, `%`, Reset;
the colour is Green from 80 up, Yellow from 40 to 79, Red below 40. -/
theorem formatPercent_colour (pal : Palette) (val : Int) :
    (80 ≤ val → FormatPercent pal val =
      pal.Green ++ itoa val ++ "%".toList ++ pal.Reset) ∧
    (40 ≤ val ∧ val ≤ 79 → FormatPercent pal val =
      pal.Yellow ++ itoa val ++ "%".toList ++ pal.Reset) ∧
    (val < 40 → FormatPercent pal val =
      pal.Red ++ itoa val ++ "%".toList ++ pal.Reset) ∧
    FormatPercent ⟨"[R]".toList, "[G]".toList, "[Y]".toList, [], [], [], [], "[/]".toList⟩ 80 =
      "[G]80%[/]".toList ∧
    FormatPercent ⟨"[R]".toList, "[G]".toList, "[Y]".toList, [], [], [], [], "[/]".toList⟩ 79 =
      "[Y]79%[/]".toList ∧
    FormatPercent ⟨"[R]".toList, "[G]".toList, "[Y]".toList, [], [], [], [], "[/]".toList⟩ 40 =
      "[Y]40%[/]".toList ∧
    FormatPercent ⟨"[R]".toList, "[G]".toList, "[Y]".toList, [], [], [], [], "[/]".toList⟩ 39 =
      "[R]39%[/]".toList := by
  refine ⟨?_, ?_, ?_, by decide, by decide, by decide, by decide⟩
  · intro h
    unfold FormatPercent
    rw [if_pos h]
  · rintro ⟨h1, h2⟩
    unfold FormatPercent
    rw [if_neg (by omega), if_pos h1]
  · intro h
    unfold FormatPercent
    rw [if_neg (by omega), if_neg (by omega)]

end Display

end Macpwr

namespace Macpwr

namespace Display

theorem visibleLoop_append (s t : Str) :
    ∀ (b : Bool) (n : Nat),
      visibleLoop b n (s ++ t) = visibleLoop (escapeLoop b s) (visibleLoop b n s) t := by
  induction s with
  | nil => intro b n; rfl
  | cons r rest ih =>
    intro b n
    simp only [List.cons_append, visibleLoop, escapeLoop]
    split
    · exact ih _ _
    · split
      · split
        · exact ih _ _
        · exact ih _ _
      · exact ih _ _

theorem visibleLoop_spaces (k : Nat) :
    ∀ n : Nat, visibleLoop false n (List.replicate k ' ') = n + k := by
  induction k with
  | zero => intro n; rfl
  | succ k ih =>
    intro n
    have h1 : ¬ ' ' = escape := by decide
    simp only [List.replicate_succ, visibleLoop, h1, if_false, Bool.false_eq_true]
    rw [ih]
    omega

theorem escapeLoop_of_closed :
    ∀ (s : Str) (b : Bool), escapesClosed s = true → (b = true → 'm' ∈ s) →
      escapeLoop b s = false := by
  intro s
  induction s with
  | nil =>
    intro b _ hb
    cases b with
    | false => rfl
    | true => exact absurd (hb rfl) (by simp)
  | cons r rest ih =>
    intro b hc hb
    simp only [escapesClosed, Bool.and_eq_true] at hc
    obtain ⟨h1, h2⟩ := hc
    rw [escapeLoop]
    split
    · rename_i hr
      rw [if_pos hr] at h1
      exact ih true h2 (fun _ => by simpa using h1)
    · split
      · rename_i hr hb'
        split
        · exact ih false h2 (fun h => by cases h)
        · rename_i hm
          refine ih true h2 (fun _ => ?_)
          rcases List.mem_cons.1 (hb hb') with h | h
          · exact absurd h.symm hm
          · exact h
      · exact ih false h2 (fun h => by cases h)

/-- C16, as stated, fails: when the string ends inside an escape sequence
the padding is swallowed by it.  `padWithColor` of a lone ESC to width 5 has
visible length 0, not 5, although the visible length of the string, 0, is
below 5. -/
theorem padWithColor_open_escape :
    visibleLen [escape] = 0 ∧ visibleLen (padWithColor [escape] 5) = 0 := by
  decide

/-- C16, amended: for every string whose escape sequences are all closed
and every width, the visible length of `padWithColor(s, w)` is `w` when
`visibleLen(s) < w` and `visibleLen(s)` otherwise; and for every string at
all the result has `s` as a prefix (nothing is cut) and equals `s` when
`visibleLen(s) >= w`. -/
theorem padWithColor_visible_width (s : Str) (w : Int) :
    (escapesClosed s = true →
      (visibleLen (padWithColor s w) : Int) =
        if (visibleLen s : Int) < w then w else (visibleLen s : Int)) ∧
    s <+: padWithColor s w ∧
    ((visibleLen s : Int) ≥ w → padWithColor s w = s) := by
  refine ⟨?_, ?_, ?_⟩
  · intro hc
    unfold padWithColor
    by_cases h : (visibleLen s : Int) ≥ w
    · rw [if_pos h, if_neg (by omega)]
    · rw [if_neg h, if_pos (by omega)]
      have hflag := escapeLoop_of_closed s false hc (fun hb => by cases hb)
      unfold visibleLen at h ⊢
      rw [visibleLoop_append, hflag, visibleLoop_spaces]
      omega
  · unfold padWithColor
    split
    · exact List.prefix_refl _
    · exact List.prefix_append _ _
  · intro h
    unfold padWithColor
    rw [if_pos h]

/-- C16 on the tests of the package: a coloured `On` padded to 12 shows 12
characters, a long plain string stays as it is. -/
theorem padWithColor_visible_width_witness :
    (visibleLen (padWithColor (escape :: "[0;32mOn".toList ++ escape :: "[0m".toList) 12) : Int) =
      12 ∧
    padWithColor "ThisIsVeryLong".toList 12 = "ThisIsVeryLong".toList :=
  ⟨((padWithColor_visible_width (escape :: "[0;32mOn".toList ++ escape :: "[0m".toList) 12).1
      (by decide)).trans (by decide),
    (padWithColor_visible_width "ThisIsVeryLong".toList 12).2.2 (by decide)⟩

theorem visibleLoop_plain (t rest : Str) (h : escape ∉ t) :
    ∀ n : Nat, visibleLoop false n (t ++ rest) = visibleLoop false (n + t.length) rest := by
  induction t with
  | nil => intro n; rfl
  | cons r rs ih =>
    intro n
    have hr : ¬ r = escape := fun e => h (by simp [e])
    have hrs : escape ∉ rs := fun e => h (List.mem_cons_of_mem _ e)
    rw [List.cons_append, visibleLoop, if_neg hr, if_neg (by decide), ih hrs, List.length_cons]
    congr 1
    omega

theorem visibleLoop_body (body rest : Str) (h₁ : escape ∉ body) (h₂ : 'm' ∉ body) (n : Nat) :
    visibleLoop true n (body ++ 'm' :: rest) = visibleLoop false n rest := by
  induction body with
  | nil =>
    have h1 : ¬ 'm' = escape := by decide
    simp only [List.nil_append, visibleLoop, h1, if_false, if_true]
  | cons r rs ih =>
    have hr : ¬ r = escape := fun e => h₁ (by simp [e])
    have hm : ¬ r = 'm' := fun e => h₂ (by simp [e])
    simp only [List.cons_append, visibleLoop, hr, hm, if_false, if_true]
    exact ih (fun e => h₁ (List.mem_cons_of_mem _ e)) (fun e => h₂ (List.mem_cons_of_mem _ e))

theorem visibleLoop_stretches (parts : List Stretch) (hok : ∀ x ∈ parts, x.ok = true) :
    ∀ n : Nat, visibleLoop false n (parts.map Stretch.text).flatten =
      n + (parts.map Stretch.shown).sum := by
  induction parts with
  | nil => intro n; rfl
  | cons x xs ih =>
    intro n
    have hx := hok x (List.mem_cons_self _ _)
    have ih' := ih (fun y hy => hok y (List.mem_cons_of_mem _ hy))
    simp only [List.map_cons, List.flatten_cons, List.sum_cons]
    cases x with
    | plain t =>
      simp only [Stretch.ok, decide_eq_true_eq] at hx
      simp only [Stretch.text, Stretch.shown]
      rw [visibleLoop_plain t _ hx, ih']
      omega
    | code body =>
      simp only [Stretch.ok, Bool.and_eq_true, decide_eq_true_eq] at hx
      simp only [Stretch.text, Stretch.shown, List.cons_append, List.append_assoc,
        List.singleton_append, List.nil_append]
      rw [visibleLoop, if_pos rfl, visibleLoop_body body _ hx.1 hx.2, ih']
      omega

/-- C17: `visibleLen` counts the characters outside escape sequences.  A
string without ESC has its number of characters; a text without ESC between
two escape sequences (ESC, characters other than `m` and ESC, `m`) has the
visible length of the text alone; and any run of well-formed stretches,
sequences adjacent or mixed with text, has the summed length of its plain
stretches. -/
theorem visibleLen_skips_escapes :
    (∀ s : Str, escape ∉ s → visibleLen s = s.length) ∧
    (∀ t b₁ b₂ : Str, escape ∉ t → escape ∉ b₁ → 'm' ∉ b₁ → escape ∉ b₂ → 'm' ∉ b₂ →
      visibleLen ((escape :: b₁ ++ ['m']) ++ t ++ (escape :: b₂ ++ ['m'])) = visibleLen t) ∧
    (∀ parts : List Stretch, (∀ x ∈ parts, x.ok = true) →
      visibleLen (parts.map Stretch.text).flatten = (parts.map Stretch.shown).sum) := by
  have hplain : ∀ s : Str, escape ∉ s → visibleLen s = s.length := by
    intro s hs
    have := visibleLoop_plain s [] hs 0
    rw [List.append_nil] at this
    unfold visibleLen
    rw [this]
    simp [visibleLoop]
  have hparts : ∀ parts : List Stretch, (∀ x ∈ parts, x.ok = true) →
      visibleLen (parts.map Stretch.text).flatten = (parts.map Stretch.shown).sum := by
    intro parts hok
    unfold visibleLen
    rw [visibleLoop_stretches parts hok 0]
    omega
  refine ⟨hplain, ?_, hparts⟩
  intro t b₁ b₂ ht h₁ h₁' h₂ h₂'
  have := hparts [Stretch.code b₁, Stretch.plain t, Stretch.code b₂] (by
    intro x hx
    simp only [List.mem_cons, List.mem_singleton, List.not_mem_nil, or_false] at hx
    rcases hx with rfl | rfl | rfl <;> simp [Stretch.ok, ht, h₁, h₁', h₂, h₂'])
  simp only [List.map, Stretch.text, Stretch.shown, List.flatten, List.sum_cons, List.sum_nil,
    List.append_nil] at this
  rw [hplain t ht]
  simpa using this

end Display

end Macpwr

namespace Macpwr

namespace GoInt

/-- An exact result within the range of `int` is stored as it is. -/
theorem wrap_of_range (x : Int) (hlo : -(2 : Int) ^ 63 ≤ x) (hhi : x < (2 : Int) ^ 63) :
    wrap x = x := by
  unfold wrap
  rw [Int.emod_eq_of_lt (by omega) (by omega)]
  omega

end GoInt

namespace Battery

/-- C19, as stated, fails: the product `ActualMaxCapacity * 100` is computed
in `int` and wraps.  With a design capacity of 1 and a maximum capacity of
2^63-1 (what `parseIntValue` stores for digits past the range of `int`) the
health is -100, while the capped quotient of the claim is 100. -/
theorem healthPercent_wraps :
    parseIntValue "  \"MaxCapacity\" = 99999999999999999999\n".toList "MaxCapacity".toList =
      9223372036854775807 ∧
    ActualMaxCapacity ⟨0, 9223372036854775807, 1, 0, false, false, false, 0, 0, 0, 0⟩ =
      9223372036854775807 ∧
    HealthPercent ⟨0, 9223372036854775807, 1, 0, false, false, false, 0, 0, 0, 0⟩ = -100 ∧
    min (100 : Int) (9223372036854775807 * 100 / 1) = 100 := by
  decide

/-- C19, amended: for every battery `Info`, `HealthPercent` is at most 100;
it is 0 when `DesignCapacity <= 0`; and when `DesignCapacity > 0` it equals
`min(100, floor(ActualMaxCapacity * 100 / DesignCapacity))` for non-negative
`ActualMaxCapacity` whose hundredfold fits the type `int`
(`ActualMaxCapacity * 100 <= 2^63 - 1`). -/
theorem healthPercent_capped (i : Info) :
    HealthPercent i ≤ 100 ∧
    (i.DesignCapacity ≤ 0 → HealthPercent i = 0) ∧
    (i.DesignCapacity > 0 → 0 ≤ ActualMaxCapacity i →
      ActualMaxCapacity i * 100 ≤ 2 ^ 63 - 1 →
      HealthPercent i = min 100 (ActualMaxCapacity i * 100 / i.DesignCapacity)) := by
  refine ⟨?_, ?_, ?_⟩
  · unfold HealthPercent
    split
    · decide
    · simp only []
      split
      · exact le_refl _
      · omega
  · intro h
    unfold HealthPercent
    rw [if_pos h]
  · intro hd h0 hfit
    unfold HealthPercent
    rw [if_neg (by omega)]
    have hmul : GoInt.mul (ActualMaxCapacity i) 100 = ActualMaxCapacity i * 100 :=
      GoInt.wrap_of_range _ (by omega) (by omega)
    have hq0 : 0 ≤ ActualMaxCapacity i * 100 / i.DesignCapacity :=
      Int.ediv_nonneg (by omega) (by omega)
    have hq1 : ActualMaxCapacity i * 100 / i.DesignCapacity ≤ ActualMaxCapacity i * 100 :=
      Int.ediv_le_self _ (by omega)
    have hquo : GoInt.quo (ActualMaxCapacity i * 100) i.DesignCapacity =
        ActualMaxCapacity i * 100 / i.DesignCapacity := by
      unfold GoInt.quo
      rw [Int.tdiv_eq_ediv (by omega) (by omega)]
      exact GoInt.wrap_of_range _ (by omega) (by omega)
    simp only [hmul, hquo]
    split
    · rw [min_eq_left (by omega)]
    · rw [min_eq_right (by omega)]

/-- C19 on a worn battery and on one above its design capacity: 4382 of
5000 is 87 percent, 5200 of 5000 is capped at 100. -/
theorem healthPercent_capped_witness :
    HealthPercent ⟨0, 4382, 5000, 0, false, false, false, 0, 0, 0, 0⟩ = 87 ∧
    HealthPercent ⟨0, 0, 5000, 0, false, false, false, 0, 0, 0, 5200⟩ = 100 :=
  ⟨((healthPercent_capped ⟨0, 4382, 5000, 0, false, false, false, 0, 0, 0, 0⟩).2.2
      (by decide) (by decide) (by decide)).trans (by decide),
    ((healthPercent_capped ⟨0, 0, 5000, 0, false, false, false, 0, 0, 0, 5200⟩).2.2
      (by decide) (by decide) (by decide)).trans (by decide)⟩

end Battery

namespace Settings

open Regexp Strconv

/-- What `parseIntSetting` returns for a label is never negative: the
digits it reads carry no sign, and `Atoi` caps them at the largest `int`. -/
theorem parseIntSetting_nonneg (sec key : Str) (hkey : IsLabel key) :
    0 ≤ parseIntSetting sec key := by
  unfold parseIntSetting
  cases hf : findStringSubmatch (settingPattern key) sec with
  | none => exact le_refl _
  | some m =>
    simp only []
    unfold findStringSubmatch at hf
    obtain ⟨prev, t, _, hm⟩ := find_eq_some _ _ _ _ hf
    rw [matchHere_settingPattern key hkey] at hm
    split at hm
    · obtain ⟨hne, hd⟩ := labelValue_digits key t m hm
      rw [atoi_digits m hne hd]
      exact Int.natCast_nonneg _
    · cases hm

theorem parseSection_nonneg (sec : Str) :
    0 ≤ (parseSection sec).DisplaySleep ∧ 0 ≤ (parseSection sec).SystemSleep ∧
      0 ≤ (parseSection sec).DiskSleep :=
  ⟨parseIntSetting_nonneg sec _ (by decide), parseIntSetting_nonneg sec _ (by decide),
    parseIntSetting_nonneg sec _ (by decide)⟩

/-- C20: for every output text of the status tool, the settings that the
parsing of `Get` produces have `DisplaySleep`, `SystemSleep` and `DiskSleep`
at least 0 in both contexts; so have the settings `Get` returns in any
world. -/
theorem parsed_timers_nonneg (data : Str) (a : AllSettings)
    (h : parseOutput data = Except.ok a) :
    (0 ≤ a.Battery.DisplaySleep ∧ 0 ≤ a.Battery.SystemSleep ∧ 0 ≤ a.Battery.DiskSleep) ∧
    (0 ≤ a.AC.DisplaySleep ∧ 0 ≤ a.AC.SystemSleep ∧ 0 ≤ a.AC.DiskSleep) ∧
    (∀ {σ : Type} (W : World σ) (s : σ) (b : AllSettings), (Get W s).result = Except.ok b →
      (0 ≤ b.Battery.DisplaySleep ∧ 0 ≤ b.Battery.SystemSleep ∧ 0 ≤ b.Battery.DiskSleep) ∧
      (0 ≤ b.AC.DisplaySleep ∧ 0 ≤ b.AC.SystemSleep ∧ 0 ≤ b.AC.DiskSleep)) := by
  have key : ∀ (d : Str) (b : AllSettings), parseOutput d = Except.ok b →
      (0 ≤ b.Battery.DisplaySleep ∧ 0 ≤ b.Battery.SystemSleep ∧ 0 ≤ b.Battery.DiskSleep) ∧
      (0 ≤ b.AC.DisplaySleep ∧ 0 ≤ b.AC.SystemSleep ∧ 0 ≤ b.AC.DiskSleep) := by
    intro d b hb
    unfold parseOutput at hb
    split at hb
    · simp only [Except.ok.injEq] at hb
      subst hb
      exact ⟨parseSection_nonneg _, parseSection_nonneg _⟩
    · cases hb
  refine ⟨(key data a h).1, (key data a h).2, ?_⟩
  intro σ W s b hb
  unfold Get at hb
  split at hb
  · cases hb
  · exact key _ b hb

/-- C20 at an output whose battery part has digits past the range of `int`
and no display or disk line, and whose AC part has no timer line at all. -/
theorem parsed_timers_nonneg_witness :
    parseOutput ("Battery Power:\n sleep 99999999999999999999\n".toList ++ anchor ++
        "\n womp 1\n".toList) =
      Except.ok ⟨⟨0, 9223372036854775807, 0, false, false, false, false⟩,
        ⟨0, 0, 0, false, true, false, false⟩⟩ ∧
    (0 : Int) ≤ 9223372036854775807 :=
  ⟨rfl,
    (parsed_timers_nonneg
      ("Battery Power:\n sleep 99999999999999999999\n".toList ++ anchor ++ "\n womp 1\n".toList)
      ⟨⟨0, 9223372036854775807, 0, false, false, false, false⟩,
        ⟨0, 0, 0, false, true, false, false⟩⟩ rfl).1.2.1⟩

end Settings

end Macpwr

namespace Macpwr

namespace Caffeinate

open Strconv

/-- C24: `Run` selects exactly one mode for every `Options`: command mode
when `Command` is not empty, whatever `Duration` is, and then the child gets
`buildArgs(opts)` followed by the words of the command, unchanged and in
order; otherwise timed mode when `Duration > 0`; otherwise indefinite
mode. -/
theorem run_selects_one_mode (opts : Options) :
    (opts.Command ≠ [] → Run opts = Call.command (buildArgs opts ++ opts.Command)) ∧
    (opts.Command = [] → opts.Duration > 0 →
      Run opts = Call.countdown (buildArgs opts) opts.Duration) ∧
    (opts.Command = [] → opts.Duration ≤ 0 → Run opts = Call.indefinitely (buildArgs opts)) ∧
    (∀ argv, Run opts = Call.command argv →
      opts.Command ≠ [] ∧ argv.take (buildArgs opts).length = buildArgs opts ∧
        argv.drop (buildArgs opts).length = opts.Command) ∧
    (∀ args m, Run opts = Call.countdown args m → opts.Command = [] ∧ opts.Duration > 0) ∧
    (∀ args, Run opts = Call.indefinitely args → opts.Command = [] ∧ opts.Duration ≤ 0) := by
  have hlen : opts.Command.length > 0 ↔ opts.Command ≠ [] := by
    rw [gt_iff_lt, List.length_pos]
  by_cases hc : opts.Command = []
  · have hc' : ¬ opts.Command.length > 0 := fun h => (hlen.1 h) hc
    by_cases hd : opts.Duration > 0
    · have hrun : Run opts = Call.countdown (buildArgs opts) opts.Duration := by
        unfold Run
        simp only [hc', hd, if_true, if_false]
      refine ⟨fun h => absurd hc h, fun _ _ => hrun, fun _ h => absurd hd (by omega), ?_, ?_, ?_⟩
      · intro argv h
        rw [hrun] at h
        cases h
      · intro args m _
        exact ⟨hc, hd⟩
      · intro args h
        rw [hrun] at h
        cases h
    · have hrun : Run opts = Call.indefinitely (buildArgs opts) := by
        unfold Run
        simp only [hc', hd, if_false]
      refine ⟨fun h => absurd hc h, fun _ h => absurd h hd, fun _ _ => hrun, ?_, ?_, ?_⟩
      · intro argv h
        rw [hrun] at h
        cases h
      · intro args m h
        rw [hrun] at h
        cases h
      · intro args _
        exact ⟨hc, by omega⟩
  · have hc' : opts.Command.length > 0 := hlen.2 hc
    have hrun : Run opts = Call.command (buildArgs opts ++ opts.Command) := by
      unfold Run
      simp only [hc', if_true]
    refine ⟨fun _ => hrun, fun h => absurd h hc, fun h => absurd h hc, ?_, ?_, ?_⟩
    · intro argv h
      rw [hrun] at h
      injection h with h
      subst h
      exact ⟨hc, List.take_left' rfl, List.drop_left' rfl⟩
    · intro args m h
      rw [hrun] at h
      cases h
    · intro args h
      rw [hrun] at h
      cases h

/-- C26, as stated, fails: the seconds are computed in `int` and wrap.
For a duration of 153722867280912931 minutes the argument after `-t` is
`-9223372036854775756`, not the decimal value of the duration times 60,
`9223372036854775860`. -/
theorem buildArgs_seconds_wrap :
    buildArgs ⟨153722867280912931, false, false, false, []⟩ =
      ["-dims".toList, "-t".toList, "-9223372036854775756".toList] ∧
    itoa (153722867280912931 * 60) = "9223372036854775860".toList := by
  decide

/-- C26, amended: `buildArgs` returns the flags `-d`, `-i`, `-s`, in that
order, for those of `DisplayOnly`, `IdleOnly`, `SystemOnly` that are set, or
the single flag `-dims` when none is set, followed, exactly when
`Duration > 0`, by `-t` and the decimal value of `Duration * 60` as the type
`int` holds it, which is the product itself when it fits
(`Duration * 60 <= 2^63 - 1`); when `Duration <= 0` no `-t` appears. -/
theorem buildArgs_flags_then_seconds (opts : Options) :
    buildArgs opts =
      (if opts.DisplayOnly = false ∧ opts.IdleOnly = false ∧ opts.SystemOnly = false then
          ["-dims".toList]
        else (if opts.DisplayOnly then ["-d".toList] else []) ++
          (if opts.IdleOnly then ["-i".toList] else []) ++
          (if opts.SystemOnly then ["-s".toList] else [])) ++
      (if opts.Duration > 0 then ["-t".toList, itoa (GoInt.mul opts.Duration 60)] else []) ∧
    (opts.Duration > 0 → opts.Duration * 60 ≤ 2 ^ 63 - 1 →
      GoInt.mul opts.Duration 60 = opts.Duration * 60) ∧
    (opts.Duration ≤ 0 → "-t".toList ∉ buildArgs opts) := by
  have hmain : buildArgs opts =
      (if opts.DisplayOnly = false ∧ opts.IdleOnly = false ∧ opts.SystemOnly = false then
          ["-dims".toList]
        else (if opts.DisplayOnly then ["-d".toList] else []) ++
          (if opts.IdleOnly then ["-i".toList] else []) ++
          (if opts.SystemOnly then ["-s".toList] else [])) ++
      (if opts.Duration > 0 then ["-t".toList, itoa (GoInt.mul opts.Duration 60)] else []) := by
    unfold buildArgs
    by_cases hd : opts.Duration > 0 <;>
      cases opts.DisplayOnly <;> cases opts.IdleOnly <;> cases opts.SystemOnly <;>
      simp [hd]
  refine ⟨hmain, ?_, ?_⟩
  · intro hd hfit
    exact GoInt.wrap_of_range _ (by omega) (by omega)
  · intro hd
    have hnd : ¬ opts.Duration > 0 := by omega
    rw [hmain, if_neg hnd, List.append_nil]
    cases opts.DisplayOnly <;> cases opts.IdleOnly <;> cases opts.SystemOnly <;> decide

/-- C26 on `caffeinate -d -s -t 60`: display and system flags, then 3600
seconds. -/
theorem buildArgs_flags_then_seconds_witness :
    buildArgs ⟨60, true, false, true, []⟩ =
      ["-d".toList, "-s".toList, "-t".toList, "3600".toList] ∧
    GoInt.mul 60 60 = 3600 :=
  ⟨(buildArgs_flags_then_seconds ⟨60, true, false, true, []⟩).1.trans (by decide),
    (buildArgs_flags_then_seconds ⟨60, true, false, true, []⟩).2.1 (by decide) (by decide)⟩

end Caffeinate

namespace Battery

/-- C27, as stated, fails in two ways.  The product
`ActualCurrentCapacity * 100` is computed in `int` and wraps: with both
capacities 92233720368547759 the charge is -99, outside 0 to 100, where the
quotient of the claim is 100.  And the operator `/` truncates toward zero:
for a current capacity of -1 and a maximum of 3 the charge is -33, the
floor is -34. -/
theorem chargePercent_wraps_and_truncates :
    ActualCurrentCapacity
      ⟨92233720368547759, 92233720368547759, 0, 0, false, false, false, 0, 0, 0, 0⟩ =
      92233720368547759 ∧
    ActualMaxCapacity
      ⟨92233720368547759, 92233720368547759, 0, 0, false, false, false, 0, 0, 0, 0⟩ =
      92233720368547759 ∧
    ChargePercent
      ⟨92233720368547759, 92233720368547759, 0, 0, false, false, false, 0, 0, 0, 0⟩ = -99 ∧
    (92233720368547759 * 100 / 92233720368547759 : Int) = 100 ∧
    ChargePercent ⟨-1, 3, 0, 0, false, false, false, 0, 0, 0, 0⟩ = -33 ∧
    (-1 * 100 / 3 : Int) = -34 := by
  decide

/-- C27, amended: `ChargePercent` never divides by zero: it is 0 when
`ActualMaxCapacity <= 0`, and otherwise, when the product
`ActualCurrentCapacity * 100` fits the type `int`, the quotient of the
product by `ActualMaxCapacity` truncated toward zero, which for non-negative
`ActualCurrentCapacity` is `floor(ActualCurrentCapacity * 100 /
ActualMaxCapacity)`; whenever `0 <= ActualCurrentCapacity <=
ActualMaxCapacity` and the product fits, the result lies between 0 and 100;
each Actual value is the raw field when that is `> 0` and the plain field
otherwise. -/
theorem chargePercent_quotient (i : Info) :
    (ActualMaxCapacity i ≤ 0 → ChargePercent i = 0) ∧
    (ActualMaxCapacity i > 0 → -(2 : Int) ^ 63 ≤ ActualCurrentCapacity i * 100 →
      ActualCurrentCapacity i * 100 ≤ 2 ^ 63 - 1 →
      ChargePercent i = Int.tdiv (ActualCurrentCapacity i * 100) (ActualMaxCapacity i)) ∧
    (ActualMaxCapacity i > 0 → 0 ≤ ActualCurrentCapacity i →
      ActualCurrentCapacity i * 100 ≤ 2 ^ 63 - 1 →
      ChargePercent i = ActualCurrentCapacity i * 100 / ActualMaxCapacity i) ∧
    (0 ≤ ActualCurrentCapacity i → ActualCurrentCapacity i ≤ ActualMaxCapacity i →
      ActualCurrentCapacity i * 100 ≤ 2 ^ 63 - 1 →
      0 ≤ ChargePercent i ∧ ChargePercent i ≤ 100) ∧
    ActualCurrentCapacity i =
      (if i.RawCurrentCapacity > 0 then i.RawCurrentCapacity else i.CurrentCapacity) ∧
    ActualMaxCapacity i =
      (if i.RawMaxCapacity > 0 then i.RawMaxCapacity else i.MaxCapacity) := by
  have htrunc : ActualMaxCapacity i > 0 → -(2 : Int) ^ 63 ≤ ActualCurrentCapacity i * 100 →
      ActualCurrentCapacity i * 100 ≤ 2 ^ 63 - 1 →
      ChargePercent i = Int.tdiv (ActualCurrentCapacity i * 100) (ActualMaxCapacity i) := by
    intro hm hlo hhi
    unfold ChargePercent
    rw [if_neg (by omega)]
    have hmul : GoInt.mul (ActualCurrentCapacity i) 100 = ActualCurrentCapacity i * 100 :=
      GoInt.wrap_of_range _ hlo (by omega)
    rw [hmul]
    unfold GoInt.quo
    apply GoInt.wrap_of_range
    · by_cases hc : 0 ≤ ActualCurrentCapacity i * 100
      · have := Int.tdiv_nonneg hc (le_of_lt hm)
        omega
      · have h1 : Int.tdiv (ActualCurrentCapacity i * 100) (ActualMaxCapacity i) =
            -Int.tdiv (-(ActualCurrentCapacity i * 100)) (ActualMaxCapacity i) := by
          rw [Int.neg_tdiv, neg_neg]
        have h2 : Int.tdiv (-(ActualCurrentCapacity i * 100)) (ActualMaxCapacity i) ≤
            -(ActualCurrentCapacity i * 100) := by
          rw [Int.tdiv_eq_ediv (by omega) (by omega)]
          exact Int.ediv_le_self _ (by omega)
        omega
    · by_cases hc : 0 ≤ ActualCurrentCapacity i * 100
      · have h2 : Int.tdiv (ActualCurrentCapacity i * 100) (ActualMaxCapacity i) ≤
            ActualCurrentCapacity i * 100 := by
          rw [Int.tdiv_eq_ediv hc (by omega)]
          exact Int.ediv_le_self _ hc
        omega
      · have h1 : Int.tdiv (ActualCurrentCapacity i * 100) (ActualMaxCapacity i) =
            -Int.tdiv (-(ActualCurrentCapacity i * 100)) (ActualMaxCapacity i) := by
          rw [Int.neg_tdiv, neg_neg]
        have h2 := Int.tdiv_nonneg (show 0 ≤ -(ActualCurrentCapacity i * 100) by omega)
          (le_of_lt hm)
        omega
  have hfloor : ActualMaxCapacity i > 0 → 0 ≤ ActualCurrentCapacity i →
      ActualCurrentCapacity i * 100 ≤ 2 ^ 63 - 1 →
      ChargePercent i = ActualCurrentCapacity i * 100 / ActualMaxCapacity i := by
    intro hm h0 hhi
    rw [htrunc hm (by omega) hhi, Int.tdiv_eq_ediv (by omega) (by omega)]
  refine ⟨?_, htrunc, hfloor, ?_, rfl, rfl⟩
  · intro h
    unfold ChargePercent
    rw [if_pos h]
  · intro h0 hle hhi
    by_cases hm : ActualMaxCapacity i ≤ 0
    · unfold ChargePercent
      rw [if_pos hm]
      decide
    · rw [hfloor (by omega) h0 hhi]
      constructor
      · exact Int.ediv_nonneg (by omega) (by omega)
      · apply Int.ediv_le_of_le_mul (by omega)
        nlinarith

/-- C27 on a battery at 3000 of 4500 (raw values, which win over the plain
ones): 66 percent. -/
theorem chargePercent_quotient_witness :
    ChargePercent ⟨66, 100, 5000, 0, false, false, false, 0, 0, 3000, 4500⟩ = 66 ∧
    (0 ≤ ChargePercent ⟨66, 100, 5000, 0, false, false, false, 0, 0, 3000, 4500⟩ ∧
      ChargePercent ⟨66, 100, 5000, 0, false, false, false, 0, 0, 3000, 4500⟩ ≤ 100) :=
  ⟨((chargePercent_quotient ⟨66, 100, 5000, 0, false, false, false, 0, 0, 3000, 4500⟩).2.2.1
      (by decide) (by decide) (by decide)).trans (by decide),
    (chargePercent_quotient ⟨66, 100, 5000, 0, false, false, false, 0, 0, 3000, 4500⟩).2.2.2.1
      (by decide) (by decide) (by decide)⟩

end Battery

end Macpwr

namespace Macpwr

namespace Profiles

open Strconv Strings Bufio Regexp

theorem written_writes (path : Str) (chunks : List Str) :
    written path (chunks.map (Event.write path)) = chunks.flatten := by
  induction chunks with
  | nil => rfl
  | cons c cs ih =>
    simp only [List.map_cons, written, if_true, ih, List.flatten_cons]

/-- The lines of the saved text, and the bracketed ones among them. -/
theorem saveText_pieces (name created : Str) (current : Macpwr.Settings.AllSettings)
    (hname : NameMatches name) (hcreated : '\n' ∉ created) :
    pieces (saveText name created current) =
      [ "# macpwr profile: ".toList ++ name,
        "# Created: ".toList ++ created,
        [],
        "[battery]".toList,
        "displaysleep=".toList ++ itoa current.Battery.DisplaySleep,
        "sleep=".toList ++ itoa current.Battery.SystemSleep,
        "disksleep=".toList ++ itoa current.Battery.DiskSleep,
        [],
        "[ac]".toList,
        "displaysleep=".toList ++ itoa current.AC.DisplaySleep,
        "sleep=".toList ++ itoa current.AC.SystemSleep,
        "disksleep=".toList ++ itoa current.AC.DiskSleep,
        [] ] := by
  rw [saveText_eq_lines,
    pieces_lines _ (saveLines_no_newline name created current hname hcreated)]
  rfl

/-- C21: the text `Save` writes.  When `Save` succeeds (the time stamp the
clock prints having no line break), the chunks it wrote to the profile file
make up, line by line: the comment `# macpwr profile: <name>`, the comment
`# Created: <timestamp>`, a blank line, `[battery]`, `displaysleep=`,
`sleep=`, `disksleep=` with the battery values of the settings `Get`
returned, a blank line, `[ac]`, the same three keys with the AC values, and
nothing after the last line break.  The lines that open with a bracket are
exactly `[battery]` and `[ac]`. -/
theorem save_writes_layout {σ : Type} (W : World σ) (name : Str) (st : σ)
    (hclock : ∀ s, '\n' ∉ W.now s) (hok : (Save W name st).result = none) :
    ∃ (current : Macpwr.Settings.AllSettings) (created : Str),
      (Macpwr.Settings.Get W (W.mkdirAll W.profilesDir st).2).result = Except.ok current ∧
      (∃ s, created = W.now s) ∧
      pieces (written (W.profilePath name) (Save W name st).events) =
        [ "# macpwr profile: ".toList ++ name,
          "# Created: ".toList ++ created,
          [],
          "[battery]".toList,
          "displaysleep=".toList ++ itoa current.Battery.DisplaySleep,
          "sleep=".toList ++ itoa current.Battery.SystemSleep,
          "disksleep=".toList ++ itoa current.Battery.DiskSleep,
          [],
          "[ac]".toList,
          "displaysleep=".toList ++ itoa current.AC.DisplaySleep,
          "sleep=".toList ++ itoa current.AC.SystemSleep,
          "disksleep=".toList ++ itoa current.AC.DiskSleep,
          [] ] ∧
      (pieces (written (W.profilePath name) (Save W name st).events)).filter
          (fun l => decide (l.head? = some '[')) =
        ["[battery]".toList, "[ac]".toList] := by
  have hname : NameMatches name := by
    by_contra hn
    have hm : matchString namePattern name = false := by
      rw [← Bool.not_eq_true, matchString_namePattern]
      exact hn
    rw [Save] at hok
    simp [hm] at hok
  have hm : matchString namePattern name = true := (matchString_namePattern name).2 hname
  revert hok
  unfold Save
  simp only [hm, Bool.not_true, Bool.false_eq_true, if_false]
  rcases hmk : W.mkdirAll W.profilesDir st with ⟨_ | e, s1⟩
  · simp only []
    have hev : (Macpwr.Settings.Get W s1).events = [Event.exec Macpwr.Settings.getArgv] := by
      unfold Macpwr.Settings.Get
      split <;> rfl
    cases hget : (Macpwr.Settings.Get W s1).result with
    | error err =>
      intro hok
      simp at hok
    | ok current =>
      simp only []
      rcases hcr : W.create (W.profilePath name) (Macpwr.Settings.Get W s1).state with
        ⟨_ | e, s3⟩
      · simp only []
        intro _
        refine ⟨current, W.now (W.write (W.profilePath name)
          ("# macpwr profile: ".toList ++ name ++ "\n".toList) s3), rfl, ⟨_, rfl⟩, ?_⟩
        have hw : written (W.profilePath name)
            (Event.mkdirAll W.profilesDir :: (Macpwr.Settings.Get W s1).events ++
              [Event.create (W.profilePath name)] ++
              (saveChunks name (W.now (W.write (W.profilePath name)
                ("# macpwr profile: ".toList ++ name ++ "\n".toList) s3)) current).map
                (Event.write (W.profilePath name))) =
            saveText name (W.now (W.write (W.profilePath name)
                ("# macpwr profile: ".toList ++ name ++ "\n".toList) s3)) current := by
          rw [hev]
          exact written_writes _ _
        rw [hw, saveText_pieces name _ current hname (hclock _)]
        refine ⟨rfl, ?_⟩
        simp [List.filter]
      · intro hok
        simp at hok
  · intro hok
    simp at hok

/-- C21 on the profile `work` saved from a status output with a battery and
an AC part, the clock reading a time stamp without line break. -/
theorem save_writes_layout_witness :
    ∃ (current : Macpwr.Settings.AllSettings) (created : Str),
      (Macpwr.Settings.Get
        (calmWorld "Battery Power:\n sleep 10\nAC Power:\n displaysleep 5\n".toList []
          "Mon, 02 Jan 2006 15:04:05 MST".toList)
        ((calmWorld "Battery Power:\n sleep 10\nAC Power:\n displaysleep 5\n".toList []
          "Mon, 02 Jan 2006 15:04:05 MST".toList).mkdirAll
          (calmWorld "Battery Power:\n sleep 10\nAC Power:\n displaysleep 5\n".toList []
            "Mon, 02 Jan 2006 15:04:05 MST".toList).profilesDir ()).2).result =
        Except.ok current ∧
      (∃ s, created =
        (calmWorld "Battery Power:\n sleep 10\nAC Power:\n displaysleep 5\n".toList []
          "Mon, 02 Jan 2006 15:04:05 MST".toList).now s) ∧
      pieces (written
          ((calmWorld "Battery Power:\n sleep 10\nAC Power:\n displaysleep 5\n".toList []
            "Mon, 02 Jan 2006 15:04:05 MST".toList).profilePath "work".toList)
          (Save (calmWorld "Battery Power:\n sleep 10\nAC Power:\n displaysleep 5\n".toList []
            "Mon, 02 Jan 2006 15:04:05 MST".toList) "work".toList ()).events) =
        [ "# macpwr profile: ".toList ++ "work".toList,
          "# Created: ".toList ++ created,
          [],
          "[battery]".toList,
          "displaysleep=".toList ++ itoa current.Battery.DisplaySleep,
          "sleep=".toList ++ itoa current.Battery.SystemSleep,
          "disksleep=".toList ++ itoa current.Battery.DiskSleep,
          [],
          "[ac]".toList,
          "displaysleep=".toList ++ itoa current.AC.DisplaySleep,
          "sleep=".toList ++ itoa current.AC.SystemSleep,
          "disksleep=".toList ++ itoa current.AC.DiskSleep,
          [] ] ∧
      (pieces (written
          ((calmWorld "Battery Power:\n sleep 10\nAC Power:\n displaysleep 5\n".toList []
            "Mon, 02 Jan 2006 15:04:05 MST".toList).profilePath "work".toList)
          (Save (calmWorld "Battery Power:\n sleep 10\nAC Power:\n displaysleep 5\n".toList []
            "Mon, 02 Jan 2006 15:04:05 MST".toList) "work".toList ()).events)).filter
          (fun l => decide (l.head? = some '[')) =
        ["[battery]".toList, "[ac]".toList] :=
  save_writes_layout
    (calmWorld "Battery Power:\n sleep 10\nAC Power:\n displaysleep 5\n".toList []
      "Mon, 02 Jan 2006 15:04:05 MST".toList) "work".toList ()
    (fun _ => (by decide : '\n' ∉ "Mon, 02 Jan 2006 15:04:05 MST".toList)) rfl

end Profiles

end Macpwr

namespace Macpwr

namespace Main

open Settings

/-- C25: the name `setCmd` prints against the selector it passes on.  With
one of `--ac`, `--battery`, or with neither, the two agree (`AC Power` with
`-c`, `Battery` with `-b`), and with neither flag the selector is `-c`.
With both flags they differ: the selector is `-c`, the name printed is
`Battery`; `set --ac --battery -d 10` announces the battery and writes the
AC timers. -/
theorem set_name_against_selector :
    (∀ f : SetFlags, ¬ (f.ac = true ∧ f.bat = true) →
      ((setOptions f).PowerSource = "-c".toList ∧ sourceName f = "AC Power".toList) ∨
      ((setOptions f).PowerSource = "-b".toList ∧ sourceName f = "Battery".toList)) ∧
    (∀ f : SetFlags, f.ac = false → f.bat = false →
      (setOptions f).PowerSource = "-c".toList) ∧
    (∀ f : SetFlags, f.ac = true → f.bat = true →
      (setOptions f).PowerSource = "-c".toList ∧ sourceName f = "Battery".toList) ∧
    (setCmd (calmWorld [] [] []) Display.noColor
        ⟨true, true, 10, 0, 0, true, false, false⟩ ()).events =
      [ Event.stdout "\nApplying to Battery:\n".toList,
        Event.stdout "  â€¢ Display sleep: 10 min\n".toList,
        Event.stdout "\n".toList,
        Event.exec ["sudo".toList, "pmset".toList, "-c".toList, "displaysleep".toList,
          "10".toList],
        Event.stdout "✓ Settings applied successfully!\n".toList,
        Event.stdout "\n".toList ] := by
  refine ⟨?_, ?_, ?_, by decide⟩
  · rintro ⟨ac, bat, dv, sv, kv, d, s, k⟩ h
    cases ac <;> cases bat <;> simp [setOptions, sourceName] at h ⊢
  · rintro ⟨ac, bat, dv, sv, kv, d, s, k⟩ h1 h2
    simp only at h1 h2
    subst h1 h2
    simp [setOptions]
  · rintro ⟨ac, bat, dv, sv, kv, d, s, k⟩ h1 h2
    simp only at h1 h2
    subst h1 h2
    simp [setOptions, sourceName]

theorem load_result_some {σ : Type} {τ : Type} (W : World σ) (timeParse : Str → τ) (zero : τ)
    (name : Str) (st : σ) :
    (Profiles.Load W timeParse zero name st).result ≠ (none, none) := by
  unfold Profiles.Load
  simp only []
  split
  · intro h
    cases h
  · intro h
    cases h

theorem profileLoadCmd_returns {σ : Type} {τ : Type} (W : World σ) (pal : Display.Palette)
    (timeParse : Str → τ) (zero : τ) (name : Str) (st : σ) :
    (profileLoadCmd W pal timeParse zero name st).result = Ending.returned := by
  have hl := load_result_some W timeParse zero name st
  unfold profileLoadCmd
  simp only []
  split
  · rfl
  · rename_i h
    exact absurd h hl
  · split <;> rfl

/-- C22, as stated, fails: a command that reports an error returns like any
other and the process exits with status 0.  `set` without a timer flag and
`preset` with an unknown name both call `display.Error` and end in
status 0. -/
theorem exit_zero_after_reported_error :
    reportsError (main (calmWorld [] [] []) Display.noColor (fun _ => ()) ()
      (Invocation.toSet ⟨false, false, 0, 0, 0, false, false, false⟩) ()).events = true ∧
    (main (calmWorld [] [] []) Display.noColor (fun _ => ()) ()
      (Invocation.toSet ⟨false, false, 0, 0, 0, false, false, false⟩) ()).result = 0 ∧
    reportsError (main (calmWorld [] [] []) Display.noColor (fun _ => ()) ()
      (Invocation.toPreset ["turbo".toList]) ()).events = true ∧
    (main (calmWorld [] [] []) Display.noColor (fun _ => ()) ()
      (Invocation.toPreset ["turbo".toList]) ()).result = 0 := by
  decide

/-- C22, amended: the process exits with code 1 exactly when the command
line is refused before any command runs (`Execute` returns an error), and
with code 0 whenever the `Run` function of a command returns, also when the
command reported an error: `show` when reading the settings fails, `set`
when no timer flag is given or the mutation fails, `preset` with an unknown
name, and `profile load` of a profile that cannot be read all report the
error and end in code 0. -/
theorem exit_code_by_invocation {σ : Type} {τ : Type} (W : World σ) (pal : Display.Palette)
    (timeParse : Str → τ) (zero : τ) (st : σ) :
    (∀ inv : Invocation σ, (main W pal timeParse zero inv st).result = 1 ↔
      ∃ e, inv = Invocation.refused e) ∧
    (∀ inv : Invocation σ, (∀ e, inv ≠ Invocation.refused e) →
      (∀ run, inv = Invocation.toOther run → (run st).result = Ending.returned) →
      (main W pal timeParse zero inv st).result = 0) ∧
    (∀ e, (W.output getArgv st).1 = Except.error e →
      reportsError (main W pal timeParse zero Invocation.toShow st).events = true ∧
      (main W pal timeParse zero Invocation.toShow st).result = 0) ∧
    (∀ f : SetFlags, f.dFlag = false → f.sFlag = false → f.kFlag = false →
      reportsError (main W pal timeParse zero (Invocation.toSet f) st).events = true ∧
      (main W pal timeParse zero (Invocation.toSet f) st).result = 0) ∧
    (∀ (f : SetFlags) (e : OsError), (f.dFlag = true ∨ f.sFlag = true ∨ f.kFlag = true) →
      (W.run (setArgv (setOptions f)) st).1 = some e →
      reportsError (main W pal timeParse zero (Invocation.toSet f) st).events = true ∧
      (main W pal timeParse zero (Invocation.toSet f) st).result = 0) ∧
    (∀ (name : Str) (rest : List Str), name ≠ "list".toList → Presets.Get name = none →
      reportsError (main W pal timeParse zero (Invocation.toPreset (name :: rest)) st).events =
        true ∧
      (main W pal timeParse zero (Invocation.toPreset (name :: rest)) st).result = 0) ∧
    (∀ (name : Str) (e : OsError), (W.readFile (W.profilePath name) st).1 = Except.error e →
      reportsError (main W pal timeParse zero (Invocation.toProfileLoad name) st).events =
        true ∧
      (main W pal timeParse zero (Invocation.toProfileLoad name) st).result = 0) := by
  have hzero : ∀ inv : Invocation σ, (∀ e, inv ≠ Invocation.refused e) →
      (∀ run, inv = Invocation.toOther run → (run st).result = Ending.returned) →
      (main W pal timeParse zero inv st).result = 0 := by
    intro inv hne hother
    cases inv with
    | refused e => exact absurd rfl (hne e)
    | toShow => rfl
    | toSet f => rfl
    | toPreset args => rfl
    | toProfileLoad name =>
      unfold main dispatch
      simp only [profileLoadCmd_returns]
    | toOther run =>
      unfold main dispatch
      simp only [hother run rfl]
  refine ⟨?_, hzero, ?_, ?_, ?_, ?_, ?_⟩
  · intro inv
    constructor
    · intro h
      cases inv with
      | refused e => exact ⟨e, rfl⟩
      | toShow => cases h
      | toSet f => cases h
      | toPreset args => cases h
      | toProfileLoad name =>
        unfold main dispatch at h
        simp only [profileLoadCmd_returns] at h
        cases h
      | toOther run =>
        unfold main dispatch at h
        simp only [] at h
        cases hr : (run st).result with
        | returned =>
          rw [hr] at h
          cases h
        | panicked =>
          rw [hr] at h
          cases h
    · rintro ⟨e, rfl⟩
      rfl
  · intro e he
    refine ⟨?_, rfl⟩
    show reportsError (showCmd W pal st).events = true
    unfold showCmd Settings.Get
    rcases ho : W.output getArgv st with ⟨r, s1⟩
    rw [ho] at he
    simp only at he
    subst he
    simp [reportsError]
  · intro f hd hs hk
    refine ⟨?_, rfl⟩
    show reportsError (setCmd W pal f st).events = true
    unfold setCmd
    simp [hd, hs, hk, reportsError]
  · intro f e hflag he
    refine ⟨?_, rfl⟩
    show reportsError (setCmd W pal f st).events = true
    have hguard : (!f.dFlag && !f.sFlag && !f.kFlag) = false := by
      rcases hflag with h | h | h <;> simp [h]
    unfold setCmd
    simp only [hguard, Bool.false_eq_true, if_false, Settings.Set, he, Option.map]
    simp [reportsError]
  · intro name rest hlist hget
    refine ⟨?_, rfl⟩
    show reportsError (presetCmd W pal (name :: rest) st).events = true
    unfold presetCmd
    simp only [hlist, if_false, hget]
    simp [reportsError]
  · intro name e he
    have hload : (Profiles.Load W timeParse zero name st).result =
        (none, some (GoError.external e)) ∧
        (Profiles.Load W timeParse zero name st).events = [Event.read (W.profilePath name)] := by
      unfold Profiles.Load
      simp only []
      rcases hr : W.readFile (W.profilePath name) st with ⟨r, s1⟩
      rw [hr] at he
      simp only at he
      subst he
      exact ⟨rfl, rfl⟩
    have hcmd : profileLoadCmd W pal timeParse zero name st =
        ⟨Ending.returned, (Profiles.Load W timeParse zero name st).events ++
          [Event.error ("Profile not found: ".toList ++ name)],
          (Profiles.Load W timeParse zero name st).state⟩ := by
      unfold profileLoadCmd
      simp only [hload.1]
    unfold main dispatch
    simp only [hcmd, hload.2]
    exact ⟨by simp [reportsError], trivial⟩

/-- C22 on `preset list` in a world where every call succeeds, exit code 0,
and on a command line the library refuses, exit code 1. -/
theorem exit_code_by_invocation_witness :
    (main (calmWorld [] [] []) Display.noColor (fun _ => ()) ()
      (Invocation.toPreset ["list".toList]) ()).result = 0 ∧
    (main (calmWorld [] [] []) Display.noColor (fun _ => ()) ()
      (Invocation.refused ⟨"unknown command".toList⟩) ()).result = 1 :=
  ⟨(exit_code_by_invocation (calmWorld [] [] []) Display.noColor (fun _ => ()) () ()).2.1
      (Invocation.toPreset ["list".toList]) (fun e h => by cases h) (fun run h => by cases h),
    ((exit_code_by_invocation (calmWorld [] [] []) Display.noColor (fun _ => ()) () ()).1
      (Invocation.refused ⟨"unknown command".toList⟩)).2 ⟨_, rfl⟩⟩

end Main

end Macpwr

namespace Macpwr

namespace Caffeinate

open Strconv

/-- The loop when the first `select` to return `ctx.Done()` is the one
numbered `turn + k`, with `remaining` still above `k`: `k` lines of the
countdown, the cancellation message, the kill, no error. -/
theorem countdownLoop_done (child : Child) (sel : Nat → Selected) :
    ∀ (k remaining turn : Nat) (cancelled : Bool), k < remaining →
      (∀ j, j < k → ∃ ready, sel (turn + j) = Selected.tick ready) →
      sel (turn + k) = Selected.done →
      countdownLoop child sel remaining turn cancelled =
        ((List.range k).map (fun j => Action.print (remainingLine ((remaining - 1 - j : Nat) : Int))) ++
          [Action.print "\n\nCaffeinate cancelled.\n".toList, Action.kill], none) := by
  intro k
  induction k with
  | zero =>
    intro remaining turn cancelled hk _ hdone
    cases remaining with
    | zero => omega
    | succ r =>
      rw [Nat.add_zero] at hdone
      rw [countdownLoop, hdone]
      rfl
  | succ k ih =>
    intro remaining turn cancelled hk hticks hdone
    cases remaining with
    | zero => omega
    | succ r =>
      obtain ⟨ready, h0⟩ := hticks 0 (by omega)
      rw [Nat.add_zero] at h0
      have hrest := ih r (turn + 1) (cancelled || ready) (by omega)
        (fun j hj => by
          obtain ⟨b, hb⟩ := hticks (j + 1) (by omega)
          exact ⟨b, by rw [← hb]; congr 1; omega⟩)
        (by rw [← hdone]; congr 1; omega)
      have hlist : (List.range (k + 1)).map
            (fun j => Action.print (remainingLine ((r + 1 - 1 - j : Nat) : Int))) =
          Action.print (remainingLine (r : Int)) ::
            (List.range k).map (fun j => Action.print (remainingLine ((r - 1 - j : Nat) : Int))) := by
        rw [List.range_succ_eq_map, List.map_cons, List.map_map]
        congr 1
        apply List.map_congr_left
        intro j _
        simp only [Function.comp]
        congr 3
        omega
      rw [countdownLoop, h0]
      simp only []
      rw [hrest, hlist]
      rfl

/-- Every way out of the loop ends in the kill or in the wait. -/
theorem countdownLoop_ends (child : Child) (sel : Nat → Selected) :
    ∀ (remaining turn : Nat) (cancelled : Bool),
      Action.kill ∈ (countdownLoop child sel remaining turn cancelled).1 ∨
      Action.wait ∈ (countdownLoop child sel remaining turn cancelled).1 := by
  intro remaining
  induction remaining with
  | zero =>
    intro turn cancelled
    right
    simp [countdownLoop]
  | succ r ih =>
    intro turn cancelled
    rw [countdownLoop]
    cases sel turn with
    | done =>
      left
      simp
    | tick ready =>
      simp only []
      rcases ih (turn + 1) (cancelled || ready) with h | h
      · exact Or.inl (List.mem_cons_of_mem _ h)
      · exact Or.inr (List.mem_cons_of_mem _ h)

/-- C23, as stated, fails: the runner sees the interrupt only when its
`select` takes the case `ctx.Done()`.  With one minute left, the
cancellation ready and the tick taken, the loop ends and the runner returns
what `cmd.Wait()` returns for the killed child, not nil. -/
theorem countdown_interrupt_at_last_tick :
    runWithCountdown ⟨none, fun killed => if killed then some ⟨"signal: killed".toList⟩ else none⟩
        (fun _ => Selected.tick true) ["-dims".toList, "-t".toList, "60".toList] 1 =
      ([ Action.start ["-dims".toList, "-t".toList, "60".toList],
          Action.print "\r  Time remaining: 1 min  ".toList,
          Action.print "\r  Time remaining: 0 min  ".toList,
          Action.print "\n\n".toList,
          Action.wait ],
        some ⟨"signal: killed".toList⟩) := by
  decide

/-- C23, amended: in timed mode, for every duration above 0, once a `select`
of the countdown takes the cancellation (the case `ctx.Done()`, after `k`
ticks with `k` below the duration) the countdown ends there, the child is
killed, and the runner returns nil without calling `Wait`, whatever `Wait`
would have returned; and after a successful start every run of the runner
kills the child or waits for it, while a failed start returns its error
with no child to look after. -/
theorem countdown_cancel_kills_returns_nil :
    (∀ (child : Child) (sel : Nat → Selected) (args : List Str) (minutes : Int) (k : Nat),
      child.start = none → (k : Int) < minutes →
      (∀ j, j < k → ∃ ready, sel j = Selected.tick ready) → sel k = Selected.done →
      runWithCountdown child sel args minutes =
        (Action.start args :: Action.print (remainingLine minutes) ::
          ((List.range k).map (fun (j : Nat) => Action.print (remainingLine (minutes - 1 - (j : Int)))) ++
            [Action.print "\n\nCaffeinate cancelled.\n".toList, Action.kill]), none)) ∧
    (∀ (child : Child) (sel : Nat → Selected) (args : List Str) (minutes : Int),
      child.start = none →
      Action.kill ∈ (runWithCountdown child sel args minutes).1 ∨
      Action.wait ∈ (runWithCountdown child sel args minutes).1) ∧
    (∀ (child : Child) (sel : Nat → Selected) (args : List Str) (minutes : Int) (e : OsError),
      child.start = some e →
      runWithCountdown child sel args minutes = ([Action.start args], some e)) := by
  refine ⟨?_, ?_, ?_⟩
  · intro child sel args minutes k hstart hk hticks hdone
    have hloop := countdownLoop_done child sel k minutes.toNat 0 false (by omega)
      (fun j hj => by rw [Nat.zero_add]; exact hticks j hj) (by rw [Nat.zero_add]; exact hdone)
    unfold runWithCountdown
    rw [hstart]
    simp only []
    rw [hloop]
    have hmap : (List.range k).map
          (fun j => Action.print (remainingLine ((minutes.toNat - 1 - j : Nat) : Int))) =
        (List.range k).map
          (fun (j : Nat) => Action.print (remainingLine (minutes - 1 - (j : Int)))) := by
      apply List.map_congr_left
      intro j hj
      have hj' : j < k := List.mem_range.1 hj
      congr 2
      omega
    rw [hmap]
  · intro child sel args minutes hstart
    unfold runWithCountdown
    rw [hstart]
    simp only []
    rcases countdownLoop_ends child sel minutes.toNat 0 false with h | h
    · exact Or.inl (List.mem_cons_of_mem _ (List.mem_cons_of_mem _ h))
    · exact Or.inr (List.mem_cons_of_mem _ (List.mem_cons_of_mem _ h))
  · intro child sel args minutes e hstart
    unfold runWithCountdown
    rw [hstart]

/-- C23 on the scenario of the specification: a duration of 5 minutes and an
interrupt taken after one tick. -/
theorem countdown_cancel_kills_returns_nil_witness :
    runWithCountdown ⟨none, fun killed => if killed then some ⟨"signal: killed".toList⟩ else none⟩
        (fun n => if n = 0 then Selected.tick false else Selected.done)
        ["-dims".toList, "-t".toList, "300".toList] 5 =
      ([ Action.start ["-dims".toList, "-t".toList, "300".toList],
          Action.print "\r  Time remaining: 5 min  ".toList,
          Action.print "\r  Time remaining: 4 min  ".toList,
          Action.print "\n\nCaffeinate cancelled.\n".toList,
          Action.kill ],
        none) :=
  (countdown_cancel_kills_returns_nil.1
    ⟨none, fun killed => if killed then some ⟨"signal: killed".toList⟩ else none⟩
    (fun n => if n = 0 then Selected.tick false else Selected.done)
    ["-dims".toList, "-t".toList, "300".toList] 5 1 rfl (by decide)
    (fun j hj => ⟨false, by have : j = 0 := by omega
                            subst this
                            rfl⟩)
    rfl).trans (by decide)

end Caffeinate

end Macpwr
